import Mathlib

/-!
# Route manager of the Star Citizen WebGL map

A shallow embedding of `src/scmap/route.js` (class `Route`): the waypoint list, the list of
solver segments kept beside it, the sync pass and the structural edits `splitAt`,
`removeWaypoint` and `moveWaypoint`.

Conventions of the embedding

* A JavaScript object reference is compared with `===`; star systems are represented by their
  identity, so `===` on systems and equality of their `id` are both Lean equality.
* A reference to a solver object held in `_graphs` is represented by the index of the slot that
  holds it, paired with the object: every slot of `_graphs` holds its own object (each one comes
  from a `new Dijkstra`), so `a === b` for two such references is equality of the indices.
* A call either returns a value (`true`, `false` or `undefined`) or lets an exception escape;
  `Completion` records which, together with the route as the call left it.
* An entry of `routeArray()` is represented by its `system` field, the only field the route
  manager reads.

The file also embeds the legacy `js/SCMAP/Route.js` where it differs, the jump points of
`js/SCMAP/JumpPoint.js`, the reference grid of `src/scmap/map.js`, and the shortest-path search
the segments are built with.
-/

namespace SCMAP

/-- A star system, the node of the map; the route manager compares systems by identity and
by `id` only. -/
structure StarSystem where
  id : Nat
deriving DecidableEq, Repr

/-- The value stored in `_error` by a sync pass: the `RouteSegmentFailed` the pass throws itself,
or any other exception caught by its `catch`. -/
inductive RouteError where
  | RouteSegmentFailed
  | Other
deriving DecidableEq, Repr

/-- Modelled from the spec: the solver class `Dijkstra` (`dijkstra.js`) and the flag
`hasSessionStorage` (`helpers/functions.js`) are imported by `route.js` but are not among the
sources. `buildGraph s e` tells whether `buildGraph('time', true)` on a solver bound to start `s`
and end `e` completes (`false`: it throws); `routeArray s d` is what `routeArray(d)` yields on a
solver built from start `s`, the ordered sequence of systems from `s` to `d`, of length at most
one when `d` cannot be reached (`none`: the call throws). Both are functions of the bounds alone:
the graph is read-only and the solver is deterministic. Constructing a solver computes nothing
and is taken not to throw. -/
structure Env where
  buildGraph : Option StarSystem → Option StarSystem → Bool
  routeArray : Option StarSystem → Option StarSystem → Option (List StarSystem)
  hasSessionStorage : Bool

/-- A solver object as the route manager sees it: its two mutable bounds `start` and `end`. -/
structure Dijkstra where
  start : Option StarSystem
  end_ : Option StarSystem
deriving DecidableEq, Repr

/-- The record `{ start: id, waypoints: [id, ...] }` that `storeToSession` serialises. -/
structure SessionRecord where
  start : Nat
  waypoints : List Nat
deriving DecidableEq, Repr

/-- The state the methods of `Route` act on: the fields `start`, `waypoints`, `_graphs` and
`_error` of the object, and `window.sessionStorage.currentRoute` (`none`: the key is absent),
kept beside them so that the calls of `storeToSession` show in the state. -/
structure Route where
  start : Option StarSystem
  waypoints : List StarSystem
  _graphs : List Dijkstra
  _error : Option RouteError
  currentRoute : Option SessionRecord
deriving DecidableEq, Repr

/-- How a method call ends: it returns `value` (`some true`, `some false`, or `none` for
`undefined`), or an exception escapes; `route` is the state it leaves. -/
inductive Completion where
  | returned (value : Option Bool) (route : Route)
  | threw (route : Route)
deriving DecidableEq, Repr

/-- The call `Array.prototype.splice(start, deleteCount, ...items)` for `start` within the
array. -/
def splice {α : Type} (xs : List α) (start deleteCount : Nat) (items : List α) : List α :=
  xs.take start ++ items ++ xs.drop (start + deleteCount)

/-- The method `Array.prototype.indexOf`; `none` stands for `-1`. -/
def indexOf (xs : List StarSystem) (x : StarSystem) : Option Nat :=
  match xs with
  | [] => none
  | y :: ys => if y = x then some 0 else (indexOf ys x).map (· + 1)

/-- The call `graph.routeArray()` inside the `try` of `__findGraphs`: the empty array the variable
was initialised with stays when the call throws. -/
def Dijkstra.routeArrayOrEmpty (E : Env) (graph : Dijkstra) : List StarSystem :=
  (E.routeArray graph.start graph.end_).getD []

/-- The call `graph.lastNode()`: the terminal entry of the route array the solver computed last
(`none`: there is none, the call yields `undefined`). -/
def Dijkstra.lastNode (E : Env) (graph : Dijkstra) : Option StarSystem :=
  match E.routeArray graph.start graph.end_ with
  | some route => route.getLast?
  | none => none

/-- The method `storeToSession()`. -/
def storeToSession (E : Env) (r : Route) : Route :=
  if E.hasSessionStorage then
    match r.start with
    | some start =>
      if r.waypoints.length ≠ 0 then
        { r with currentRoute := some ⟨start.id, r.waypoints.map (fun waypoint => waypoint.id)⟩ }
      else { r with currentRoute := none }
    | none => { r with currentRoute := none }
  else r

/-- The `for` loop of `__syncGraphs`, from index `i` with `newGraphs` built so far; the result is
the array and the exception caught, if any. `this._graphs` was assigned `newGraphs` before the
loop and is the very same array, so `this._graphs[i]` is read from `newGraphs`. The first
argument bounds the number of iterations (the loop runs at most once per waypoint). -/
def __syncGraphs.loop (E : Env) (start : Option StarSystem) (waypoints : List StarSystem) :
    Nat → Nat → List Dijkstra → List Dijkstra × Option RouteError
  | 0, _, newGraphs => (newGraphs, none)
  | fuel + 1, i, newGraphs =>
    if i < waypoints.length then
      let s : Option StarSystem := if i = 0 then start else waypoints[i - 1]?
      let e : Option StarSystem := waypoints[i]?
      let graph : Dijkstra :=
        match newGraphs[i]? with
        | some g => { g with start := s, end_ := e }
        | none => { start := s, end_ := e }
      if E.buildGraph graph.start graph.end_ = false then
        (newGraphs, some RouteError.Other)
      else
        match E.routeArray graph.start graph.end_ with
        | none => (newGraphs ++ [graph], some RouteError.Other)
        | some route =>
          if route.length ≤ 1 then
            (newGraphs ++ [graph],
              some (if s.isSome then RouteError.RouteSegmentFailed else RouteError.Other))
          else __syncGraphs.loop E start waypoints fuel (i + 1) (newGraphs ++ [graph])
    else (newGraphs, none)

/-- The method `__syncGraphs()`: the array assigned to `_graphs` before the loop is the one the
loop fills, so whatever the loop leaves in it is the segment list afterwards. -/
def __syncGraphs (E : Env) (r : Route) : Route :=
  let out := __syncGraphs.loop E r.start r.waypoints r.waypoints.length 0 []
  { r with _graphs := out.1, _error := out.2 }

/-- The constructor `new Route(start, waypoints)`; an argument that is not a `StarSystem` is
`none`, a single system passed as `waypoints` is the one-element list. `currentRoute` is the
session entry at that moment (the constructor does not touch it). -/
def Route.create (E : Env) (currentRoute : Option SessionRecord) (start : Option StarSystem)
    (waypoints : List (Option StarSystem)) : Route :=
  __syncGraphs E
    { start := start, waypoints := waypoints.filterMap id, _graphs := [], _error := none,
      currentRoute := currentRoute }

/-- The `routeArray.forEach` of `__findGraphs` for the graph in slot `i`: `acc` is the pair of
`graphs` and the keys set in `seen`. -/
def __findGraphs.forEach (system : StarSystem) (i : Nat) (graph : Dijkstra) :
    List StarSystem → List (Nat × Dijkstra) × List Nat → List (Nat × Dijkstra) × List Nat
  | [], acc => acc
  | waypoint :: rest, acc =>
    if waypoint = system ∧ ¬ (waypoint.id ∈ acc.2) then
      __findGraphs.forEach system i graph rest (acc.1 ++ [(i, graph)], waypoint.id :: acc.2)
    else __findGraphs.forEach system i graph rest acc

/-- The `for` loop of `__findGraphs` over the slots from `i` on; `none`: a `TypeError`
escapes (`routeArray[0]` is `undefined`). -/
def __findGraphs.loop (E : Env) (system : StarSystem) :
    List Dijkstra → Nat → List (Nat × Dijkstra) → List Nat → Option (List (Nat × Dijkstra))
  | [], _, graphs, _ => some graphs
  | graph :: rest, i, graphs, seen =>
    let routeArray := graph.routeArrayOrEmpty E
    let acc := __findGraphs.forEach system i graph routeArray (graphs, seen)
    if graphs.length ≠ 0 then
      match routeArray.head? with
      | none => none
      | some first =>
        if first.id = system.id then some (graphs ++ [(i, graph)])
        else __findGraphs.loop E system rest (i + 1) acc.1 acc.2
    else __findGraphs.loop E system rest (i + 1) acc.1 acc.2

/-- The method `__findGraphs(system)`. -/
def __findGraphs (E : Env) (r : Route) (system : StarSystem) : Option (List (Nat × Dijkstra)) :=
  __findGraphs.loop E system r._graphs 0 [] []

/-- The inner loop of `splitAt`: insert `waypoint` before the first entry that is `oldEnd`. -/
def splitAt.insertWaypoint (oldEnd waypoint : StarSystem) : List StarSystem → List StarSystem
  | [] => []
  | x :: xs =>
    if x = oldEnd then waypoint :: x :: xs
    else x :: splitAt.insertWaypoint oldEnd waypoint xs

/-- The method `splitAt(waypoint)`. -/
def splitAt (E : Env) (r : Route) (waypoint : StarSystem) : Completion :=
  match __findGraphs E r waypoint with
  | none => Completion.threw r
  | some graphs =>
    if graphs.length > 1 then Completion.returned (some false) r
    else
      match graphs with
      | [(gi, graph)] =>
        match graph.lastNode E with
        | none => Completion.threw r
        | some oldEnd =>
          let r1 := { r with _graphs := r._graphs.set gi { graph with end_ := some waypoint } }
          match (List.range r1._graphs.length).find? (fun i => decide (i = gi)) with
          | some i =>
            let r2 := { r1 with
              _graphs := splice r1._graphs (i + 1) 0 [{ start := some waypoint, end_ := some oldEnd }] }
            let r3 := { r2 with waypoints := splitAt.insertWaypoint oldEnd waypoint r2.waypoints }
            Completion.returned (some true) (storeToSession E (__syncGraphs E r3))
          | none => Completion.returned none r1
      | _ => Completion.returned (some false) r

/-- The `this.waypoints.forEach` of `removeWaypoint`: `forEach` visits the indices in order on
the array as it is at each visit, so after `splice( waypointIndex, 1 )` the entry that moved
into the freed slot is not visited. -/
def removeWaypoint.forEachWaypoint (toRemove : StarSystem) : List StarSystem → List StarSystem
  | [] => []
  | [x] => if toRemove = x then [] else [x]
  | x :: y :: rest =>
    if toRemove = x then y :: removeWaypoint.forEachWaypoint toRemove rest
    else x :: removeWaypoint.forEachWaypoint toRemove (y :: rest)

/-- The `this._graphs.forEach` of `removeWaypoint` over the slots listed; the callback acts on
the slot holding `graphTwo` (index `two`) and on no other, since no other slot holds that
object. -/
def removeWaypoint.forEachGraph (E : Env) (toRemove : StarSystem) (two : Nat) :
    List Nat → Route → Route
  | [], r => r
  | graphIndex :: rest, r =>
    if graphIndex = two then
      let r1 := { r with _graphs := splice r._graphs graphIndex 1 [] }
      let r2 := { r1 with waypoints := removeWaypoint.forEachWaypoint toRemove r1.waypoints }
      removeWaypoint.forEachGraph E toRemove two rest (storeToSession E (__syncGraphs E r2))
    else removeWaypoint.forEachGraph E toRemove two rest r

/-- The method `removeWaypoint(toRemove)`; the `return true` of the source is the callback returning, the
method itself ends without a `return` after the `forEach`. -/
def removeWaypoint (E : Env) (r : Route) (toRemove : StarSystem) : Completion :=
  match __findGraphs E r toRemove with
  | none => Completion.threw r
  | some graphs =>
    match graphs with
    | [(one, graphOne), (two, graphTwo)] =>
      let r1 := { r with _graphs := r._graphs.set one { graphOne with end_ := graphTwo.start } }
      Completion.returned none
        (removeWaypoint.forEachGraph E toRemove two (List.range r1._graphs.length) r1)
    | _ => Completion.returned (some false) r

/-- The method `moveWaypoint(waypoint, destination)`. -/
def moveWaypoint (E : Env) (r : Route) (waypoint destination : StarSystem) : Completion :=
  if waypoint = destination then Completion.returned (some false) r
  else if some destination = r.start ∨ (indexOf r.waypoints destination).isSome then
    Completion.returned (some false) r
  else if some waypoint = r.start then
    if r.waypoints.length ≠ 1 ∨ some destination ≠ r.waypoints[0]? then
      Completion.returned (some true)
        (storeToSession E (__syncGraphs E { r with start := some destination }))
    else Completion.returned (some false) r
  else
    match indexOf r.waypoints waypoint with
    | some index =>
      Completion.returned (some true)
        (storeToSession E (__syncGraphs E { r with waypoints := r.waypoints.set index destination }))
    | none =>
      match splitAt E r waypoint with
      | Completion.threw r1 => Completion.threw r1
      | Completion.returned (some true) r1 =>
        match indexOf r1.waypoints waypoint with
        | some index =>
          Completion.returned (some true)
            (storeToSession E
              (__syncGraphs E { r1 with waypoints := r1.waypoints.set index destination }))
        | none => Completion.returned (some false) r1
      | Completion.returned _ r1 => Completion.returned (some false) r1

/-- The method `setRoute(newStart, ...newWaypoints)`; `args` is the argument list, an argument
that is not a `StarSystem` being `none`. `args.shift()` of an empty list is `undefined`. The
second pass over `waypoints` (`filter` on `instanceof StarSystem`) keeps every entry, all of
them being systems. The method does not call `__syncGraphs`. -/
def setRoute (E : Env) (r : Route) (args : List (Option StarSystem)) : Route :=
  let start : Option StarSystem :=
    match args with
    | [] => none
    | first :: _ => first
  let r1 := { r with start := start, waypoints := [] }
  let r2 :=
    match r1.start with
    | some _ =>
      { r1 with waypoints := ((args.drop 1).filterMap id).filter (fun _ => true) }
    | none => r1
  storeToSession E r2

/-- The loop of `currentRoute()` over the slots from `i` on, `route` being the array built so
far; `none`: an exception escapes. Modelled from the spec for the solver calls:
`rebuildGraph()` re-runs `buildGraph` on the bounds of the segment and throws when that does;
`routeArray(waypoints[i])` is read from the tables built from the start of the segment. -/
def currentRoute.loop (E : Env) (waypoints : List StarSystem) :
    List Dijkstra → Nat → List StarSystem → Option (List StarSystem)
  | [], _, route => some route
  | graph :: rest, i, route =>
    match waypoints[i]? with
    | some waypoint =>
      if E.buildGraph graph.start graph.end_ = false then none
      else
        match E.routeArray graph.start (some waypoint) with
        | none => none
        | some routePart => currentRoute.loop E waypoints rest (i + 1) (route ++ routePart)
    | none => currentRoute.loop E waypoints rest (i + 1) route

/-- The method `currentRoute()`. -/
def currentRoute (E : Env) (r : Route) : Option (List StarSystem) :=
  currentRoute.loop E r.waypoints r._graphs 0 []

/-- The `forEach` of `indexOfCurrentRoute`: `currentStep` is overwritten at every entry that
is `system`. -/
def indexOfCurrentRoute.forEach (system : StarSystem) : List StarSystem → Nat → Nat → Nat
  | [], _, currentStep => currentStep
  | waypoint :: rest, index, currentStep =>
    indexOfCurrentRoute.forEach system rest (index + 1)
      (if waypoint = system then index else currentStep)

/-- The method `indexOfCurrentRoute(system)`; `none`: an exception escapes from
`currentRoute()`. The guard `! system instanceof StarSystem` tests `(!system) instanceof
StarSystem`, which is false for every argument, so the early `return` is never taken. -/
def indexOfCurrentRoute (E : Env) (r : Route) (system : StarSystem) : Option Nat :=
  match currentRoute E r with
  | none => none
  | some route => some (indexOfCurrentRoute.forEach system route 0 0)

/-- The method `alphaOfSystem(system)`; the quotient of two integers is taken in the
rationals. `none`: an exception escapes from `currentRoute()`. -/
def alphaOfSystem (E : Env) (r : Route) (system : StarSystem) : Option ℚ :=
  match indexOfCurrentRoute E r system with
  | none => none
  | some currentStep =>
    if currentStep ≠ 0 then
      match currentRoute E r with
      | none => none
      | some route => some ((currentStep : ℚ) / (route.length : ℚ))
    else some 0

/-- The state part of `update()`: the sync pass, then `currentRoute()`, from which an
exception may escape; what follows in the method acts on the scene and the route list of the
page only. -/
def update (E : Env) (r : Route) : Completion :=
  let r1 := __syncGraphs E r
  match currentRoute E r1 with
  | none => Completion.threw r1
  | some _ => Completion.returned none r1

/-- The method `destroy()`. -/
def destroy (E : Env) (r : Route) : Completion :=
  update E { r with start := none, waypoints := [] }

/-- The fields `start` and `waypoints` as `restoreFromSession` leaves them: an entry is `none`
where `StarSystem.getById` returned `undefined`. The method writes no other field. -/
structure Restored where
  start : Option StarSystem
  waypoints : List (Option StarSystem)
deriving DecidableEq, Repr

/-- The method `restoreFromSession()`; `getById` is the lookup `StarSystem.getById`
(`star-system.js` is not among the sources), `none` standing for `undefined`. -/
def restoreFromSession (E : Env) (getById : Nat → Option StarSystem) (r : Route) : Restored :=
  if E.hasSessionStorage then
    match r.currentRoute with
    | some data => { start := getById data.start, waypoints := data.waypoints.map getById }
    | none => { start := r.start, waypoints := r.waypoints.map some }
  else { start := r.start, waypoints := r.waypoints.map some }

/-! ## The legacy `SCMAP.Route` (`js/SCMAP/Route.js`)

Its `__findGraphs` and `__syncGraphs` are the loops of the class above written with `for`; it
does not store to the session. -/

/-- The inner loop of the legacy `removeWaypoint`: remove the first entry that is `waypoint`,
then `break`. -/
def Legacy.removeWaypoint.removeFirst (waypoint : StarSystem) : List StarSystem → List StarSystem
  | [] => []
  | x :: xs => if x = waypoint then xs else x :: Legacy.removeWaypoint.removeFirst waypoint xs

/-- The legacy `removeWaypoint(waypoint)`: a `for` loop over the slots that returns true from
the method at the slot holding `graphTwo`. -/
def Legacy.removeWaypoint (E : Env) (r : Route) (waypoint : StarSystem) : Completion :=
  match __findGraphs E r waypoint with
  | none => Completion.threw r
  | some graphs =>
    match graphs with
    | [(one, graphOne), (two, graphTwo)] =>
      let r1 := { r with _graphs := r._graphs.set one { graphOne with end_ := graphTwo.start } }
      match (List.range r1._graphs.length).find? (fun i => decide (i = two)) with
      | some i =>
        let r2 := { r1 with _graphs := splice r1._graphs i 1 [] }
        let r3 := { r2 with
          waypoints := Legacy.removeWaypoint.removeFirst waypoint r2.waypoints }
        Completion.returned (some true) (__syncGraphs E r3)
      | none => Completion.returned none r1
    | _ => Completion.returned (some false) r

/-- The loop of the legacy `alphaOfSystem` and `indexOfCurrentRoute`: the index of the first
entry that is `system`, then `break`; `none` when the loop ends without a match. -/
def Legacy.firstStep (system : StarSystem) : List StarSystem → Nat → Option Nat
  | [], _ => none
  | x :: xs, i => if x = system then some i else Legacy.firstStep system xs (i + 1)

/-- The legacy `indexOfCurrentRoute(system)`: `currentStep` starts out `undefined` (the inner
`none`) and is returned so when `system` is not on the route. -/
def Legacy.indexOfCurrentRoute (E : Env) (r : Route) (system : StarSystem) :
    Option (Option Nat) :=
  match currentRoute E r with
  | none => none
  | some route => some (Legacy.firstStep system route 0)

/-- The legacy `alphaOfSystem(system)`: `currentStep` starts out `0`. -/
def Legacy.alphaOfSystem (E : Env) (r : Route) (system : StarSystem) : Option ℚ :=
  match currentRoute E r with
  | none => none
  | some route =>
    let currentStep := (Legacy.firstStep system route 0).getD 0
    if currentStep ≠ 0 then some ((currentStep : ℚ) / (route.length : ℚ)) else some 0

/-- The legacy `splitAt(waypoint)`: the method of the class above with an extra call of
`graph.routeArray()` before `lastNode()` and without the call of `storeToSession`. -/
def Legacy.splitAt (E : Env) (r : Route) (waypoint : StarSystem) : Completion :=
  match __findGraphs E r waypoint with
  | none => Completion.threw r
  | some graphs =>
    if graphs.length > 1 then Completion.returned (some false) r
    else
      match graphs with
      | [(gi, graph)] =>
        match E.routeArray graph.start graph.end_ with
        | none => Completion.threw r
        | some _ =>
          match graph.lastNode E with
          | none => Completion.threw r
          | some oldEnd =>
            let r1 := { r with _graphs := r._graphs.set gi { graph with end_ := some waypoint } }
            match (List.range r1._graphs.length).find? (fun i => decide (i = gi)) with
            | some i =>
              let r2 := { r1 with
                _graphs := splice r1._graphs (i + 1) 0
                  [{ start := some waypoint, end_ := some oldEnd }] }
              let r3 := { r2 with
                waypoints := splitAt.insertWaypoint oldEnd waypoint r2.waypoints }
              Completion.returned (some true) (__syncGraphs E r3)
            | none => Completion.returned none r1
      | _ => Completion.returned (some false) r

/-- The legacy `moveWaypoint(waypoint, destination)`: the method of the class above without
the calls of `storeToSession`. -/
def Legacy.moveWaypoint (E : Env) (r : Route) (waypoint destination : StarSystem) :
    Completion :=
  if waypoint = destination then Completion.returned (some false) r
  else if some destination = r.start ∨ (indexOf r.waypoints destination).isSome then
    Completion.returned (some false) r
  else if some waypoint = r.start then
    if r.waypoints.length ≠ 1 ∨ some destination ≠ r.waypoints[0]? then
      Completion.returned (some true) (__syncGraphs E { r with start := some destination })
    else Completion.returned (some false) r
  else
    match indexOf r.waypoints waypoint with
    | some index =>
      Completion.returned (some true)
        (__syncGraphs E { r with waypoints := r.waypoints.set index destination })
    | none =>
      match Legacy.splitAt E r waypoint with
      | Completion.threw r1 => Completion.threw r1
      | Completion.returned (some true) r1 =>
        match indexOf r1.waypoints waypoint with
        | some index =>
          Completion.returned (some true)
            (__syncGraphs E { r1 with waypoints := r1.waypoints.set index destination })
        | none => Completion.returned (some false) r1
      | Completion.returned _ r1 => Completion.returned (some false) r1

/-- The value a call returns (`none` inside: `undefined`), or `none` when it throws. -/
def Completion.value : Completion → Option (Option Bool)
  | Completion.returned v _ => some v
  | Completion.threw _ => none

/-! ## The positional rule and the sync pass as a recursion over the waypoints -/

/-- The segment the positional rule asks for in slot `i`: it spans
`(i == 0 ? start : waypoints[i-1])` to `waypoints[i]`. -/
def Route.segment (r : Route) (i : Nat) : Dijkstra :=
  { start := if i = 0 then r.start else r.waypoints[i - 1]?, end_ := r.waypoints[i]? }

/-- The segments the positional rule asks for, for the boundary `prev` followed by the
waypoints listed. -/
def segmentsFor (prev : Option StarSystem) : List StarSystem → List Dijkstra
  | [] => []
  | e :: rest => { start := prev, end_ := some e } :: segmentsFor (some e) rest

/-- The sync loop written as a recursion over the waypoints still to do, `prev` being the
boundary before them; `__syncGraphs.loop` is shown to compute this. -/
def syncList (E : Env) (prev : Option StarSystem) :
    List StarSystem → List Dijkstra → List Dijkstra × Option RouteError
  | [], newGraphs => (newGraphs, none)
  | e :: rest, newGraphs =>
    if E.buildGraph prev (some e) = false then (newGraphs, some RouteError.Other)
    else
      match E.routeArray prev (some e) with
      | none => (newGraphs ++ [{ start := prev, end_ := some e }], some RouteError.Other)
      | some route =>
        if route.length ≤ 1 then
          (newGraphs ++ [{ start := prev, end_ := some e }],
            some (if prev.isSome then RouteError.RouteSegmentFailed else RouteError.Other))
        else syncList E (some e) rest (newGraphs ++ [{ start := prev, end_ := some e }])

/-- A segment the sync pass accepts: `buildGraph` completes and `routeArray()` has more than
one entry. -/
def segmentOK (E : Env) (g : Dijkstra) : Bool :=
  E.buildGraph g.start g.end_ &&
    match E.routeArray g.start g.end_ with
    | some route => decide (1 < route.length)
    | none => false

/-- The route is in sync: no error is recorded, the segment list is the one the positional rule
asks for, and the sync pass accepts every segment. -/
def InSync (E : Env) (r : Route) : Bool :=
  decide (r._error = none) && decide (r._graphs = segmentsFor r.start r.waypoints) &&
    r._graphs.all (segmentOK E)

/-- The contract of `routeArray` for one segment: a path of more than one entry runs from the
start of the segment to its end. -/
def anchored (E : Env) (g : Dijkstra) : Bool :=
  match E.routeArray g.start g.end_ with
  | some route =>
    decide (1 < route.length → route.head? = g.start ∧ route.getLast? = g.end_)
  | none => true

/-- Every segment of the route has a path that runs from its start to its end. -/
def PathsAnchored (E : Env) (r : Route) : Bool :=
  r._graphs.all (anchored E)

/-- The routes the constructor and the structural edits produce: a route made by the
constructor, and any route a call of `splitAt`, `removeWaypoint` or `moveWaypoint` on such a
route returns with. -/
inductive Reachable (E : Env) : Route → Prop where
  | create (currentRoute : Option SessionRecord) (start : Option StarSystem)
      (waypoints : List (Option StarSystem)) :
      Reachable E (Route.create E currentRoute start waypoints)
  | splitAt {r r1 : Route} {v : Option Bool} (waypoint : StarSystem) :
      Reachable E r → splitAt E r waypoint = Completion.returned v r1 → Reachable E r1
  | removeWaypoint {r r1 : Route} {v : Option Bool} (toRemove : StarSystem) :
      Reachable E r → removeWaypoint E r toRemove = Completion.returned v r1 → Reachable E r1
  | moveWaypoint {r r1 : Route} {v : Option Bool} (waypoint destination : StarSystem) :
      Reachable E r → moveWaypoint E r waypoint destination = Completion.returned v r1 →
      Reachable E r1

/-- The boundary that precedes the next segment once the waypoints `done` are behind: the last
of them, or `prev` when there is none. -/
def lastOr (prev : Option StarSystem) (done : List StarSystem) : Option StarSystem :=
  match done.getLast? with
  | some x => some x
  | none => prev

/-- The segment list and the error of the route are what a sync pass over its present start
and waypoints leaves. -/
def Synced (E : Env) (r : Route) : Prop :=
  r._graphs = (syncList E r.start r.waypoints []).1 ∧
    r._error = (syncList E r.start r.waypoints []).2

/-! ## A solver to run the route manager on concrete maps -/

/-- Modelled from the spec: a jump point as the solver reads it, with source and destination
ids, the weight under the metric in use (a number of the type `K`: a length, a multiple of a
length, zero), and whether the restriction predicate lets it through. -/
structure WeightedEdge (K : Type) where
  source : Nat
  destination : Nat
  weight : K
  allowed : Bool
deriving DecidableEq, Repr

/-- Modelled from the spec: a row of the solver tables, the tentative cumulative weight and
the predecessor of a system. -/
structure WeightedEntry (K : Type) where
  system : StarSystem
  distance : K
  previous : Option StarSystem
deriving DecidableEq, Repr

/-- A jump point with a natural number as weight, for the concrete maps. -/
abbrev Edge : Type := WeightedEdge Nat

/-- A row of the solver tables on a map with natural numbers as weights. -/
abbrev Entry : Type := WeightedEntry Nat

namespace Solver

/-- Modelled from the spec: the row of `system`, if it has been discovered. -/
def lookup {K : Type} (table : List (WeightedEntry K)) (system : StarSystem) :
    Option (WeightedEntry K) :=
  table.find? (fun x => decide (x.system = system))

/-- Modelled from the spec: relax one edge out of the finalised row `u`; the destination gets
a new row when first discovered, and its row is replaced only on strict improvement. -/
def relax {K : Type} [Add K] [LT K] [∀ a b : K, Decidable (a < b)] (u : WeightedEntry K)
    (table : List (WeightedEntry K)) (e : WeightedEdge K) : List (WeightedEntry K) :=
  match lookup table ⟨e.destination⟩ with
  | none => table ++ [⟨⟨e.destination⟩, u.distance + e.weight, some u.system⟩]
  | some old =>
    if u.distance + e.weight < old.distance then
      table.map (fun x =>
        if x.system = ⟨e.destination⟩ then ⟨x.system, u.distance + e.weight, some u.system⟩ else x)
    else table

/-- Modelled from the spec: the undetermined row of least tentative weight, the earliest
discovered among equals. -/
def extractMin {K : Type} [LT K] [∀ a b : K, Decidable (a < b)]
    (table : List (WeightedEntry K)) (finalised : List StarSystem) :
    Option (WeightedEntry K) :=
  (table.filter (fun x => !(finalised.contains x.system))).foldl
    (fun best x =>
      match best with
      | none => some x
      | some b => if x.distance < b.distance then some x else some b)
    none

/-- Modelled from the spec: the search of `buildGraph`, which extracts the minimum, finalises
it and relaxes its allowed outgoing edges. -/
def search {K : Type} [Add K] [LT K] [∀ a b : K, Decidable (a < b)]
    (edges : List (WeightedEdge K)) :
    Nat → List (WeightedEntry K) → List StarSystem → List (WeightedEntry K)
  | 0, table, _ => table
  | fuel + 1, table, finalised =>
    match extractMin table finalised with
    | none => table
    | some u =>
      search edges fuel
        ((edges.filter (fun e => decide (e.source = u.system.id) && e.allowed)).foldl
          (relax u) table)
        (u.system :: finalised)

/-- Modelled from the spec: walk the predecessor chain back from `x`, collecting the path in
front of `acc`. -/
def walk {K : Type} (table : List (WeightedEntry K)) :
    Nat → StarSystem → List StarSystem → List StarSystem
  | 0, _, acc => acc
  | fuel + 1, x, acc =>
    match lookup table x with
    | none => x :: acc
    | some row =>
      match row.previous with
      | none => x :: acc
      | some p => walk table fuel p (x :: acc)

/-- Modelled from the spec: the path from `start` to `destination` over the edges given, one
entry when `destination` is `start` or cannot be reached. -/
def routeArray {K : Type} [OfNat K 0] [Add K] [LT K] [∀ a b : K, Decidable (a < b)]
    (edges : List (WeightedEdge K)) (start destination : StarSystem) : List StarSystem :=
  walk (search edges (edges.length + 1) [⟨start, 0, none⟩] []) (edges.length + 1) destination []

end Solver

/-- Modelled from the spec: the solver of section 4.2 (a shortest-path search from `start` with
non-negative weights, strict-improvement relaxation and ties broken by discovery order; a
`routeArray` that walks the predecessor chain and has at most one entry when there is no path)
over the edges given, with session storage available. Building without a start or an end
throws. -/
def dijkstraEnv {K : Type} [OfNat K 0] [Add K] [LT K] [∀ a b : K, Decidable (a < b)]
    (edges : List (WeightedEdge K)) : Env where
  buildGraph := fun s e => s.isSome && e.isSome
  routeArray := fun s e =>
    match s, e with
    | some s, some e => some (Solver.routeArray edges s e)
    | _, _ => none
  hasSessionStorage := true

/-- The edge `a → b` of weight one, allowed. -/
def jump (a b : Nat) : Edge := ⟨a, b, 1, true⟩

/-! ## Concrete maps and routes -/

/-- The route a completed or interrupted call leaves. -/
def Completion.route : Completion → Route
  | Completion.returned _ r => r
  | Completion.threw r => r

/-- Systems of the concrete maps. -/
def nodeA : StarSystem := ⟨1⟩

/-- See `nodeA`. -/
def nodeB : StarSystem := ⟨2⟩

/-- See `nodeA`. -/
def nodeC : StarSystem := ⟨3⟩

/-- See `nodeA`. -/
def nodeX : StarSystem := ⟨4⟩

/-- See `nodeA`. -/
def nodeD : StarSystem := ⟨5⟩

/-- See `nodeA`. -/
def nodeN : StarSystem := ⟨7⟩

/-- A system no jump point of the concrete maps leads to. -/
def nodeZ : StarSystem := ⟨9⟩

/-- The map `A ⇄ B`. -/
def mapAB : List Edge := [jump 1 2, jump 2 1]

/-- The route `A > B` on `mapAB`. -/
def routeAB : Route := Route.create (dijkstraEnv mapAB) none (some nodeA) [some nodeB]

/-- The route `A > Z > B` on `mapAB`, whose first segment has no path. -/
def routeAZB : Route :=
  Route.create (dijkstraEnv mapAB) none (some nodeA) [some nodeZ, some nodeB]

/-- The map `A → B → C → X → B`. -/
def mapLoop : List Edge := [jump 1 2, jump 2 3, jump 3 4, jump 4 2]

/-- The route `A > B > C > B` on `mapLoop`; its last segment runs `C, X, B`. -/
def routeABCB : Route :=
  Route.create (dijkstraEnv mapLoop) none (some nodeA) [some nodeB, some nodeC, some nodeB]

/-- The map `A → X → B`. -/
def mapLine : List Edge := [jump 1 4, jump 4 2]

/-- The route `A > B` on `mapLine`; its segment runs `A, X, B`. -/
def routeAXB : Route := Route.create (dijkstraEnv mapLine) none (some nodeA) [some nodeB]

/-- The map `A → B ⇄ C`, `B → D`. -/
def mapFork : List Edge := [jump 1 2, jump 2 3, jump 3 2, jump 2 5]

/-- The route `A > B > C > B > D` on `mapFork`. -/
def routeABCBD : Route :=
  Route.create (dijkstraEnv mapFork) none (some nodeA)
    [some nodeB, some nodeC, some nodeB, some nodeD]

/-- The route `A > B > C` on `mapFork`. -/
def routeABC : Route :=
  Route.create (dijkstraEnv mapFork) none (some nodeA) [some nodeB, some nodeC]

/-- The map `A → C ⇄ B`. -/
def mapVia : List Edge := [jump 1 3, jump 3 2, jump 2 3]

/-- The route `A > B > C` on `mapVia`; its first segment runs `A, C, B`. -/
def routeViaC : Route :=
  Route.create (dijkstraEnv mapVia) none (some nodeA) [some nodeB, some nodeC]

/-- The map `A → X ⇄ B`, `X → C`, `X → N → B`. -/
def mapHub : List Edge := [jump 1 4, jump 4 2, jump 2 4, jump 4 3, jump 4 7, jump 7 2]

/-- The route `A > B > C` on `mapHub`; its segments run `A, X, B` and `B, X, C`. -/
def routeHub : Route :=
  Route.create (dijkstraEnv mapHub) none (some nodeA) [some nodeB, some nodeC]

/-- The session entry the spec asks for after a structural change: the record of the start id
and the waypoint ids when a start and at least one waypoint exist, no entry otherwise. -/
def expectedSession (r : Route) : Option SessionRecord :=
  match r.start with
  | some start =>
    if r.waypoints.length ≠ 0 then
      some ⟨start.id, r.waypoints.map (fun waypoint => waypoint.id)⟩
    else none
  | none => none

/-- Every segment in the list has a route array that is not empty and ends at a current
waypoint, as after a sync pass over the present waypoints with a solver whose route arrays
end at the end of the segment. -/
def SegmentsEndAtWaypoints (E : Env) (r : Route) : Bool :=
  r._graphs.all (fun g =>
    match g.lastNode E with
    | some e => decide (e ∈ r.waypoints)
    | none => false)

/-- The empty route, as `new Route()` makes it. -/
def routeEmpty : Route := Route.create (dijkstraEnv mapAB) none none []

/-- The route `A`: a start and no waypoint. -/
def routeA : Route := Route.create (dijkstraEnv mapAB) none (some nodeA) []

/-- The map `B ⇄ A → C`. -/
def mapStar : List Edge := [jump 1 2, jump 2 1, jump 1 3]

/-- The route `A > B > C` on `mapStar`; its segments run `A, B` and `B, A, C`. -/
def routeStar : Route :=
  Route.create (dijkstraEnv mapStar) none (some nodeA) [some nodeB, some nodeC]

/-- A lookup that resolves the ids below ten. -/
def lookupBelowTen (id : Nat) : Option StarSystem :=
  if id < 10 then some ⟨id⟩ else none

/-- A lookup that resolves every id. -/
def lookupAll (id : Nat) : Option StarSystem := some ⟨id⟩

/-- The solver of `dijkstraEnv` with a fault: `routeArray` throws on a solver whose end is
`broken`. -/
def faultyEnv (edges : List Edge) (broken : StarSystem) : Env where
  buildGraph := (dijkstraEnv edges).buildGraph
  routeArray := fun s e =>
    if e = some broken then none else (dijkstraEnv edges).routeArray s e
  hasSessionStorage := true

/-- The route `A > B > Z` on `mapAB` with the fault at `Z`: the sync pass built the segment
`B → Z` and caught what its `routeArray()` threw, so the segment is in the list. -/
def routeFaulty : Route :=
  Route.create (faultyEnv mapAB nodeZ) none (some nodeA) [some nodeB, some nodeZ]

/-- The map `A → C ⇄ B`, `C → D`. -/
def mapViaD : List Edge := [jump 1 3, jump 3 2, jump 2 3, jump 3 5]

/-- The route `A > B > C > D` on `mapViaD`; its first segment runs `A, C, B`. -/
def routeViaD : Route :=
  Route.create (dijkstraEnv mapViaD) none (some nodeA) [some nodeB, some nodeC, some nodeD]

/-- The route with the session entry left out, to compare the class `Route` with the legacy
`SCMAP.Route`, which does not store to the session. -/
def Route.withoutSession (r : Route) : Route := { r with currentRoute := none }

/-- The outcome of a call with the session entry left out. -/
def Completion.withoutSession : Completion → Completion
  | Completion.returned v r => Completion.returned v r.withoutSession
  | Completion.threw r => Completion.threw r.withoutSession

/-! ## Jump points (`js/SCMAP/JumpPoint.js`)

Numbers are the elements of a linearly ordered field `K`: the arithmetic of the source is read
without rounding, overflow or `NaN`. -/

/-- The coordinates of a `THREE.Vector3`. -/
structure Vector3 (K : Type) where
  x : K
  y : K
  z : K

/-- The channels of a `THREE.Color`. -/
structure Color (K : Type) where
  r : K
  g : K
  b : K

/-- The part of a faction the grid reads. -/
structure Faction (K : Type) where
  planeColor : Color K

/-- A system as the jump points and the reference grid read it; `id` stands for the identity
of the object, which is what `!==` compares. -/
structure System (K : Type) where
  id : Nat
  position : Vector3 K
  faction : Faction K

/-- The fields of the argument of the constructor `SCMAP.JumpPoint` that decide validity;
`none` stands for anything that is not an instance of `SCMAP.System`. -/
structure JumpPointData (K : Type) where
  source : Option (System K)
  destination : Option (System K)

/-- A jump point: `none` is the `undefined` the constructor stores for a missing end. -/
structure JumpPoint (K : Type) where
  source : Option (System K)
  destination : Option (System K)

/-- The method `isValid`: both ends are systems and they are not the same object. -/
def JumpPoint.isValid {K : Type} (jp : JumpPoint K) : Bool :=
  match jp.source, jp.destination with
  | some source, some destination => source.id != destination.id
  | _, _ => false

/-- The constructor `SCMAP.JumpPoint`: the object it produces and what it writes to the error
console. -/
def JumpPoint.new {K : Type} (data : JumpPointData K) : JumpPoint K × List String :=
  let self : JumpPoint K := { source := data.source, destination := data.destination }
  if !self.isValid then (self, ["Invalid route created"]) else (self, [])

/-- The method `length`, with `distanceTo` of `THREE.Vector3` as a parameter; `none` is the
`undefined` of the bare `return`. -/
def JumpPoint.length {K : Type} (distanceTo : Vector3 K → Vector3 K → K) (jp : JumpPoint K) :
    Option K :=
  if !jp.isValid then none
  else
    match jp.source, jp.destination with
    | some source, some destination => some (distanceTo source.position destination.position)
    | _, _ => none

/-- The method `jumpTime`. -/
def JumpPoint.jumpTime {K : Type} [LinearOrderedField K]
    (distanceTo : Vector3 K → Vector3 K → K) (jp : JumpPoint K) : Option K :=
  if !jp.isValid then none
  else
    match jp.length distanceTo with
    | some length => some (length * 4)
    | none => none

/-- The method `fuelConsumption`. -/
def JumpPoint.fuelConsumption {K : Type} [LinearOrderedField K] (jp : JumpPoint K) :
    Option K :=
  if !jp.isValid then none else some 0

/-! ## The reference grid (`src/scmap/map.js`) -/

/-- The loop of `closestFromArray`; the first component is `closest`, with `none` for its
initial `Infinity`, the second is `closestPOI`, with `none` for `undefined`. -/
def closestFromArray.loop {K : Type} [LinearOrderedField K] (sqrt : K → K)
    (vector : Vector3 K) :
    List (System K) → Option K × Option (System K) → Option K × Option (System K)
  | [], arr => arr
  | system :: rest, (closest, closestPOI) =>
    let xd := vector.x - system.position.x
    let zd := vector.z - system.position.z
    let length := sqrt (xd * xd + zd * zd)
    if (match closest with
        | none => true
        | some c => decide (length < c)) then
      closestFromArray.loop sqrt vector rest (some length, some system)
    else
      closestFromArray.loop sqrt vector rest (closest, closestPOI)

/-- The method `closestFromArray`, with `Math.sqrt` as a parameter. -/
def closestFromArray {K : Type} [LinearOrderedField K] (sqrt : K → K) (vector : Vector3 K)
    (systems : List (System K)) : Option K × Option (System K) :=
  closestFromArray.loop sqrt vector systems (none, none)

/-- The method `withinApproxDistance`, with the module list `allSystems` as a parameter. -/
def withinApproxDistance {K : Type} [LinearOrderedField K] (vector : Vector3 K) (distance : K) :
    List (System K) → List (System K)
  | [] => []
  | system :: rest =>
    if system.position.x < vector.x - distance then withinApproxDistance vector distance rest
    else if system.position.x > vector.x + distance then
      withinApproxDistance vector distance rest
    else if system.position.z < vector.z - distance then
      withinApproxDistance vector distance rest
    else if system.position.z > vector.z + distance then
      withinApproxDistance vector distance rest
    else system :: withinApproxDistance vector distance rest

/-- The method `multiplyScalar` of `THREE.Color`. -/
def Color.multiplyScalar {K : Type} [LinearOrderedField K] (c : Color K) (s : K) : Color K :=
  { r := c.r * s, g := c.g * s, b := c.b * s }

/-- The method `colorForVector`; `none` is the shared object `BLACK`, which the caller tells
from every other colour by `!==`, and `some c` a clone of a plane colour, scaled. -/
def colorForVector {K : Type} [LinearOrderedField K] (sqrt : K → K) (vector : Vector3 K)
    (systems : List (System K)) (segmentSize : K) : Option (Color K) :=
  let arr := closestFromArray sqrt vector systems
  match arr.1, arr.2 with
  | some closest, some poi =>
    if closest ≤ 4.5 * segmentSize then
      let color := poi.faction.planeColor
      if closest ≥ 4.0 * segmentSize then some (color.multiplyScalar 0.5)
      else if closest ≥ 3.0 * segmentSize then some (color.multiplyScalar 0.8)
      else some color
    else none
  | _, _ => none

/-- The outer bounds of the reference grid. -/
structure Bounds (K : Type) where
  minX : K
  minZ : K
  maxX : K
  maxZ : K

/-- The first loop of `buildReferenceGrid`, over the module list `allSystems`. -/
def buildReferenceGrid.outer {K : Type} [LinearOrderedField K] :
    List (System K) → Bounds K → Bounds K
  | [], b => b
  | system :: rest, b =>
    let position := system.position
    let minX := if position.x < b.minX then position.x - 6 * 10 else b.minX
    let maxX := if position.x > b.maxX then position.x + 8 * 10 else b.maxX
    let minZ := if position.z < b.minZ then position.z - 6 * 10 else b.minZ
    let maxZ := if position.z > b.maxZ then position.z + 10 * 10 else b.maxZ
    buildReferenceGrid.outer rest { minX := minX, minZ := minZ, maxX := maxX, maxZ := maxZ }

/-- The bounds `buildReferenceGrid` works with: the outer bounds of all the systems, rounded
to a multiple of `segmentSize`. -/
def buildReferenceGrid.bounds {K : Type} [LinearOrderedField K] [FloorRing K]
    (allSystems : List (System K)) : Bounds K :=
  let segmentSize : K := 10
  let b := buildReferenceGrid.outer allSystems { minX := 0, minZ := 0, maxX := 0, maxZ := 0 }
  { minX := ⌊b.minX / segmentSize⌋ * segmentSize
    minZ := ⌊b.minZ / segmentSize⌋ * segmentSize
    maxX := ⌊b.maxX / segmentSize⌋ * segmentSize
    maxZ := ⌊b.maxZ / segmentSize⌋ * segmentSize }

/-- A system at `(x, 0, z)` with a black plane colour. -/
def systemAt (id : Nat) (x z : ℚ) : System ℚ :=
  { id := id, position := { x := x, y := 0, z := z },
    faction := { planeColor := { r := 0, g := 0, b := 0 } } }

/-- A value of `closest` beyond the last distance band: `Infinity`, or more than
`4.5 * segmentSize`. -/
def beyondBands {K : Type} [LinearOrderedField K] (s : K) (closest : Option K) : Prop :=
  ∀ c, closest = some c → 4.5 * s < c

/-! ## Paths and cumulative weights of the solver -/

namespace Solver

/-- Modelled from the spec: the walk of `routeArray` along the predecessor chain with the
cumulative weight of every entry; `none` is the weight of a system without a row. -/
def walkEntries {K : Type} (table : List (WeightedEntry K)) :
    Nat → StarSystem → List (StarSystem × Option K) → List (StarSystem × Option K)
  | 0, _, acc => acc
  | fuel + 1, x, acc =>
    match lookup table x with
    | none => (x, none) :: acc
    | some row =>
      match row.previous with
      | none => (x, some row.distance) :: acc
      | some p => walkEntries table fuel p ((x, some row.distance) :: acc)

/-- Modelled from the spec: `routeArray()` as the sequence of `(node, cumulativeWeight)` from
`start` to `destination`, after the search from `start`. -/
def routeEntries {K : Type} [OfNat K 0] [Add K] [LT K] [∀ a b : K, Decidable (a < b)]
    (edges : List (WeightedEdge K)) (start destination : StarSystem) :
    List (StarSystem × Option K) :=
  walkEntries (search edges (edges.length + 1) [⟨start, 0, none⟩] []) (edges.length + 1)
    destination []

/-- A path from `a` to `b`: a chain of allowed edges of the graph. -/
def isPath {K : Type} [DecidableEq K] (edges : List (WeightedEdge K)) (a b : StarSystem) :
    List (WeightedEdge K) → Bool
  | [] => decide (a = b)
  | e :: rest =>
    decide (e ∈ edges) && e.allowed && decide (e.source = a.id) &&
      isPath edges ⟨e.destination⟩ b rest

/-- The total weight of a path. -/
def totalWeight {K : Type} [Add K] [Zero K] (path : List (WeightedEdge K)) : K :=
  (path.map (fun e => e.weight)).sum

/-- The tentative cumulative weight the table holds for `system`. -/
def dist {K : Type} (table : List (WeightedEntry K)) (system : StarSystem) : Option K :=
  (lookup table system).map (fun row => row.distance)

end Solver

/-- The graph of the optimality scenario: `A → B` (2), `B → D` (2), `A → C` (1), `C → D` (1),
all allowed. -/
def mapDiamond : List Edge := [⟨1, 2, 2, true⟩, ⟨2, 5, 2, true⟩, ⟨1, 3, 1, true⟩, ⟨3, 5, 1, true⟩]

/-- The graph of `mapDiamond` with lengths that are not whole numbers: `A → B` (5/2),
`B → D` (5/2), `A → C` (3/2), `C → D` (3/4). -/
def mapDiamondQ : List (WeightedEdge ℚ) :=
  [⟨1, 2, 5 / 2, true⟩, ⟨2, 5, 5 / 2, true⟩, ⟨1, 3, 3 / 2, true⟩, ⟨3, 5, 3 / 4, true⟩]

/-- The state of the search between two iterations: the table holds one row per discovered
system, every tentative weight is the weight of a path, the allowed edges out of the finalised
systems are relaxed, and no finalised weight exceeds an undetermined one. -/
structure Solver.Inv {K : Type} [LinearOrderedAddCommMonoid K] (edges : List (WeightedEdge K))
    (start : StarSystem) (table : List (WeightedEntry K)) (finalised : List StarSystem) :
    Prop where
  nodup : (table.map (fun x => x.system)).Nodup
  startRow : Solver.dist table start = some 0
  ach : ∀ s d, Solver.dist table s = some d →
    ∃ p, Solver.isPath edges start s p = true ∧ Solver.totalWeight p = d
  relaxed : ∀ s ∈ finalised, ∀ d, Solver.dist table s = some d →
    ∀ e ∈ edges, e.allowed = true → e.source = s.id →
      ∃ d', Solver.dist table ⟨e.destination⟩ = some d' ∧ d' ≤ d + e.weight
  sep : ∀ s ∈ finalised, ∀ t, t ∉ finalised → ∀ d d',
    Solver.dist table s = some d → Solver.dist table t = some d' → d ≤ d'
  finSome : ∀ s ∈ finalised, ∃ d, Solver.dist table s = some d
  finNodup : finalised.Nodup
  dom : ∀ s d, Solver.dist table s = some d →
    s ∈ start :: edges.map (fun e => (⟨e.destination⟩ : StarSystem))

/-! ## The sync pass -/

theorem lastOr_append_singleton (prev : Option StarSystem) (a : List StarSystem)
    (e : StarSystem) : lastOr prev (a ++ [e]) = some e := by
  simp [lastOr]

theorem lastOr_nil (prev : Option StarSystem) : lastOr prev [] = prev := rfl

theorem boundary_eq_lastOr (start : Option StarSystem) (a l : List StarSystem) :
    (if a.length = 0 then start else (a ++ l)[a.length - 1]?) = lastOr start a := by
  rcases List.eq_nil_or_concat a with h | ⟨b, x, h⟩
  · subst h; simp [lastOr]
  · subst h
    rw [List.concat_eq_append]
    have hlen : (b ++ [x]).length - 1 = b.length := by simp
    have hne : (b ++ [x]).length ≠ 0 := by simp
    rw [if_neg hne, hlen, lastOr_append_singleton, List.append_assoc,
      List.getElem?_append_right (Nat.le_refl _)]
    simp

/-- The loop of `__syncGraphs`, started after the waypoints `a` with as many segments built,
computes `syncList` on the waypoints that remain. -/
theorem syncLoop_eq_syncList (E : Env) (start : Option StarSystem) (rest : List StarSystem) :
    ∀ (a : List StarSystem) (acc : List Dijkstra), acc.length = a.length →
      __syncGraphs.loop E start (a ++ rest) rest.length a.length acc
        = syncList E (lastOr start a) rest acc := by
  induction rest with
  | nil => intro a acc _; simp [__syncGraphs.loop, syncList]
  | cons e rest ih =>
    intro a acc hacc
    have hlt : a.length < (a ++ e :: rest).length := by simp
    have hnone : acc[a.length]? = none := by
      rw [List.getElem?_eq_none_iff]; omega
    have hstep := ih (a ++ [e]) (acc ++ [{ start := lastOr start a, end_ := some e }])
      (by simp [hacc])
    simp only [List.append_assoc, List.singleton_append, List.length_append, List.length_singleton,
      lastOr_append_singleton] at hstep
    simp only [List.length_cons, __syncGraphs.loop, hlt, if_true, hnone, boundary_eq_lastOr,
      List.getElem?_append_right (Nat.le_refl _), Nat.sub_self, List.getElem?_cons_zero, syncList,
      hstep]

theorem syncGraphs_eq (E : Env) (r : Route) :
    __syncGraphs E r =
      { r with _graphs := (syncList E r.start r.waypoints []).1,
               _error := (syncList E r.start r.waypoints []).2 } := by
  have h := syncLoop_eq_syncList E r.start r.waypoints [] [] rfl
  simp only [List.nil_append, List.length_nil, lastOr_nil] at h
  simp [__syncGraphs, h]

theorem syncList_of_ok (E : Env) (ws : List StarSystem) :
    ∀ (prev : Option StarSystem) (acc : List Dijkstra),
      (segmentsFor prev ws).all (segmentOK E) = true →
      syncList E prev ws acc = (acc ++ segmentsFor prev ws, none) := by
  induction ws with
  | nil => intro prev acc _; simp [syncList, segmentsFor]
  | cons e rest ih =>
    intro prev acc h
    simp only [segmentsFor, List.all_cons, Bool.and_eq_true] at h
    obtain ⟨hseg, hrest⟩ := h
    simp only [segmentOK, Bool.and_eq_true] at hseg
    obtain ⟨hb, hr⟩ := hseg
    cases hra : E.routeArray prev (some e) with
    | none => simp [hra] at hr
    | some route =>
      simp only [hra, decide_eq_true_eq] at hr
      have hnot : ¬ route.length ≤ 1 := by omega
      simp [syncList, hb, hra, hnot, ih (some e) _ hrest, segmentsFor]

theorem syncList_error_none (E : Env) (ws : List StarSystem) :
    ∀ (prev : Option StarSystem) (acc : List Dijkstra),
      (syncList E prev ws acc).2 = none →
      (segmentsFor prev ws).all (segmentOK E) = true := by
  induction ws with
  | nil => intro prev acc _; simp [segmentsFor]
  | cons e rest ih =>
    intro prev acc h
    simp only [syncList] at h
    cases hb : E.buildGraph prev (some e) with
    | false => simp [hb] at h
    | true =>
      cases hra : E.routeArray prev (some e) with
      | none => simp [hb, hra] at h
      | some route =>
        by_cases hlen : route.length ≤ 1
        · simp [hb, hra, hlen] at h
        · simp only [hb, hra, hlen, if_false, Bool.true_eq_false] at h
          have := ih (some e) _ h
          simp only [segmentsFor, List.all_cons, segmentOK, hb, hra, Bool.true_and,
            Bool.and_eq_true, decide_eq_true_eq]
          exact ⟨by omega, this⟩

theorem segmentsFor_length (ws : List StarSystem) :
    ∀ prev : Option StarSystem, (segmentsFor prev ws).length = ws.length := by
  induction ws with
  | nil => intro prev; rfl
  | cons e rest ih => intro prev; simp [segmentsFor, ih]

theorem segmentsFor_append (a : List StarSystem) :
    ∀ (prev : Option StarSystem) (b : List StarSystem),
      segmentsFor prev (a ++ b) = segmentsFor prev a ++ segmentsFor (lastOr prev a) b := by
  induction a with
  | nil => intro prev b; simp [segmentsFor, lastOr]
  | cons e rest ih =>
    intro prev b
    have hl : lastOr prev (e :: rest) = lastOr (some e) rest := by
      cases rest with
      | nil => simp [lastOr]
      | cons y ys =>
        simp only [lastOr, List.getLast?_cons_cons]
        cases hq : (y :: ys).getLast? with
        | none => simp at hq
        | some z => rfl
    simp [segmentsFor, ih, hl]

/-- The segment list of the positional rule, slot by slot. -/
theorem segmentsFor_getElem? (ws : List StarSystem) :
    ∀ (prev : Option StarSystem) (i : Nat), i < ws.length →
      (segmentsFor prev ws)[i]? =
        some { start := if i = 0 then prev else ws[i - 1]?, end_ := ws[i]? } := by
  induction ws with
  | nil => intro prev i h; simp at h
  | cons e rest ih =>
    intro prev i h
    cases i with
    | zero => simp [segmentsFor]
    | succ j =>
      have hj : j < rest.length := by simpa using h
      simp only [segmentsFor, List.getElem?_cons_succ, ih (some e) j hj]
      cases j with
      | zero => simp
      | succ k => simp

theorem synced_syncGraphs (E : Env) (r : Route) : Synced E (__syncGraphs E r) := by
  rw [syncGraphs_eq]; exact ⟨rfl, rfl⟩

theorem synced_storeToSession (E : Env) (r : Route) (h : Synced E r) :
    Synced E (storeToSession E r) := by
  unfold storeToSession
  split
  · split
    · split <;> exact h
    · exact h
  · exact h

theorem inSync_iff (E : Env) (r : Route) :
    InSync E r = true ↔ Synced E r ∧ r._error = none := by
  constructor
  · intro h
    simp only [InSync, Bool.and_eq_true, decide_eq_true_eq] at h
    obtain ⟨⟨herr, hg⟩, hall⟩ := h
    rw [hg] at hall
    have := syncList_of_ok E r.waypoints r.start [] hall
    refine ⟨⟨?_, ?_⟩, herr⟩
    · rw [this]; simpa using hg
    · rw [this]; exact herr
  · rintro ⟨⟨hg, he⟩, herr⟩
    have hall := syncList_error_none E r.waypoints r.start [] (by rw [← he]; exact herr)
    have := syncList_of_ok E r.waypoints r.start [] hall
    rw [this] at hg
    simp only [List.nil_append] at hg
    simp only [InSync, Bool.and_eq_true, decide_eq_true_eq]
    exact ⟨⟨herr, hg⟩, by rw [hg]; exact hall⟩

/-! ## The boundary search `__findGraphs` -/

theorem forEach_seen (system : StarSystem) (i : Nat) (graph : Dijkstra)
    (route : List StarSystem) :
    ∀ acc : List (Nat × Dijkstra) × List Nat, system.id ∈ acc.2 →
      __findGraphs.forEach system i graph route acc = acc := by
  induction route with
  | nil => intro acc _; rfl
  | cons x rest ih =>
    intro acc h
    have hno : ¬ (x = system ∧ ¬ (x.id ∈ acc.2)) := by
      rintro ⟨hx, hn⟩; subst hx; exact hn h
    simp only [__findGraphs.forEach, hno, if_false]
    exact ih acc h

theorem forEach_not_mem (system : StarSystem) (i : Nat) (graph : Dijkstra)
    (route : List StarSystem) :
    ∀ acc : List (Nat × Dijkstra) × List Nat, system ∉ route →
      __findGraphs.forEach system i graph route acc = acc := by
  induction route with
  | nil => intro acc _; rfl
  | cons x rest ih =>
    intro acc h
    have hx : ¬ x = system := fun hx => h (by simp [hx])
    have hr : system ∉ rest := fun hr => h (by simp [hr])
    have hno : ¬ (x = system ∧ ¬ (x.id ∈ acc.2)) := fun hc => hx hc.1
    simp only [__findGraphs.forEach, hno, if_false]
    exact ih acc hr

theorem forEach_mem (system : StarSystem) (i : Nat) (graph : Dijkstra)
    (route : List StarSystem) :
    ∀ acc : List (Nat × Dijkstra) × List Nat, system ∈ route → system.id ∉ acc.2 →
      __findGraphs.forEach system i graph route acc
        = (acc.1 ++ [(i, graph)], system.id :: acc.2) := by
  induction route with
  | nil => intro acc h; simp at h
  | cons x rest ih =>
    intro acc h hn
    by_cases hx : x = system
    · subst hx
      have hyes : x = x ∧ ¬ (x.id ∈ acc.2) := ⟨rfl, hn⟩
      simp only [__findGraphs.forEach, hyes, if_true]
      exact forEach_seen x i graph rest _ (by simp)
    · have hno : ¬ (x = system ∧ ¬ (x.id ∈ acc.2)) := fun hc => hx hc.1
      have hr : system ∈ rest := by
        rcases List.mem_cons.mp h with h | h
        · exact absurd h.symm hx
        · exact h
      simp only [__findGraphs.forEach, hno, if_false]
      exact ih acc hr hn

theorem forEach_fst (system : StarSystem) (i : Nat) (graph : Dijkstra)
    (route : List StarSystem) (acc : List (Nat × Dijkstra) × List Nat) :
    (__findGraphs.forEach system i graph route acc).1 = acc.1 ∨
      (__findGraphs.forEach system i graph route acc).1 = acc.1 ++ [(i, graph)] := by
  by_cases hm : system ∈ route
  · by_cases hs : system.id ∈ acc.2
    · left; rw [forEach_seen system i graph route acc hs]
    · right; rw [forEach_mem system i graph route acc hm hs]
  · left; rw [forEach_not_mem system i graph route acc hm]

theorem findLoop_skip (E : Env) (system : StarSystem) (rest : List Dijkstra)
    (pre : List Dijkstra) :
    ∀ i : Nat, (∀ g ∈ pre, system ∉ g.routeArrayOrEmpty E) →
      __findGraphs.loop E system (pre ++ rest) i [] []
        = __findGraphs.loop E system rest (i + pre.length) [] [] := by
  induction pre with
  | nil => intro i _; simp
  | cons g pre ih =>
    intro i h
    have hg : system ∉ g.routeArrayOrEmpty E := h g (by simp)
    have hrest : ∀ g ∈ pre, system ∉ g.routeArrayOrEmpty E := fun x hx => h x (by simp [hx])
    rw [List.cons_append]
    simp only [__findGraphs.loop, List.length_nil, ne_eq, not_true_eq_false,
      if_false, forEach_not_mem system i g _ _ hg]
    rw [ih (i + 1) hrest]
    simp only [List.length_cons]
    congr 1
    omega

theorem findLoop_first (E : Env) (system : StarSystem) (g : Dijkstra) (rest : List Dijkstra)
    (i : Nat) (h : system ∈ g.routeArrayOrEmpty E) :
    __findGraphs.loop E system (g :: rest) i [] []
      = __findGraphs.loop E system rest (i + 1) [(i, g)] [system.id] := by
  simp only [__findGraphs.loop, List.length_nil, ne_eq, not_true_eq_false, if_false,
    forEach_mem system i g _ ([], []) h (by simp), List.nil_append]

theorem findLoop_tail_none (E : Env) (system : StarSystem) (x : Nat × Dijkstra)
    (rest : List Dijkstra) :
    ∀ k : Nat,
      (∀ g ∈ rest, ∃ first, (g.routeArrayOrEmpty E).head? = some first ∧ first ≠ system) →
      __findGraphs.loop E system rest k [x] [system.id] = some [x] := by
  induction rest with
  | nil => intro k _; rfl
  | cons g rest ih =>
    intro k h
    obtain ⟨first, hf, hne⟩ := h g (by simp)
    have hid : ¬ first.id = system.id := by
      intro hc; apply hne; cases first; cases system; simp_all
    have hrest : ∀ g ∈ rest, ∃ first, (g.routeArrayOrEmpty E).head? = some first ∧ first ≠ system :=
      fun y hy => h y (by simp [hy])
    simp only [__findGraphs.loop, List.length_singleton, ne_eq, one_ne_zero, not_false_eq_true,
      if_true, hf, hid, if_false,
      forEach_seen system k g _ ([x], [system.id]) (by simp)]
    exact ih (k + 1) hrest

theorem findLoop_tail_some (E : Env) (system : StarSystem) (x : Nat × Dijkstra) (g : Dijkstra)
    (post : List Dijkstra) (mid : List Dijkstra) :
    ∀ k : Nat,
      (∀ g ∈ mid, ∃ first, (g.routeArrayOrEmpty E).head? = some first ∧ first ≠ system) →
      (g.routeArrayOrEmpty E).head? = some system →
      __findGraphs.loop E system (mid ++ g :: post) k [x] [system.id]
        = some [x, (k + mid.length, g)] := by
  induction mid with
  | nil =>
    intro k _ hg
    simp [__findGraphs.loop, hg]
  | cons m mid ih =>
    intro k h hg
    obtain ⟨first, hf, hne⟩ := h m (by simp)
    have hid : ¬ first.id = system.id := by
      intro hc; apply hne; cases first; cases system; simp_all
    have hrest : ∀ g ∈ mid, ∃ first, (g.routeArrayOrEmpty E).head? = some first ∧ first ≠ system :=
      fun y hy => h y (by simp [hy])
    rw [List.cons_append]
    simp only [__findGraphs.loop, List.length_singleton, ne_eq, one_ne_zero,
      not_false_eq_true, if_true, hf, hid, if_false,
      forEach_seen system k m _ ([x], [system.id]) (by simp)]
    rw [ih (k + 1) hrest hg]
    simp only [List.length_cons]
    have : k + 1 + mid.length = k + (mid.length + 1) := by omega
    rw [this]

/-- Every reference the search returns points into the array searched: it was among the
ones already collected, or its index is a slot of the array that holds its object. -/
theorem findLoop_sound (E : Env) (system : StarSystem) (gs : List Dijkstra) :
    ∀ (i : Nat) (graphs : List (Nat × Dijkstra)) (seen : List Nat)
      (res : List (Nat × Dijkstra)),
      __findGraphs.loop E system gs i graphs seen = some res →
      ∀ x ∈ res, x ∈ graphs ∨ (i ≤ x.1 ∧ gs[x.1 - i]? = some x.2) := by
  induction gs with
  | nil =>
    intro i graphs seen res h x hx
    simp only [__findGraphs.loop, Option.some.injEq] at h
    subst h; exact Or.inl hx
  | cons g rest ih =>
    intro i graphs seen res h x hx
    have key : ∀ res1, __findGraphs.loop E system rest (i + 1)
        (__findGraphs.forEach system i g (g.routeArrayOrEmpty E) (graphs, seen)).1
        (__findGraphs.forEach system i g (g.routeArrayOrEmpty E) (graphs, seen)).2 = some res1 →
        ∀ x ∈ res1, x ∈ graphs ∨ (i ≤ x.1 ∧ (g :: rest)[x.1 - i]? = some x.2) := by
      intro res1 h1 y hy
      rcases ih (i + 1) _ _ res1 h1 y hy with hin | ⟨hle, hget⟩
      · rcases forEach_fst system i g (g.routeArrayOrEmpty E) (graphs, seen) with hf | hf
        · rw [hf] at hin; exact Or.inl hin
        · rw [hf] at hin
          rcases List.mem_append.mp hin with hin | hin
          · exact Or.inl hin
          · simp only [List.mem_singleton] at hin
            subst hin
            right; simp
      · right
        refine ⟨by omega, ?_⟩
        have : y.1 - i = (y.1 - (i + 1)) + 1 := by omega
        rw [this, List.getElem?_cons_succ]; exact hget
    simp only [__findGraphs.loop] at h
    by_cases hlen : graphs.length ≠ 0
    · rw [if_pos hlen] at h
      cases hh : (g.routeArrayOrEmpty E).head? with
      | none => simp [hh] at h
      | some first =>
        simp only [hh] at h
        by_cases hid : first.id = system.id
        · simp only [hid, if_true, Option.some.injEq] at h
          subst h
          rcases List.mem_append.mp hx with hin | hin
          · exact Or.inl hin
          · simp only [List.mem_singleton] at hin
            subst hin
            right; simp
        · simp only [hid, if_false] at h
          exact key res h x hx
    · rw [if_neg hlen] at h
      exact key res h x hx

theorem findGraphs_sound (E : Env) (r : Route) (system : StarSystem)
    (res : List (Nat × Dijkstra)) (h : __findGraphs E r system = some res) :
    ∀ x ∈ res, r._graphs[x.1]? = some x.2 := by
  intro x hx
  rcases findLoop_sound E system r._graphs 0 [] [] res h x hx with hin | ⟨_, hget⟩
  · simp at hin
  · simpa using hget

/-! ## What the steps keep -/

@[simp] theorem storeToSession_start (E : Env) (r : Route) :
    (storeToSession E r).start = r.start := by
  unfold storeToSession; (repeat' split) <;> rfl

@[simp] theorem storeToSession_waypoints (E : Env) (r : Route) :
    (storeToSession E r).waypoints = r.waypoints := by
  unfold storeToSession; (repeat' split) <;> rfl

@[simp] theorem storeToSession_graphs (E : Env) (r : Route) :
    (storeToSession E r)._graphs = r._graphs := by
  unfold storeToSession; (repeat' split) <;> rfl

@[simp] theorem storeToSession_error (E : Env) (r : Route) :
    (storeToSession E r)._error = r._error := by
  unfold storeToSession; (repeat' split) <;> rfl

@[simp] theorem syncGraphs_start (E : Env) (r : Route) :
    (__syncGraphs E r).start = r.start := rfl

@[simp] theorem syncGraphs_waypoints (E : Env) (r : Route) :
    (__syncGraphs E r).waypoints = r.waypoints := rfl

theorem indexOf_isSome (xs : List StarSystem) (x : StarSystem) :
    (indexOf xs x).isSome = true ↔ x ∈ xs := by
  induction xs with
  | nil => simp [indexOf]
  | cons y ys ih =>
    by_cases h : y = x
    · simp [indexOf, h]
    · have h2 : ¬ x = y := fun hc => h hc.symm
      simp [indexOf, h, h2, ih]

theorem indexOf_eq_none (xs : List StarSystem) (x : StarSystem) (h : x ∉ xs) :
    indexOf xs x = none := by
  have := (indexOf_isSome xs x).not.mpr h
  cases hq : indexOf xs x with
  | none => rfl
  | some k => simp [hq] at this

/-- The first slot that holds `x` is what `indexOf` returns. -/
theorem indexOf_eq_some (xs : List StarSystem) (x : StarSystem) :
    ∀ k : Nat, xs[k]? = some x → (∀ j : Nat, j < k → xs[j]? ≠ some x) → indexOf xs x = some k := by
  induction xs with
  | nil => intro k h; simp at h
  | cons y ys ih =>
    intro k h hfirst
    cases k with
    | zero =>
      simp only [List.getElem?_cons_zero, Option.some.injEq] at h
      simp [indexOf, h]
    | succ k =>
      have hy : ¬ y = x := by
        intro hc
        exact hfirst 0 (Nat.succ_pos k) (by simp [hc])
      have := ih k (by simpa using h) (fun j hj => by
        have := hfirst (j + 1) (by omega)
        simpa using this)
      simp [indexOf, hy, this]

theorem indexOf_append_cons (a b : List StarSystem) (x : StarSystem) (h : x ∉ a) :
    indexOf (a ++ x :: b) x = some a.length := by
  induction a with
  | nil => simp [indexOf]
  | cons y ys ih =>
    have hy : ¬ y = x := fun hc => h (by simp [hc])
    have hr : x ∉ ys := fun hc => h (by simp [hc])
    simp [indexOf, hy, ih hr]

theorem range_find (n gi : Nat) (h : gi < n) :
    (List.range n).find? (fun i => decide (i = gi)) = some gi := by
  induction n with
  | zero => omega
  | succ n ih =>
    rw [List.range_succ, List.find?_append]
    by_cases hlt : gi < n
    · simp [ih hlt]
    · have hgi : gi = n := by omega
      subst hgi
      have hnone : (List.range gi).find? (fun i => decide (i = gi)) = none := by
        rw [List.find?_eq_none]
        intro x hx
        have : x < gi := List.mem_range.mp hx
        simp; omega
      simp [hnone]

/-- A call of `splitAt` that returns leaves the segment list and the error as a sync pass over
the resulting waypoints leaves them, when they were so before. -/
theorem splitAt_synced (E : Env) (r r1 : Route) (w : StarSystem) (v : Option Bool)
    (h : splitAt E r w = Completion.returned v r1) (hs : Synced E r) : Synced E r1 := by
  unfold splitAt at h
  cases hfg : __findGraphs E r w with
  | none => simp [hfg] at h
  | some graphs =>
    simp only [hfg] at h
    by_cases hlen : graphs.length > 1
    · rw [if_pos hlen] at h
      injection h with _ h2; subst h2; exact hs
    · rw [if_neg hlen] at h
      split at h
      · rename_i gi graph
        have hget := findGraphs_sound E r w _ hfg (gi, graph) (by simp)
        have hlt : gi < r._graphs.length := by
          by_contra hc
          have : r._graphs[gi]? = none := by
            rw [List.getElem?_eq_none_iff]; omega
          simp [this] at hget
        split at h
        · cases h
        · simp only [List.length_set, range_find _ _ hlt] at h
          injection h with _ h2; subst h2
          exact synced_storeToSession _ _ (synced_syncGraphs _ _)
      · injection h with _ h2; subst h2; exact hs

theorem forEachGraph_synced (E : Env) (toRemove : StarSystem) (two : Nat) (l : List Nat) :
    ∀ r : Route,
      (two ∈ l → Synced E (removeWaypoint.forEachGraph E toRemove two l r)) ∧
      (Synced E r → Synced E (removeWaypoint.forEachGraph E toRemove two l r)) := by
  induction l with
  | nil => intro r; exact ⟨fun h => by simp at h, fun h => h⟩
  | cons x rest ih =>
    intro r
    by_cases hx : x = two
    · have hfire : Synced E (removeWaypoint.forEachGraph E toRemove two (x :: rest) r) := by
        simp only [removeWaypoint.forEachGraph, hx, if_true]
        exact (ih _).2 (synced_storeToSession _ _ (synced_syncGraphs _ _))
      exact ⟨fun _ => hfire, fun _ => hfire⟩
    · simp only [removeWaypoint.forEachGraph, hx, if_false]
      refine ⟨fun hm => (ih r).1 ?_, (ih r).2⟩
      rcases List.mem_cons.mp hm with hm | hm
      · exact absurd hm.symm hx
      · exact hm

theorem removeWaypoint_synced (E : Env) (r r1 : Route) (w : StarSystem) (v : Option Bool)
    (h : removeWaypoint E r w = Completion.returned v r1) (hs : Synced E r) : Synced E r1 := by
  unfold removeWaypoint at h
  cases hfg : __findGraphs E r w with
  | none => simp [hfg] at h
  | some graphs =>
    simp only [hfg] at h
    split at h
    · rename_i one graphOne two graphTwo
      have hget := findGraphs_sound E r w _ hfg (two, graphTwo) (by simp)
      have hlt : two < r._graphs.length := by
        by_contra hc
        have : r._graphs[two]? = none := by
          rw [List.getElem?_eq_none_iff]; omega
        simp [this] at hget
      injection h with _ h2; subst h2
      exact (forEachGraph_synced E w two _ _).1 (by simp [hlt])
    · injection h with _ h2; subst h2; exact hs

theorem moveWaypoint_synced (E : Env) (r r1 : Route) (a b : StarSystem) (v : Option Bool)
    (h : moveWaypoint E r a b = Completion.returned v r1) (hs : Synced E r) : Synced E r1 := by
  unfold moveWaypoint at h
  split at h
  · injection h with _ h2; subst h2; exact hs
  · split at h
    · injection h with _ h2; subst h2; exact hs
    · split at h
      · split at h
        · injection h with _ h2; subst h2
          exact synced_storeToSession _ _ (synced_syncGraphs _ _)
        · injection h with _ h2; subst h2; exact hs
      · split at h
        · injection h with _ h2; subst h2
          exact synced_storeToSession _ _ (synced_syncGraphs _ _)
        · split at h
          · cases h
          · rename_i r2 hsp
            split at h
            · injection h with _ h2; subst h2
              exact synced_storeToSession _ _ (synced_syncGraphs _ _)
            · injection h with _ h2; subst h2
              exact splitAt_synced E r _ a _ hsp hs
          · rename_i v2 r2 _ hsp
            injection h with _ h2; subst h2
            exact splitAt_synced E r _ a _ hsp hs

theorem reachable_synced (E : Env) (r : Route) (h : Reachable E r) : Synced E r := by
  induction h with
  | create cr start waypoints => exact synced_syncGraphs _ _
  | splitAt w _ hc ih => exact splitAt_synced E _ _ w _ hc ih
  | removeWaypoint w _ hc ih => exact removeWaypoint_synced E _ _ w _ hc ih
  | moveWaypoint a b _ hc ih => exact moveWaypoint_synced E _ _ a b _ hc ih

/-! ## Lists by index -/

theorem list_split_at {α : Type} (l : List α) (i : Nat) (x : α) (h : l[i]? = some x) :
    l = l.take i ++ x :: l.drop (i + 1) ∧ (l.take i).length = i := by
  have hlt : i < l.length := by
    by_contra hc
    have : l[i]? = none := by rw [List.getElem?_eq_none_iff]; omega
    simp [this] at h
  have hx : l[i] = x := by
    rw [List.getElem?_eq_getElem hlt] at h
    exact Option.some.inj h
  refine ⟨?_, by simp; omega⟩
  rw [← hx, ← List.drop_eq_getElem_cons hlt, List.take_append_drop]

theorem mem_take_getElem? {α : Type} (l : List α) (i : Nat) (x : α) (h : x ∈ l.take i) :
    ∃ j, j < i ∧ l[j]? = some x := by
  obtain ⟨j, hj⟩ := List.getElem?_of_mem h
  rw [List.getElem?_take] at hj
  by_cases hlt : j < i
  · exact ⟨j, hlt, by simpa [hlt] using hj⟩
  · simp [hlt] at hj

theorem mem_drop_getElem? {α : Type} (l : List α) (i : Nat) (x : α)
    (h : x ∈ l.drop (i + 1)) : ∃ j, i < j ∧ l[j]? = some x := by
  obtain ⟨j, hj⟩ := List.getElem?_of_mem h
  rw [List.getElem?_drop] at hj
  exact ⟨i + 1 + j, by omega, hj⟩

theorem getElem?_lt {α : Type} (l : List α) (i : Nat) (x : α) (h : l[i]? = some x) :
    i < l.length := by
  by_contra hc
  have : l[i]? = none := by rw [List.getElem?_eq_none_iff]; omega
  simp [this] at h

/-! ## The searches on a decomposed segment list -/

theorem findGraphs_one (E : Env) (r : Route) (w : StarSystem) (i : Nat) (g : Dijkstra)
    (hg : r._graphs[i]? = some g)
    (hpre : ∀ j x, j < i → r._graphs[j]? = some x → w ∉ x.routeArrayOrEmpty E)
    (hin : w ∈ g.routeArrayOrEmpty E)
    (hpost : ∀ j x, i < j → r._graphs[j]? = some x →
      ∃ first, (x.routeArrayOrEmpty E).head? = some first ∧ first ≠ w) :
    __findGraphs E r w = some [(i, g)] := by
  obtain ⟨hsplit, hlen⟩ := list_split_at r._graphs i g hg
  unfold __findGraphs
  rw [hsplit, findLoop_skip E w _ _ 0 ?_, findLoop_first E w g _ _ hin,
    findLoop_tail_none E w _ _ _ ?_]
  · simp [hlen]
  · intro x hx
    obtain ⟨j, hj, hget⟩ := mem_drop_getElem? _ _ _ hx
    exact hpost j x hj hget
  · intro x hx
    obtain ⟨j, hj, hget⟩ := mem_take_getElem? _ _ _ hx
    exact hpre j x hj hget

theorem findGraphs_two (E : Env) (r : Route) (w : StarSystem) (i k : Nat) (g1 g2 : Dijkstra)
    (h1 : r._graphs[i]? = some g1)
    (hpre : ∀ j x, j < i → r._graphs[j]? = some x → w ∉ x.routeArrayOrEmpty E)
    (hin : w ∈ g1.routeArrayOrEmpty E)
    (hik : i < k) (h2 : r._graphs[k]? = some g2)
    (hmid : ∀ j x, i < j → j < k → r._graphs[j]? = some x →
      ∃ first, (x.routeArrayOrEmpty E).head? = some first ∧ first ≠ w)
    (hhead : (g2.routeArrayOrEmpty E).head? = some w) :
    __findGraphs E r w = some [(i, g1), (k, g2)] := by
  obtain ⟨hsplit, hlen⟩ := list_split_at r._graphs i g1 h1
  have h2d : (r._graphs.drop (i + 1))[k - (i + 1)]? = some g2 := by
    rw [List.getElem?_drop]
    have : i + 1 + (k - (i + 1)) = k := by omega
    rw [this]; exact h2
  obtain ⟨hsplit2, hlen2⟩ := list_split_at _ _ g2 h2d
  unfold __findGraphs
  rw [hsplit, findLoop_skip E w _ _ 0 ?_, findLoop_first E w g1 _ _ hin, hsplit2,
    findLoop_tail_some E w _ g2 _ _ _ ?_ hhead]
  · rw [hlen2, hlen]
    have : 0 + i + 1 + (k - (i + 1)) = k := by omega
    simp only [Nat.zero_add] at this ⊢
    rw [this]
  · intro x hx
    obtain ⟨j, hj, hget⟩ := mem_take_getElem? _ _ _ hx
    rw [List.getElem?_drop] at hget
    exact hmid (i + 1 + j) x (by omega) (by omega) hget
  · intro x hx
    obtain ⟨j, hj, hget⟩ := mem_take_getElem? _ _ _ hx
    exact hpre j x hj hget

theorem findGraphs_at_most_one (E : Env) (r : Route) (w : StarSystem)
    (hheads : ∀ j x, 0 < j → r._graphs[j]? = some x →
      ∃ first, (x.routeArrayOrEmpty E).head? = some first ∧ first ≠ w) :
    ∃ res, __findGraphs E r w = some res ∧ res.length ≤ 1 := by
  classical
  by_cases hex : ∃ i : Nat, ∃ g : Dijkstra, r._graphs[i]? = some g ∧ w ∈ g.routeArrayOrEmpty E
  · obtain ⟨g, hg, hin⟩ := Nat.find_spec hex
    have hmin := fun {m : Nat} (hm : m < Nat.find hex) => Nat.find_min hex hm
    refine ⟨[(Nat.find hex, g)], findGraphs_one E r w _ g hg ?_ hin ?_, by simp⟩
    · intro j x hj hget hc
      exact hmin hj ⟨x, hget, hc⟩
    · intro j x hj hget
      exact hheads j x (by omega) hget
  · refine ⟨[], ?_, by simp⟩
    have hall : ∀ g ∈ r._graphs, w ∉ g.routeArrayOrEmpty E := by
      intro g hg hc
      obtain ⟨i, hi⟩ := List.getElem?_of_mem hg
      exact hex ⟨i, g, hi, hc⟩
    have := findLoop_skip E w [] r._graphs 0 hall
    simp only [List.append_nil] at this
    unfold __findGraphs
    rw [this]
    rfl

/-! ## The edits on a decomposed segment list -/

theorem insertWaypoint_at (e w : StarSystem) (ws : List StarSystem) :
    ∀ i : Nat, ws[i]? = some e → (∀ j : Nat, j < i → ws[j]? ≠ some e) →
      splitAt.insertWaypoint e w ws = ws.take i ++ w :: ws.drop i := by
  induction ws with
  | nil => intro i h; simp at h
  | cons y ys ih =>
    intro i h hfirst
    cases i with
    | zero =>
      simp only [List.getElem?_cons_zero, Option.some.injEq] at h
      simp [splitAt.insertWaypoint, h]
    | succ k =>
      have hy : ¬ y = e := by
        intro hc
        exact hfirst 0 (Nat.succ_pos k) (by simp [hc])
      have := ih k (by simpa using h) (fun j hj => by
        have := hfirst (j + 1) (by omega)
        simpa using this)
      simp [splitAt.insertWaypoint, hy, this]

theorem splitAt_core (E : Env) (r : Route) (w : StarSystem) (i : Nat) (g : Dijkstra)
    (e : StarSystem)
    (hg : r._graphs[i]? = some g)
    (hpre : ∀ j x, j < i → r._graphs[j]? = some x → w ∉ x.routeArrayOrEmpty E)
    (hin : w ∈ g.routeArrayOrEmpty E)
    (hpost : ∀ j x, i < j → r._graphs[j]? = some x →
      ∃ first, (x.routeArrayOrEmpty E).head? = some first ∧ first ≠ w)
    (hlast : g.lastNode E = some e) :
    ∃ r1, splitAt E r w = Completion.returned (some true) r1 ∧ r1.start = r.start ∧
      r1.waypoints = splitAt.insertWaypoint e w r.waypoints ∧ Synced E r1 := by
  have hfind := findGraphs_one E r w i g hg hpre hin hpost
  have hlt := getElem?_lt _ _ _ hg
  refine ⟨storeToSession E (__syncGraphs E
      { r with
        _graphs := splice (r._graphs.set i { g with end_ := some w }) (i + 1) 0
          [{ start := some w, end_ := some e }],
        waypoints := splitAt.insertWaypoint e w r.waypoints }),
    ?_, ?_, ?_, synced_storeToSession _ _ (synced_syncGraphs _ _)⟩
  · unfold splitAt
    simp only [hfind, List.length_singleton, gt_iff_lt, Nat.lt_irrefl, if_false, hlast,
      List.length_set, range_find _ _ hlt]
  · simp
  · simp

theorem forEachGraph_not_mem (E : Env) (toRemove : StarSystem) (two : Nat) (l : List Nat) :
    ∀ r : Route, two ∉ l → removeWaypoint.forEachGraph E toRemove two l r = r := by
  induction l with
  | nil => intro r _; rfl
  | cons x rest ih =>
    intro r h
    have hx : ¬ x = two := fun hc => h (by simp [hc])
    have hr : two ∉ rest := fun hc => h (by simp [hc])
    simp only [removeWaypoint.forEachGraph, hx, if_false]
    exact ih r hr

theorem forEachGraph_split (E : Env) (toRemove : StarSystem) (two : Nat) (post : List Nat)
    (hpost : two ∉ post) (pre : List Nat) :
    ∀ r : Route, two ∉ pre →
      removeWaypoint.forEachGraph E toRemove two (pre ++ two :: post) r =
        storeToSession E (__syncGraphs E
          { r with _graphs := splice r._graphs two 1 [],
                   waypoints := removeWaypoint.forEachWaypoint toRemove r.waypoints }) := by
  induction pre with
  | nil =>
    intro r _
    simp only [List.nil_append, removeWaypoint.forEachGraph, if_true]
    exact forEachGraph_not_mem E toRemove two post _ hpost
  | cons x rest ih =>
    intro r hpre
    have hx : ¬ x = two := fun hc => hpre (by simp [hc])
    rw [List.cons_append]
    simp only [removeWaypoint.forEachGraph, hx, if_false]
    exact ih r (fun hc => hpre (List.mem_cons_of_mem _ hc))

theorem forEachGraph_range (E : Env) (toRemove : StarSystem) (two n : Nat) (r : Route)
    (h : two < n) :
    removeWaypoint.forEachGraph E toRemove two (List.range n) r =
      storeToSession E (__syncGraphs E
        { r with _graphs := splice r._graphs two 1 [],
                 waypoints := removeWaypoint.forEachWaypoint toRemove r.waypoints }) := by
  have hmem : two ∈ List.range n := List.mem_range.mpr h
  obtain ⟨pre, post, hsplit⟩ := List.append_of_mem hmem
  have hnd : (pre ++ two :: post).Nodup := hsplit ▸ List.nodup_range n
  rw [List.nodup_append] at hnd
  obtain ⟨_, hpost, hdisj⟩ := hnd
  have hpre : two ∉ pre := fun hc => hdisj hc (by simp)
  have hpost2 : two ∉ post := (List.nodup_cons.mp hpost).1
  rw [hsplit]
  exact forEachGraph_split E toRemove two post hpost2 pre r hpre

theorem removeWaypoint_core (E : Env) (r : Route) (w : StarSystem) (i k : Nat)
    (g1 g2 : Dijkstra)
    (h1 : r._graphs[i]? = some g1)
    (hpre : ∀ j x, j < i → r._graphs[j]? = some x → w ∉ x.routeArrayOrEmpty E)
    (hin : w ∈ g1.routeArrayOrEmpty E)
    (hik : i < k) (h2 : r._graphs[k]? = some g2)
    (hmid : ∀ j x, i < j → j < k → r._graphs[j]? = some x →
      ∃ first, (x.routeArrayOrEmpty E).head? = some first ∧ first ≠ w)
    (hhead : (g2.routeArrayOrEmpty E).head? = some w) :
    ∃ r1, removeWaypoint E r w = Completion.returned none r1 ∧ r1.start = r.start ∧
      r1.waypoints = removeWaypoint.forEachWaypoint w r.waypoints ∧ Synced E r1 := by
  have hfind := findGraphs_two E r w i k g1 g2 h1 hpre hin hik h2 hmid hhead
  have hlt := getElem?_lt _ _ _ h2
  refine ⟨storeToSession E (__syncGraphs E
      { r with
        _graphs := splice (r._graphs.set i { g1 with end_ := g2.start }) k 1 [],
        waypoints := removeWaypoint.forEachWaypoint w r.waypoints }),
    ?_, ?_, ?_, synced_storeToSession _ _ (synced_syncGraphs _ _)⟩
  · unfold removeWaypoint
    simp only [hfind, List.length_set]
    rw [forEachGraph_range E w k _ _ hlt]
  · simp
  · simp


/-! ## Routes in sync, slot by slot -/

theorem inSync_graphs (E : Env) (r : Route) (h : InSync E r = true) :
    r._graphs = segmentsFor r.start r.waypoints := by
  simp only [InSync, Bool.and_eq_true, decide_eq_true_eq] at h
  exact h.1.2

theorem inSync_graph (E : Env) (r : Route) (h : InSync E r = true) (j : Nat)
    (hj : j < r.waypoints.length) : r._graphs[j]? = some (r.segment j) := by
  rw [inSync_graphs E r h]
  exact segmentsFor_getElem? _ _ j hj

theorem inSync_graph_inv (E : Env) (r : Route) (h : InSync E r = true) (j : Nat)
    (x : Dijkstra) (hx : r._graphs[j]? = some x) :
    j < r.waypoints.length ∧ x = r.segment j := by
  have hlt : j < r.waypoints.length := by
    have := getElem?_lt _ _ _ hx
    rw [inSync_graphs E r h, segmentsFor_length] at this
    exact this
  refine ⟨hlt, ?_⟩
  rw [inSync_graph E r h j hlt] at hx
  exact (Option.some.inj hx).symm

theorem segmentOK_route (E : Env) (g : Dijkstra) (h : segmentOK E g = true) :
    ∃ p, E.routeArray g.start g.end_ = some p ∧ 1 < p.length ∧ g.routeArrayOrEmpty E = p := by
  simp only [segmentOK, Bool.and_eq_true] at h
  cases hra : E.routeArray g.start g.end_ with
  | none => simp [hra] at h
  | some p =>
    simp only [hra, decide_eq_true_eq] at h
    exact ⟨p, rfl, h.2, by simp [Dijkstra.routeArrayOrEmpty, hra]⟩

theorem inSync_route (E : Env) (r : Route) (h : InSync E r = true) (j : Nat)
    (hj : j < r.waypoints.length) :
    ∃ p, E.routeArray (r.segment j).start (r.segment j).end_ = some p ∧ 1 < p.length ∧
      (r.segment j).routeArrayOrEmpty E = p := by
  apply segmentOK_route
  have hg := inSync_graph E r h j hj
  simp only [InSync, Bool.and_eq_true, List.all_eq_true] at h
  exact h.2 _ (List.getElem?_mem hg)

theorem anchored_route (E : Env) (r : Route) (h : InSync E r = true)
    (ha : PathsAnchored E r = true) (j : Nat) (hj : j < r.waypoints.length) :
    ∃ p, (r.segment j).routeArrayOrEmpty E = p ∧ 1 < p.length ∧
      p.head? = (r.segment j).start ∧ p.getLast? = (r.segment j).end_ ∧
      (r.segment j).lastNode E = (r.segment j).end_ := by
  obtain ⟨p, hp, hlen, hroute⟩ := inSync_route E r h j hj
  have hg := inSync_graph E r h j hj
  simp only [PathsAnchored, List.all_eq_true] at ha
  have := ha _ (List.getElem?_mem hg)
  simp only [anchored, hp, decide_eq_true_eq] at this
  obtain ⟨hh, hl⟩ := this hlen
  exact ⟨p, hroute, hlen, hh, hl, by simp [Dijkstra.lastNode, hp, hl]⟩

theorem synced_inSync (E : Env) (r : Route) (hs : Synced E r)
    (hall : (segmentsFor r.start r.waypoints).all (segmentOK E) = true) :
    InSync E r = true := by
  rw [inSync_iff]
  refine ⟨hs, ?_⟩
  rw [hs.2, syncList_of_ok E _ _ _ hall]

theorem inSync_all (E : Env) (r : Route) (h : InSync E r = true) :
    (segmentsFor r.start r.waypoints).all (segmentOK E) = true := by
  have hg := inSync_graphs E r h
  simp only [InSync, Bool.and_eq_true] at h
  rw [← hg]; exact h.2

theorem segmentsFor_split (prev : Option StarSystem) (a b : List StarSystem) (e : StarSystem) :
    segmentsFor prev (a ++ e :: b) =
      segmentsFor prev a ++ { start := lastOr prev a, end_ := some e } ::
        segmentsFor (some e) b := by
  rw [segmentsFor_append]; rfl

theorem segment_start_eq (r : Route) (i : Nat) (hi : i ≤ r.waypoints.length) :
    (r.segment i).start = lastOr r.start (r.waypoints.take i) := by
  have h := boundary_eq_lastOr r.start (r.waypoints.take i) (r.waypoints.drop i)
  rw [List.take_append_drop] at h
  have hl : (r.waypoints.take i).length = i := by simp; omega
  rw [hl] at h
  exact h

/-- The heads of the segments after the first are the waypoints before the last. -/
theorem heads_differ (E : Env) (r : Route) (w : StarSystem) (h : InSync E r = true)
    (ha : PathsAnchored E r = true) (j : Nat) (x : Dijkstra) (hj : 0 < j)
    (hx : r._graphs[j]? = some x) (hw : r.waypoints[j - 1]? ≠ some w) :
    ∃ first, (x.routeArrayOrEmpty E).head? = some first ∧ first ≠ w := by
  obtain ⟨hlt, hseg⟩ := inSync_graph_inv E r h j x hx
  obtain ⟨p, hroute, _, hhead, _, _⟩ := anchored_route E r h ha j hlt
  subst hseg
  have hj0 : ¬ j = 0 := by omega
  have hstart : (r.segment j).start = r.waypoints[j - 1]? := by simp [Route.segment, hj0]
  have hlt1 : j - 1 < r.waypoints.length := by omega
  rw [hroute, hhead, hstart, List.getElem?_eq_getElem hlt1]
  refine ⟨_, rfl, ?_⟩
  intro hc
  apply hw
  rw [List.getElem?_eq_getElem hlt1, hc]


/-! ## C1: the structural invariant -/

/-- C1 (counterexample): the route `new Route(A, [Z, B])` on the map `A ⇄ B`, where `Z` cannot
be reached, is a route made by the constructor, yet it holds one segment for two waypoints:
the sync pass stopped at the first segment. -/
theorem C1_constructor_breaks_invariant :
    Reachable (dijkstraEnv mapAB) routeAZB ∧
      (dijkstraEnv mapAB).routeArray (some nodeA) (some nodeZ) = some [nodeZ] ∧
      routeAZB.waypoints = [nodeZ, nodeB] ∧
      routeAZB._graphs = [{ start := some nodeA, end_ := some nodeZ }] ∧
      routeAZB._graphs.length ≠ routeAZB.waypoints.length := by
  refine ⟨Reachable.create _ _ _, ?_, ?_, ?_, ?_⟩ <;> decide

/-- C1 (amended): for every route made by the constructor and then changed by any sequence of
`splitAt`, `removeWaypoint` and `moveWaypoint` calls that returned, whenever no sync failure is
recorded (`lastError()` is none) the segment list has the same length as `waypoints` and for
every index `i` segment `i` starts at `(i = 0 ? start : waypoints[i-1])` and ends at
`waypoints[i]`. -/
theorem reachable_segments_positional (E : Env) (r : Route) (h : Reachable E r)
    (herr : r._error = none) :
    r._graphs.length = r.waypoints.length ∧
      ∀ i, i < r.waypoints.length → r._graphs[i]? = some (r.segment i) := by
  have hin : InSync E r = true := (inSync_iff E r).mpr ⟨reachable_synced E r h, herr⟩
  simp only [InSync, Bool.and_eq_true, decide_eq_true_eq] at hin
  obtain ⟨⟨_, hg⟩, _⟩ := hin
  rw [hg]
  exact ⟨segmentsFor_length _ _, fun i hi => segmentsFor_getElem? _ _ i hi⟩

/-- Witness of `reachable_segments_positional`: the route `A > B` on the map `A ⇄ B`. -/
theorem reachable_segments_positional_witness :
    Reachable (dijkstraEnv mapAB) routeAB ∧ routeAB._error = none ∧
      (routeAB._graphs.length = routeAB.waypoints.length ∧
        ∀ i, i < routeAB.waypoints.length → routeAB._graphs[i]? = some (routeAB.segment i)) :=
  ⟨Reachable.create _ _ _, by decide,
    reachable_segments_positional (dijkstraEnv mapAB) routeAB (Reachable.create _ _ _)
      (by decide)⟩

/-! ## C2: a failed sync pass -/

/-- C2 (failing input): the route `A > B` on the map `A ⇄ B` holds the segment `A → B` and no
error. `moveWaypoint(B, Z)`, with `Z` out of reach, runs a sync pass that meets a route array
of one entry: it records `RouteSegmentFailed`, and the segment list is then the array the pass
was filling, with the failed segment `A → Z` in it, not the list `[A → B]` held before. -/
theorem C2_failed_pass_replaces_segments :
    routeAB._graphs = [{ start := some nodeA, end_ := some nodeB }] ∧
      routeAB._error = none ∧
      (dijkstraEnv mapAB).routeArray (some nodeA) (some nodeZ) = some [nodeZ] ∧
      moveWaypoint (dijkstraEnv mapAB) routeAB nodeB nodeZ =
        Completion.returned (some true)
          { start := some nodeA, waypoints := [nodeZ],
            _graphs := [{ start := some nodeA, end_ := some nodeZ }],
            _error := some RouteError.RouteSegmentFailed,
            currentRoute := some ⟨1, [9]⟩ } ∧
      (__syncGraphs (dijkstraEnv mapAB) { routeAB with waypoints := [nodeZ] })._graphs
        ≠ routeAB._graphs := by
  refine ⟨?_, ?_, ?_, ?_, ?_⟩ <;> decide

/-! ## C8 and C9: `moveWaypoint` on the boundaries -/

/-- C8: for every route and all systems `a` and `b`, `moveWaypoint(a, b)` returns false and
leaves the route as it was (start and waypoints included) whenever `a` is `b`, `b` is the
current start, or `b` is a current waypoint. -/
theorem moveWaypoint_rejects_duplicate (E : Env) (r : Route) (a b : StarSystem)
    (h : a = b ∨ some b = r.start ∨ b ∈ r.waypoints) :
    moveWaypoint E r a b = Completion.returned (some false) r := by
  unfold moveWaypoint
  by_cases hab : a = b
  · rw [if_pos hab]
  · rw [if_neg hab]
    have hdup : some b = r.start ∨ (indexOf r.waypoints b).isSome = true := by
      rcases h with h | h | h
      · exact absurd h hab
      · exact Or.inl h
      · exact Or.inr ((indexOf_isSome _ _).mpr h)
    rw [if_pos hdup]

/-- Witness of `moveWaypoint_rejects_duplicate`: moving the start of `A > B` onto `B`. -/
theorem moveWaypoint_rejects_duplicate_witness :
    (nodeA = nodeB ∨ some nodeB = routeAB.start ∨ nodeB ∈ routeAB.waypoints) ∧
      moveWaypoint (dijkstraEnv mapAB) routeAB nodeA nodeB
        = Completion.returned (some false) routeAB :=
  ⟨by decide, moveWaypoint_rejects_duplicate (dijkstraEnv mapAB) routeAB nodeA nodeB (by decide)⟩

/-- C9: for every route and systems `old`, `new` with `new` different from `old`, from the start
and from every waypoint: if `old` is the current start, `moveWaypoint(old, new)` returns true,
the start becomes `new` and the waypoints are unchanged (so moving the start is never rejected
once the duplicate check passes); otherwise, if `old` is `waypoints[k]` and no earlier
waypoint, it returns true, `waypoints[k]` becomes `new`, every other waypoint and the start are
unchanged and the list keeps its length. -/
theorem moveWaypoint_replaces_boundary (E : Env) (r : Route) (old new : StarSystem)
    (hne : new ≠ old) (hstart : some new ≠ r.start) (hnot : new ∉ r.waypoints) :
    (some old = r.start →
      ∃ r1, moveWaypoint E r old new = Completion.returned (some true) r1 ∧
        r1.start = some new ∧ r1.waypoints = r.waypoints) ∧
    (some old ≠ r.start → ∀ k : Nat, r.waypoints[k]? = some old →
      (∀ j : Nat, j < k → r.waypoints[j]? ≠ some old) →
      ∃ r1, moveWaypoint E r old new = Completion.returned (some true) r1 ∧
        r1.start = r.start ∧ r1.waypoints.length = r.waypoints.length ∧
        r1.waypoints[k]? = some new ∧ ∀ j : Nat, j ≠ k → r1.waypoints[j]? = r.waypoints[j]?) := by
  have hab : ¬ old = new := fun hc => hne hc.symm
  have hdup : ¬ (some new = r.start ∨ (indexOf r.waypoints new).isSome = true) := by
    rintro (hc | hc)
    · exact hstart hc
    · exact hnot ((indexOf_isSome _ _).mp hc)
  constructor
  · intro hold
    have hguard : r.waypoints.length ≠ 1 ∨ some new ≠ r.waypoints[0]? := by
      by_cases hl : r.waypoints.length = 1
      · right
        intro hc
        exact hnot (List.getElem?_mem hc.symm)
      · exact Or.inl hl
    refine ⟨storeToSession E (__syncGraphs E { r with start := some new }), ?_, ?_, ?_⟩
    · unfold moveWaypoint
      rw [if_neg hab, if_neg hdup, if_pos hold, if_pos hguard]
    · simp
    · simp
  · intro hold k hk hfirst
    have hidx := indexOf_eq_some r.waypoints old k hk hfirst
    have hklt : k < r.waypoints.length := by
      by_contra hc
      have : r.waypoints[k]? = none := by rw [List.getElem?_eq_none_iff]; omega
      simp [this] at hk
    refine ⟨storeToSession E (__syncGraphs E { r with waypoints := r.waypoints.set k new }),
      ?_, ?_, ?_, ?_, ?_⟩
    · unfold moveWaypoint
      rw [if_neg hab, if_neg hdup, if_neg hold]
      simp only [hidx]
    · simp
    · simp
    · simp [List.getElem?_set, hklt]
    · intro j hj
      have hkj : ¬ k = j := fun hc => hj hc.symm
      simp [List.getElem?_set, hkj]

/-- Witness of `moveWaypoint_replaces_boundary`: on `A > B`, the unused system `C` can replace
the start `A` and the waypoint `B`. -/
theorem moveWaypoint_replaces_boundary_witness :
    (some nodeA = routeAB.start →
      ∃ r1, moveWaypoint (dijkstraEnv mapAB) routeAB nodeA nodeC
          = Completion.returned (some true) r1 ∧
        r1.start = some nodeC ∧ r1.waypoints = routeAB.waypoints) ∧
    (some nodeA ≠ routeAB.start → ∀ k : Nat, routeAB.waypoints[k]? = some nodeA →
      (∀ j : Nat, j < k → routeAB.waypoints[j]? ≠ some nodeA) →
      ∃ r1, moveWaypoint (dijkstraEnv mapAB) routeAB nodeA nodeC
          = Completion.returned (some true) r1 ∧
        r1.start = routeAB.start ∧ r1.waypoints.length = routeAB.waypoints.length ∧
        r1.waypoints[k]? = some nodeC ∧
        ∀ j : Nat, j ≠ k → r1.waypoints[j]? = routeAB.waypoints[j]?) :=
  moveWaypoint_replaces_boundary (dijkstraEnv mapAB) routeAB nodeA nodeC
    (by decide) (by decide) (by decide)

/-! ## C6: `removeWaypoint` away from a shared boundary -/

theorem removeWaypoint_false_of_not_shared (E : Env) (r : Route) (w : StarSystem)
    (hsync : InSync E r = true) (hanch : PathsAnchored E r = true)
    (hnb : ∀ j : Nat, j + 1 < r.waypoints.length → r.waypoints[j]? ≠ some w) :
    removeWaypoint E r w = Completion.returned (some false) r := by
  have hheads : ∀ j x, 0 < j → r._graphs[j]? = some x →
      ∃ first, (x.routeArrayOrEmpty E).head? = some first ∧ first ≠ w := by
    intro j x hj hx
    have hlt := (inSync_graph_inv E r hsync j x hx).1
    exact heads_differ E r w hsync hanch j x hj hx (hnb (j - 1) (by omega))
  obtain ⟨res, hres, hlen⟩ := findGraphs_at_most_one E r w hheads
  unfold removeWaypoint
  rw [hres]
  match res, hlen with
  | [], _ => rfl
  | [_], _ => rfl
  | _ :: _ :: _, hl => simp at hl

/-- C6: for every route in sync (each segment path running from the start of the segment to
its end) with pairwise distinct start and waypoints, `removeWaypoint(w)` returns false and
leaves the route as it was (start, waypoints and segment list included) whenever `w` is the
start, the final waypoint, or not a waypoint at all (a system strictly inside a segment path,
or on no segment path). -/
theorem removeWaypoint_rejects_non_boundary (E : Env) (r : Route) (w : StarSystem)
    (hsync : InSync E r = true) (hanch : PathsAnchored E r = true)
    (hdistinct : (r.start.toList ++ r.waypoints).Nodup)
    (hw : some w = r.start ∨ r.waypoints.getLast? = some w ∨ w ∉ r.waypoints) :
    removeWaypoint E r w = Completion.returned (some false) r := by
  apply removeWaypoint_false_of_not_shared E r w hsync hanch
  intro j hj hc
  have hmem : w ∈ r.waypoints.dropLast := by
    rw [List.dropLast_eq_take]
    have hget : (r.waypoints.take (r.waypoints.length - 1))[j]? = some w := by
      rw [List.getElem?_take_of_lt (by omega)]
      exact hc
    exact List.getElem?_mem hget
  rcases hw with hw | hw | hw
  · rw [← hw] at hdistinct
    simp only [Option.toList, List.singleton_append, List.nodup_cons] at hdistinct
    exact hdistinct.1 (List.mem_of_mem_dropLast hmem)
  · have hsplit : r.waypoints.dropLast ++ [w] = r.waypoints :=
      List.dropLast_append_getLast? w (Option.mem_def.mpr hw)
    have hnd : r.waypoints.Nodup := (List.nodup_append.mp hdistinct).2.1
    rw [← hsplit, List.nodup_append] at hnd
    exact hnd.2.2 hmem (by simp)
  · exact hw (List.mem_of_mem_dropLast hmem)

/-- Witness of `removeWaypoint_rejects_non_boundary`: removing the start `A` of `A > B`. -/
theorem removeWaypoint_rejects_non_boundary_witness :
    removeWaypoint (dijkstraEnv mapAB) routeAB nodeA = Completion.returned (some false) routeAB :=
  removeWaypoint_rejects_non_boundary (dijkstraEnv mapAB) routeAB nodeA (by decide) (by decide)
    (by decide) (by decide)

/-! ## C3: `splitAt` inside a segment -/

/-- C3 (counterexample): the route `A > B > C > B` on the map `A → B → C → X → B` is in sync and
`X` lies strictly inside the path `C, X, B` of segment 2 and on no other segment path. The claim
asks for `X` at index 2, giving `B, C, X, B`; `splitAt(X)` returns true with `X` put before the
first waypoint equal to the old end `B`, at index 0. -/
theorem C3_split_with_repeated_waypoint :
    InSync (dijkstraEnv mapLoop) routeABCB = true ∧
      routeABCB.waypoints = [nodeB, nodeC, nodeB] ∧
      (routeABCB.segment 0).routeArrayOrEmpty (dijkstraEnv mapLoop) = [nodeA, nodeB] ∧
      (routeABCB.segment 1).routeArrayOrEmpty (dijkstraEnv mapLoop) = [nodeB, nodeC] ∧
      (routeABCB.segment 2).routeArrayOrEmpty (dijkstraEnv mapLoop) = [nodeC, nodeX, nodeB] ∧
      splitAt (dijkstraEnv mapLoop) routeABCB nodeX
        = Completion.returned (some true)
            (splitAt (dijkstraEnv mapLoop) routeABCB nodeX).route ∧
      (splitAt (dijkstraEnv mapLoop) routeABCB nodeX).route.waypoints
        = [nodeX, nodeB, nodeC, nodeB] ∧
      (splitAt (dijkstraEnv mapLoop) routeABCB nodeX).route.waypoints
        ≠ routeABCB.waypoints.take 2 ++ nodeX :: routeABCB.waypoints.drop 2 := by
  refine ⟨?_, ?_, ?_, ?_, ?_, ?_, ?_, ?_⟩ <;> decide

/-- C3 (amended): for every route in sync (each segment path running from the start of the
segment to its end) and every system `w` that lies on the path of segment `i` and on no other
segment path, when the end of segment `i` does not occur earlier in `waypoints` and the solver
finds a path from the start of segment `i` to `w` and from `w` to the end of segment `i`:
`splitAt(w)` returns true and afterwards `waypoints` is the old list with `w` inserted at index
`i`, segment `i` spans the old start of `i` to `w`, segment `i+1` spans `w` to the old end of
segment `i`, the start is unchanged and the route is in sync. -/
theorem splitAt_inserts_waypoint (E : Env) (r : Route) (w : StarSystem) (i : Nat)
    (hsync : InSync E r = true) (hanch : PathsAnchored E r = true)
    (hi : i < r.waypoints.length)
    (hin : w ∈ (r.segment i).routeArrayOrEmpty E)
    (hothers : ∀ j : Nat, j < r.waypoints.length → j ≠ i →
      w ∉ (r.segment j).routeArrayOrEmpty E)
    (hdup : ∀ j : Nat, j < i → r.waypoints[j]? ≠ r.waypoints[i]?)
    (hnew1 : segmentOK E { start := (r.segment i).start, end_ := some w } = true)
    (hnew2 : segmentOK E { start := some w, end_ := r.waypoints[i]? } = true) :
    ∃ r1, splitAt E r w = Completion.returned (some true) r1 ∧ r1.start = r.start ∧
      r1.waypoints = r.waypoints.take i ++ w :: r.waypoints.drop i ∧
      r1._graphs[i]? = some { start := (r.segment i).start, end_ := some w } ∧
      r1._graphs[i + 1]? = some { start := some w, end_ := r.waypoints[i]? } ∧
      InSync E r1 = true := by
  have hg := inSync_graph E r hsync i hi
  obtain ⟨p, hroute, _, _, _, hlastnode⟩ := anchored_route E r hsync hanch i hi
  have hwi : r.waypoints[i]? = some r.waypoints[i] := List.getElem?_eq_getElem hi
  have hend : (r.segment i).end_ = some r.waypoints[i] := by simp [Route.segment, hwi]
  rw [hend] at hlastnode
  have hpre : ∀ j x, j < i → r._graphs[j]? = some x → w ∉ x.routeArrayOrEmpty E := by
    intro j x hj hx
    obtain ⟨hlt, hseg⟩ := inSync_graph_inv E r hsync j x hx
    subst hseg
    exact hothers j hlt (by omega)
  have hpost : ∀ j x, i < j → r._graphs[j]? = some x →
      ∃ first, (x.routeArrayOrEmpty E).head? = some first ∧ first ≠ w := by
    intro j x hj hx
    obtain ⟨hlt, hseg⟩ := inSync_graph_inv E r hsync j x hx
    subst hseg
    obtain ⟨q, _, hqlen, hq⟩ := inSync_route E r hsync j hlt
    have hnot := hothers j hlt (by omega)
    rw [hq] at hnot ⊢
    cases q with
    | nil => simp at hqlen
    | cons first rest =>
      refine ⟨first, rfl, ?_⟩
      intro hc
      exact hnot (by simp [hc])
  obtain ⟨r1, hsplit, hstart, hways, hs1⟩ :=
    splitAt_core E r w i (r.segment i) r.waypoints[i] hg hpre hin hpost hlastnode
  have hways2 : r1.waypoints = r.waypoints.take i ++ w :: r.waypoints.drop i := by
    rw [hways]
    exact insertWaypoint_at _ w r.waypoints i hwi (fun j hj => by rw [← hwi]; exact hdup j hj)
  obtain ⟨hdecomp, htake⟩ := list_split_at r.waypoints i _ hwi
  have hall := inSync_all E r hsync
  rw [hdecomp, segmentsFor_split] at hall
  simp only [List.all_append, List.all_cons, Bool.and_eq_true] at hall
  obtain ⟨hall1, _, hall3⟩ := hall
  have hl : lastOr r.start (r.waypoints.take i) = (r.segment i).start :=
    (segment_start_eq r i (by omega)).symm
  have hsync1 : InSync E r1 = true := by
    apply synced_inSync E r1 hs1
    rw [hways2, hstart, List.drop_eq_getElem_cons hi, segmentsFor_split]
    simp only [segmentsFor, List.all_append, List.all_cons, Bool.and_eq_true]
    rw [hl]
    rw [hwi] at hnew2
    exact ⟨hall1, hnew1, hnew2, hall3⟩
  have hlen1 : r1.waypoints.length = r.waypoints.length + 1 := by
    rw [hways2]; simp; omega
  have hi1 : r1.waypoints[i]? = some w := by
    rw [hways2, List.getElem?_append_right (by simp)]
    simp [htake]
  have hi2 : r1.waypoints[i + 1]? = r.waypoints[i]? := by
    rw [hways2, List.getElem?_append_right (by simp)]
    simp only [htake]
    have : i + 1 - i = 1 := by omega
    rw [this, List.getElem?_cons_succ, List.getElem?_drop]
    rfl
  refine ⟨r1, hsplit, hstart, hways2, ?_, ?_, hsync1⟩
  · rw [inSync_graph E r1 hsync1 i (by omega)]
    simp only [Route.segment, hi1, hstart]
    by_cases h0 : i = 0
    · simp [h0]
    · have : r1.waypoints[i - 1]? = r.waypoints[i - 1]? := by
        rw [hways2, List.getElem?_append_left (by simp; omega), List.getElem?_take_of_lt (by omega)]
      simp [h0, this]
  · rw [inSync_graph E r1 hsync1 (i + 1) (by omega)]
    simp [Route.segment, hi1, hi2]

/-- Witness of `splitAt_inserts_waypoint`: splitting `A > B` on the map `A → X → B` at `X`. -/
theorem splitAt_inserts_waypoint_witness :
    ∃ r1, splitAt (dijkstraEnv mapLine) routeAXB nodeX = Completion.returned (some true) r1 ∧
      r1.start = routeAXB.start ∧
      r1.waypoints = routeAXB.waypoints.take 0 ++ nodeX :: routeAXB.waypoints.drop 0 ∧
      r1._graphs[0]? = some { start := (routeAXB.segment 0).start, end_ := some nodeX } ∧
      r1._graphs[0 + 1]? = some { start := some nodeX, end_ := routeAXB.waypoints[0]? } ∧
      InSync (dijkstraEnv mapLine) r1 = true :=
  splitAt_inserts_waypoint (dijkstraEnv mapLine) routeAXB nodeX 0 (by decide) (by decide)
    (by decide) (by decide) (by decide) (by decide) (by decide) (by decide)

/-! ## C5: `removeWaypoint` at a shared boundary -/

theorem forEachWaypoint_not_mem (w : StarSystem) (ws : List StarSystem) (h : w ∉ ws) :
    removeWaypoint.forEachWaypoint w ws = ws := by
  induction ws with
  | nil => rfl
  | cons x tail ih =>
    have hx : ¬ w = x := fun hc => h (by simp [hc])
    have ht : w ∉ tail := fun hc => h (by simp [hc])
    cases tail with
    | nil => simp [removeWaypoint.forEachWaypoint, hx]
    | cons y rest =>
      simp only [removeWaypoint.forEachWaypoint, hx, if_false]
      rw [ih ht]

theorem forEachWaypoint_once (w : StarSystem) (ws : List StarSystem) :
    ∀ k : Nat, ws[k]? = some w → (∀ j : Nat, j ≠ k → ws[j]? ≠ some w) →
      removeWaypoint.forEachWaypoint w ws = ws.eraseIdx k := by
  induction ws with
  | nil => intro k h; simp at h
  | cons x tail ih =>
    intro k hk honce
    cases k with
    | zero =>
      simp only [List.getElem?_cons_zero, Option.some.injEq] at hk
      have ht : w ∉ tail := by
        intro hc
        obtain ⟨n, hn⟩ := List.getElem?_of_mem hc
        exact honce (n + 1) (by omega) (by simpa using hn)
      cases tail with
      | nil => simp [removeWaypoint.forEachWaypoint, hk]
      | cons y rest =>
        have hr : w ∉ rest := fun hc => ht (by simp [hc])
        simp only [removeWaypoint.forEachWaypoint, hk, if_true, List.eraseIdx_cons_zero]
        rw [forEachWaypoint_not_mem w rest hr]
    | succ k =>
      have hx : ¬ w = x := by
        intro hc
        exact honce 0 (by omega) (by simp [hc])
      have hk2 : tail[k]? = some w := by simpa using hk
      have honce2 : ∀ j : Nat, j ≠ k → tail[j]? ≠ some w := by
        intro j hj
        have := honce (j + 1) (by omega)
        simpa using this
      cases tail with
      | nil => simp at hk2
      | cons y rest =>
        simp only [removeWaypoint.forEachWaypoint, hx, if_false, List.eraseIdx_cons_succ]
        rw [ih k hk2 honce2]

/-- C5 (counterexample): the route `A > B > C > B > D` on the map `A → B ⇄ C`, `B → D` is in
sync and `B` is `waypoints[0]` and `waypoints[2]`, not the last waypoint. The claim asks for
`C, B, D` or `B, C, D` (that entry removed, the list one shorter); `removeWaypoint(B)` leaves
`C, D`: its `forEach` removes every entry `B` that is not next to one just removed. -/
theorem C5_remove_repeated_waypoint :
    InSync (dijkstraEnv mapFork) routeABCBD = true ∧
      routeABCBD.waypoints = [nodeB, nodeC, nodeB, nodeD] ∧
      removeWaypoint (dijkstraEnv mapFork) routeABCBD nodeB
        = Completion.returned none
            (removeWaypoint (dijkstraEnv mapFork) routeABCBD nodeB).route ∧
      (removeWaypoint (dijkstraEnv mapFork) routeABCBD nodeB).route.waypoints
        = [nodeC, nodeD] ∧
      (removeWaypoint (dijkstraEnv mapFork) routeABCBD nodeB).route.waypoints
        ≠ routeABCBD.waypoints.eraseIdx 0 ∧
      (removeWaypoint (dijkstraEnv mapFork) routeABCBD nodeB).route.waypoints
        ≠ routeABCBD.waypoints.eraseIdx 2 ∧
      (removeWaypoint (dijkstraEnv mapFork) routeABCBD nodeB).route.waypoints.length + 1
        ≠ routeABCBD.waypoints.length := by
  refine ⟨?_, ?_, ?_, ?_, ?_, ?_, ?_⟩ <;> decide

/-- C5 (amended): for every route in sync (each segment path running from the start of the
segment to its end) and every waypoint `w = waypoints[k]` that is not the last waypoint and
occurs nowhere else in `waypoints`, when the solver finds a path from the start of segment `k`
to the end of segment `k+1`: `removeWaypoint(w)` (which ends without a return value) removes
exactly that entry from `waypoints`, the start is unchanged, and after the resync the segment
at index `k` spans the old start of segment `k` to the old end of segment `k+1`, with one
segment fewer. -/
theorem removeWaypoint_merges_segments (E : Env) (r : Route) (w : StarSystem) (k : Nat)
    (hsync : InSync E r = true) (hanch : PathsAnchored E r = true)
    (hk : k + 1 < r.waypoints.length)
    (hwk : r.waypoints[k]? = some w)
    (honce1 : ∀ j : Nat, j < r.waypoints.length → j ≠ k → r.waypoints[j]? ≠ some w)
    (hnew : segmentOK E { start := (r.segment k).start, end_ := r.waypoints[k + 1]? } = true) :
    ∃ r1, removeWaypoint E r w = Completion.returned none r1 ∧ r1.start = r.start ∧
      r1.waypoints = r.waypoints.eraseIdx k ∧
      r1.waypoints.length + 1 = r.waypoints.length ∧
      r1._graphs.length + 1 = r._graphs.length ∧
      r1._graphs[k]? = some { start := (r.segment k).start, end_ := r.waypoints[k + 1]? } ∧
      InSync E r1 = true := by
  classical
  have hklt : k < r.waypoints.length := by omega
  have honce : ∀ j : Nat, j ≠ k → r.waypoints[j]? ≠ some w := by
    intro j hj hc
    exact honce1 j (getElem?_lt _ _ _ hc) hj hc
  -- segment k ends at w, so some segment path holds w
  obtain ⟨p, hproute, _, _, hplast, _⟩ := anchored_route E r hsync hanch k hklt
  have hpend : (r.segment k).end_ = some w := by simp [Route.segment, hwk]
  rw [hpend] at hplast
  have hex : ∃ f : Nat, ∃ g : Dijkstra, r._graphs[f]? = some g ∧ w ∈ g.routeArrayOrEmpty E :=
    ⟨k, r.segment k, inSync_graph E r hsync k hklt, by
      rw [hproute]; exact List.mem_of_getLast?_eq_some hplast⟩
  obtain ⟨g1, hg1, hin1⟩ := Nat.find_spec hex
  have hmin := fun {m : Nat} (hm : m < Nat.find hex) => Nat.find_min hex hm
  have hfk : Nat.find hex ≤ k := Nat.find_min' hex
    ⟨r.segment k, inSync_graph E r hsync k hklt, by
      rw [hproute]; exact List.mem_of_getLast?_eq_some hplast⟩
  -- segment k+1 starts at w
  obtain ⟨q, hqroute, _, hqhead, _, _⟩ := anchored_route E r hsync hanch (k + 1) hk
  have hqstart : (r.segment (k + 1)).start = some w := by simp [Route.segment, hwk]
  rw [hqstart, ← hqroute] at hqhead
  obtain ⟨r1, hrem, hstart, hways, hs1⟩ :=
    removeWaypoint_core E r w (Nat.find hex) (k + 1) g1 (r.segment (k + 1)) hg1
      (fun j x hj hx hc => hmin hj ⟨x, hx, hc⟩) hin1 (by omega)
      (inSync_graph E r hsync (k + 1) hk)
      (fun j x hj1 hj2 hx =>
        heads_differ E r w hsync hanch j x (by omega) hx (honce (j - 1) (by omega)))
      hqhead
  have hways2 : r1.waypoints = r.waypoints.eraseIdx k := by
    rw [hways]; exact forEachWaypoint_once w r.waypoints k hwk honce
  -- the waypoints around the removed entry
  have hk1 : r.waypoints[k + 1]? = some r.waypoints[k + 1] := List.getElem?_eq_getElem hk
  obtain ⟨hdecomp, htake⟩ := list_split_at r.waypoints k w hwk
  have hdrop : r.waypoints.drop (k + 1) = r.waypoints[k + 1] :: r.waypoints.drop (k + 2) :=
    List.drop_eq_getElem_cons hk
  have hall := inSync_all E r hsync
  rw [hdecomp, hdrop, segmentsFor_split] at hall
  simp only [segmentsFor, List.all_append, List.all_cons, Bool.and_eq_true] at hall
  obtain ⟨hall1, _, _, hall4⟩ := hall
  have hl : lastOr r.start (r.waypoints.take k) = (r.segment k).start :=
    (segment_start_eq r k (by omega)).symm
  have hsync1 : InSync E r1 = true := by
    apply synced_inSync E r1 hs1
    rw [hways2, hstart, List.eraseIdx_eq_take_drop_succ, hdrop, segmentsFor_split]
    simp only [List.all_append, List.all_cons, Bool.and_eq_true]
    rw [hl]
    rw [hk1] at hnew
    exact ⟨hall1, hnew, hall4⟩
  have hlen1 : r1.waypoints.length + 1 = r.waypoints.length := by
    rw [hways2, List.length_eraseIdx_of_lt hklt]; omega
  refine ⟨r1, hrem, hstart, hways2, hlen1, ?_, ?_, hsync1⟩
  · rw [inSync_graphs E r hsync, inSync_graphs E r1 hsync1, segmentsFor_length,
      segmentsFor_length]
    exact hlen1
  · rw [inSync_graph E r1 hsync1 k (by omega)]
    have hkk : r1.waypoints[k]? = r.waypoints[k + 1]? := by
      rw [hways2, List.getElem?_eraseIdx_of_ge _ _ _ (Nat.le_refl k)]
    simp only [Route.segment, hkk, hstart]
    by_cases h0 : k = 0
    · simp [h0]
    · have : r1.waypoints[k - 1]? = r.waypoints[k - 1]? := by
        rw [hways2, List.getElem?_eraseIdx_of_lt _ _ _ (by omega)]
      simp [h0, this]

/-- Witness of `removeWaypoint_merges_segments`: removing `B` from `A > B > C`. -/
theorem removeWaypoint_merges_segments_witness :
    ∃ r1, removeWaypoint (dijkstraEnv mapFork) routeABC nodeB = Completion.returned none r1 ∧
      r1.start = routeABC.start ∧
      r1.waypoints = routeABC.waypoints.eraseIdx 0 ∧
      r1.waypoints.length + 1 = routeABC.waypoints.length ∧
      r1._graphs.length + 1 = routeABC._graphs.length ∧
      r1._graphs[0]? =
        some { start := (routeABC.segment 0).start, end_ := routeABC.waypoints[0 + 1]? } ∧
      InSync (dijkstraEnv mapFork) r1 = true :=
  removeWaypoint_merges_segments (dijkstraEnv mapFork) routeABC nodeB 0 (by decide) (by decide)
    (by decide) (by decide) (by decide) (by decide)

/-! ## C10: `moveWaypoint` from inside a segment -/

theorem set_append_cons {α : Type} (a b : List α) (x y : α) :
    (a ++ x :: b).set a.length y = a ++ y :: b := by
  induction a with
  | nil => rfl
  | cons z zs ih => simp [ih]

/-- C10 (counterexample): on the route `A > B > C` over the map `A → X ⇄ B`, `X → C`,
`X → N → B`, the system `X` is neither the start nor a waypoint and lies strictly inside the
path `B, X, C` of segment 1; `N` is unused. The claim asks for `N` at index 1, giving
`B, N, C`; `moveWaypoint(X, N)` returns true with `N, B, C`, because `X` is found first on
the path `A, X, B` of segment 0. -/
theorem C10_move_from_second_segment :
    InSync (dijkstraEnv mapHub) routeHub = true ∧
      routeHub.waypoints = [nodeB, nodeC] ∧
      (routeHub.segment 0).routeArrayOrEmpty (dijkstraEnv mapHub) = [nodeA, nodeX, nodeB] ∧
      (routeHub.segment 1).routeArrayOrEmpty (dijkstraEnv mapHub) = [nodeB, nodeX, nodeC] ∧
      moveWaypoint (dijkstraEnv mapHub) routeHub nodeX nodeN
        = Completion.returned (some true)
            (moveWaypoint (dijkstraEnv mapHub) routeHub nodeX nodeN).route ∧
      (moveWaypoint (dijkstraEnv mapHub) routeHub nodeX nodeN).route.waypoints
        = [nodeN, nodeB, nodeC] ∧
      (moveWaypoint (dijkstraEnv mapHub) routeHub nodeX nodeN).route.waypoints
        ≠ routeHub.waypoints.take 1 ++ nodeN :: routeHub.waypoints.drop 1 := by
  refine ⟨?_, ?_, ?_, ?_, ?_, ?_, ?_⟩ <;> decide

/-- C10 (amended): for every route in sync (each segment path running from the start of the
segment to its end) and systems `old`, `new` where `old` is neither the start nor a waypoint,
segment `i` is the first segment whose path holds `old`, the end of segment `i` does not occur
earlier in `waypoints`, and `new` is not `old`, the start or a waypoint: `moveWaypoint(old,
new)` returns true, the resulting `waypoints` is the old list with `new` inserted at index `i`
(`old` itself is not left in the list) and the start is unchanged. -/
theorem moveWaypoint_from_interior (E : Env) (r : Route) (old new : StarSystem) (i : Nat)
    (hsync : InSync E r = true) (hanch : PathsAnchored E r = true)
    (hi : i < r.waypoints.length)
    (hin : old ∈ (r.segment i).routeArrayOrEmpty E)
    (hfirst : ∀ j : Nat, j < i → old ∉ (r.segment j).routeArrayOrEmpty E)
    (hdup : ∀ j : Nat, j < i → r.waypoints[j]? ≠ r.waypoints[i]?)
    (hold1 : some old ≠ r.start) (hold2 : old ∉ r.waypoints)
    (hne : new ≠ old) (hnew1 : some new ≠ r.start) (hnew2 : new ∉ r.waypoints) :
    ∃ r1, moveWaypoint E r old new = Completion.returned (some true) r1 ∧
      r1.start = r.start ∧
      r1.waypoints = r.waypoints.take i ++ new :: r.waypoints.drop i ∧
      old ∉ r1.waypoints := by
  have hg := inSync_graph E r hsync i hi
  obtain ⟨p, _, _, _, _, hlastnode⟩ := anchored_route E r hsync hanch i hi
  have hwi : r.waypoints[i]? = some r.waypoints[i] := List.getElem?_eq_getElem hi
  have hend : (r.segment i).end_ = some r.waypoints[i] := by simp [Route.segment, hwi]
  rw [hend] at hlastnode
  have hpre : ∀ j x, j < i → r._graphs[j]? = some x → old ∉ x.routeArrayOrEmpty E := by
    intro j x hj hx
    obtain ⟨_, hseg⟩ := inSync_graph_inv E r hsync j x hx
    subst hseg
    exact hfirst j hj
  have hpost : ∀ j x, i < j → r._graphs[j]? = some x →
      ∃ first, (x.routeArrayOrEmpty E).head? = some first ∧ first ≠ old := by
    intro j x hj hx
    exact heads_differ E r old hsync hanch j x (by omega) hx
      (fun hc => hold2 (List.getElem?_mem hc))
  obtain ⟨r1, hsplit, hstart, hways, _⟩ :=
    splitAt_core E r old i (r.segment i) r.waypoints[i] hg hpre hin hpost hlastnode
  have hways2 : r1.waypoints = r.waypoints.take i ++ old :: r.waypoints.drop i := by
    rw [hways]
    exact insertWaypoint_at _ old r.waypoints i hwi (fun j hj => by rw [← hwi]; exact hdup j hj)
  have htake : (r.waypoints.take i).length = i := by simp; omega
  have holdtake : old ∉ r.waypoints.take i := fun hc => hold2 (List.mem_of_mem_take hc)
  have hidx : indexOf r1.waypoints old = some i := by
    rw [hways2, indexOf_append_cons _ _ _ holdtake, htake]
  have hab : ¬ old = new := fun hc => hne hc.symm
  have hdupl : ¬ (some new = r.start ∨ (indexOf r.waypoints new).isSome = true) := by
    rintro (hc | hc)
    · exact hnew1 hc
    · exact hnew2 ((indexOf_isSome _ _).mp hc)
  have hresult : (r1.waypoints.set i new) = r.waypoints.take i ++ new :: r.waypoints.drop i := by
    rw [hways2]
    have := set_append_cons (r.waypoints.take i) (r.waypoints.drop i) old new
    rw [htake] at this
    exact this
  refine ⟨storeToSession E (__syncGraphs E { r1 with waypoints := r1.waypoints.set i new }),
    ?_, ?_, ?_, ?_⟩
  · unfold moveWaypoint
    rw [if_neg hab, if_neg hdupl, if_neg hold1]
    simp only [indexOf_eq_none _ _ hold2, hsplit, hidx]
  · simp [hstart]
  · simp [hresult]
  · simp only [storeToSession_waypoints, syncGraphs_waypoints, hresult, List.mem_append,
      List.mem_cons, not_or]
    exact ⟨holdtake, hne.symm, fun hc => hold2 (List.mem_of_mem_drop hc)⟩

/-- Witness of `moveWaypoint_from_interior`: on the route `A > B > C` over `mapHub`, moving `X`,
first found on the path of segment 0, to `N`. -/
theorem moveWaypoint_from_interior_witness :
    ∃ r1, moveWaypoint (dijkstraEnv mapHub) routeHub nodeX nodeN
        = Completion.returned (some true) r1 ∧
      r1.start = routeHub.start ∧
      r1.waypoints = routeHub.waypoints.take 0 ++ nodeN :: routeHub.waypoints.drop 0 ∧
      nodeX ∉ r1.waypoints :=
  moveWaypoint_from_interior (dijkstraEnv mapHub) routeHub nodeX nodeN 0 (by decide) (by decide)
    (by decide) (by decide) (by decide) (by decide) (by decide) (by decide) (by decide)
    (by decide) (by decide)

/-! ## C4 and C7: `splitAt` at the ends of the route -/

/-- C4 (failing input): the route `A > B` on the map `A ⇄ B` is in sync. `splitAt(B)`, at
the final destination, and `splitAt(A)`, at the start, both find one segment only, so neither
is rejected: each returns true, writes the system into `waypoints` a second time and leaves a
segment from the system to itself on which the sync pass fails. -/
theorem C4_split_at_route_ends :
    InSync (dijkstraEnv mapAB) routeAB = true ∧
      routeAB.start = some nodeA ∧ routeAB.waypoints = [nodeB] ∧
      __findGraphs (dijkstraEnv mapAB) routeAB nodeB
        = some [(0, { start := some nodeA, end_ := some nodeB })] ∧
      splitAt (dijkstraEnv mapAB) routeAB nodeB =
        Completion.returned (some true)
          { start := some nodeA, waypoints := [nodeB, nodeB],
            _graphs := [{ start := some nodeA, end_ := some nodeB },
                        { start := some nodeB, end_ := some nodeB }],
            _error := some RouteError.RouteSegmentFailed,
            currentRoute := some ⟨1, [2, 2]⟩ } ∧
      splitAt (dijkstraEnv mapAB) routeAB nodeA =
        Completion.returned (some true)
          { start := some nodeA, waypoints := [nodeA, nodeB],
            _graphs := [{ start := some nodeA, end_ := some nodeA }],
            _error := some RouteError.RouteSegmentFailed,
            currentRoute := some ⟨1, [1, 2]⟩ } := by
  refine ⟨?_, ?_, ?_, ?_, ?_, ?_⟩ <;> decide

/-- C7 (failing input): the route `A > B > C` on the map `A → C ⇄ B` is in sync, with pairwise
distinct start and waypoints, and `C` lies strictly inside the path `A, C, B` of segment 0.
`splitAt(C)` returns true and leaves the route `A > C > B > C` in sync; the following
`removeWaypoint(C)` removes both entries `C`, so the waypoints are `B`, not the original
`B, C`. The legacy `removeWaypoint`, which stops at the first entry, restores `B, C` from the
same state. -/
theorem C7_split_then_remove_final_waypoint :
    InSync (dijkstraEnv mapVia) routeViaC = true ∧
      routeViaC.start = some nodeA ∧ routeViaC.waypoints = [nodeB, nodeC] ∧
      (routeViaC.segment 0).routeArrayOrEmpty (dijkstraEnv mapVia) = [nodeA, nodeC, nodeB] ∧
      splitAt (dijkstraEnv mapVia) routeViaC nodeC
        = Completion.returned (some true)
            (splitAt (dijkstraEnv mapVia) routeViaC nodeC).route ∧
      (splitAt (dijkstraEnv mapVia) routeViaC nodeC).route.waypoints
        = [nodeC, nodeB, nodeC] ∧
      InSync (dijkstraEnv mapVia) (splitAt (dijkstraEnv mapVia) routeViaC nodeC).route = true ∧
      (removeWaypoint (dijkstraEnv mapVia)
          (splitAt (dijkstraEnv mapVia) routeViaC nodeC).route nodeC).route.waypoints
        = [nodeB] ∧
      (removeWaypoint (dijkstraEnv mapVia)
          (splitAt (dijkstraEnv mapVia) routeViaC nodeC).route nodeC).route.waypoints
        ≠ routeViaC.waypoints ∧
      (Legacy.removeWaypoint (dijkstraEnv mapVia)
          (splitAt (dijkstraEnv mapVia) routeViaC nodeC).route nodeC).route.waypoints
        = routeViaC.waypoints := by
  refine ⟨?_, ?_, ?_, ?_, ?_, ?_, ?_, ?_, ?_, ?_⟩ <;> decide

/-! ## C15: the error a sync pass records -/

/-- C15: a sync pass always completes (what the solver throws ends up in `_error`), and after
any sync pass `lastError()` is none if and only if for every segment of the current waypoints
`buildGraph` completed and `routeArray()` had more than one entry; the error held before the
pass has no part in the outcome, so a successful pass clears it. -/
theorem syncGraphs_lastError (E : Env) (r : Route) :
    ((__syncGraphs E r)._error = none ↔
      (segmentsFor r.start r.waypoints).all (segmentOK E) = true) ∧
    ∀ e : Option RouteError,
      (__syncGraphs E { r with _error := e })._error = (__syncGraphs E r)._error := by
  refine ⟨?_, fun e => rfl⟩
  rw [syncGraphs_eq]
  constructor
  · intro h
    exact syncList_error_none E r.waypoints r.start [] h
  · intro h
    show (syncList E r.start r.waypoints []).2 = none
    rw [syncList_of_ok E r.waypoints r.start [] h]

/-! ## C12 and C13: `setRoute` -/

theorem synced_positional (E : Env) (r : Route) (hs : Synced E r) (herr : r._error = none) :
    r._graphs.length = r.waypoints.length ∧
      ∀ i : Nat, i < r.waypoints.length → r._graphs[i]? = some (r.segment i) := by
  have hin : InSync E r = true := (inSync_iff E r).mpr ⟨hs, herr⟩
  rw [inSync_graphs E r hin]
  exact ⟨segmentsFor_length _ _, fun i hi => segmentsFor_getElem? _ _ i hi⟩

theorem setRoute_graphs (E : Env) (r : Route) (args : List (Option StarSystem)) :
    (setRoute E r args)._graphs = r._graphs ∧ (setRoute E r args)._error = r._error := by
  unfold setRoute
  simp only [storeToSession_graphs, storeToSession_error]
  constructor <;> split <;> rfl

/-- C12 (counterexample): `setRoute(A, B)` on the empty route leaves the waypoint `B` and no
segment: `setRoute` runs no sync pass. -/
theorem C12_setRoute_runs_no_sync :
    routeEmpty._graphs = [] ∧
      (setRoute (dijkstraEnv mapAB) routeEmpty [some nodeA, some nodeB]).waypoints = [nodeB] ∧
      (setRoute (dijkstraEnv mapAB) routeEmpty [some nodeA, some nodeB])._graphs = [] ∧
      (setRoute (dijkstraEnv mapAB) routeEmpty [some nodeA, some nodeB])._graphs.length
        ≠ (setRoute (dijkstraEnv mapAB) routeEmpty [some nodeA, some nodeB]).waypoints.length := by
  refine ⟨?_, ?_, ?_, ?_⟩ <;> decide

/-- C12 (amended): `setRoute` does not resync: for every route and every argument list the
segment list and the recorded error after `setRoute(newStart, w1..wn)` are the ones held
before. After the next sync pass (the one `update()` starts with), whenever that pass records
no failure, the segment list has the same length as the new waypoints and segment `i` spans
`(i = 0 ? start : waypoints[i-1])` to `waypoints[i]`. -/
theorem setRoute_then_sync (E : Env) (r : Route) (args : List (Option StarSystem)) :
    (setRoute E r args)._graphs = r._graphs ∧ (setRoute E r args)._error = r._error ∧
    ((__syncGraphs E (setRoute E r args))._error = none →
      (__syncGraphs E (setRoute E r args))._graphs.length
          = (setRoute E r args).waypoints.length ∧
        ∀ i : Nat, i < (setRoute E r args).waypoints.length →
          (__syncGraphs E (setRoute E r args))._graphs[i]?
            = some ((setRoute E r args).segment i)) := by
  refine ⟨(setRoute_graphs E r args).1, (setRoute_graphs E r args).2, fun herr => ?_⟩
  exact synced_positional E _ (synced_syncGraphs E _) herr

/-- Witness of `setRoute_then_sync`: `setRoute(A, B)` on the empty route over the map
`A ⇄ B`, then a sync pass. -/
theorem setRoute_then_sync_witness :
    (__syncGraphs (dijkstraEnv mapAB)
        (setRoute (dijkstraEnv mapAB) routeEmpty [some nodeA, some nodeB]))._error = none ∧
      (__syncGraphs (dijkstraEnv mapAB)
          (setRoute (dijkstraEnv mapAB) routeEmpty [some nodeA, some nodeB]))._graphs.length
        = (setRoute (dijkstraEnv mapAB) routeEmpty [some nodeA, some nodeB]).waypoints.length :=
  ⟨by decide,
    ((setRoute_then_sync (dijkstraEnv mapAB) routeEmpty [some nodeA, some nodeB]).2.2
      (by decide)).1⟩

/-- C13 (counterexample): `setRoute(null, B)` on the route `A > B` leaves no waypoint, although
`B` is a node: the waypoints are read only when the new start is a node. -/
theorem C13_setRoute_without_start :
    (setRoute (dijkstraEnv mapAB) routeAB [none, some nodeB]).start = none ∧
      (setRoute (dijkstraEnv mapAB) routeAB [none, some nodeB]).waypoints = [] ∧
      (setRoute (dijkstraEnv mapAB) routeAB [none, some nodeB]).waypoints
        ≠ [some nodeB].filterMap id := by
  refine ⟨?_, ?_, ?_⟩ <;> decide

/-- C13 (amended): for every argument list, after `setRoute(newStart, w1..wn)` the start is
`newStart` if it is a node and none otherwise; when `newStart` is a node, `waypoints` is
exactly the subsequence of `w1..wn` that are nodes, in their original order, and when it is
not, `waypoints` is empty; nothing is left from the previous route. Without any argument the
start is none and `waypoints` is empty. -/
theorem setRoute_start_waypoints (E : Env) (r : Route) (newStart : Option StarSystem)
    (ws : List (Option StarSystem)) :
    (setRoute E r (newStart :: ws)).start = newStart ∧
      (setRoute E r (newStart :: ws)).waypoints
        = (if newStart.isSome then ws.filterMap id else []) ∧
      (setRoute E r []).start = none ∧ (setRoute E r []).waypoints = [] := by
  unfold setRoute
  simp only [storeToSession_start, storeToSession_waypoints]
  cases newStart with
  | none => simp
  | some s => simp

/-! ## C14: the concatenated route -/

theorem currentRoute_loop_segments (E : Env) (ws : List StarSystem) :
    ∀ (pre : List StarSystem) (prev : Option StarSystem) (route : List StarSystem),
      (segmentsFor prev ws).all (segmentOK E) = true →
      currentRoute.loop E (pre ++ ws) (segmentsFor prev ws) pre.length route
        = some (route ++ ((segmentsFor prev ws).map (Dijkstra.routeArrayOrEmpty E)).flatten) := by
  induction ws with
  | nil => intro pre prev route _; simp [currentRoute.loop, segmentsFor]
  | cons e rest ih =>
    intro pre prev route h
    simp only [segmentsFor, List.all_cons, Bool.and_eq_true] at h
    obtain ⟨hseg, hrest⟩ := h
    obtain ⟨p, hp, _, hroute⟩ := segmentOK_route E _ hseg
    have hb : E.buildGraph prev (some e) = true := by
      simp only [segmentOK, Bool.and_eq_true] at hseg
      exact hseg.1
    have hget : (pre ++ e :: rest)[pre.length]? = some e := by
      rw [List.getElem?_append_right (Nat.le_refl _)]; simp
    have hstep := ih (pre ++ [e]) (some e) (route ++ p) hrest
    simp only [List.append_assoc, List.singleton_append, List.length_append,
      List.length_singleton] at hstep
    simp only [segmentsFor, currentRoute.loop, hget, hb, hp, hstep, List.map_cons,
      List.flatten_cons, hroute, Bool.true_eq_false, if_false]

theorem currentRoute_inSync (E : Env) (r : Route) (hsync : InSync E r = true) :
    currentRoute E r = some (r._graphs.map (Dijkstra.routeArrayOrEmpty E)).flatten := by
  have h := currentRoute_loop_segments E r.waypoints [] r.start [] (inSync_all E r hsync)
  simp only [List.nil_append, List.length_nil] at h
  unfold currentRoute
  rw [inSync_graphs E r hsync]
  exact h

/-- C14: for every route in sync (each segment path running from the start of the segment to
its end), `currentRoute()` returns the concatenation, in waypoint order, of every segment's
`routeArray()`; its length is the sum of the lengths of the segment paths, and every waypoint
`waypoints[i]` but the last appears twice in a row in it, as the last entry of the path of
segment `i` and the first entry of the path of segment `i+1`. -/
theorem currentRoute_concatenates (E : Env) (r : Route) (hsync : InSync E r = true)
    (hanch : PathsAnchored E r = true) :
    currentRoute E r = some (r._graphs.map (Dijkstra.routeArrayOrEmpty E)).flatten ∧
      (r._graphs.map (Dijkstra.routeArrayOrEmpty E)).flatten.length
        = ((r._graphs.map (Dijkstra.routeArrayOrEmpty E)).map List.length).sum ∧
      ∀ i : Nat, i + 1 < r.waypoints.length →
        ∃ (w : StarSystem) (pre post : List StarSystem),
          r.waypoints[i]? = some w ∧
          (r._graphs.map (Dijkstra.routeArrayOrEmpty E)).flatten = pre ++ w :: w :: post ∧
          pre.length + 1
            = (((r._graphs.map (Dijkstra.routeArrayOrEmpty E)).take (i + 1)).map
                List.length).sum := by
  refine ⟨currentRoute_inSync E r hsync, List.length_flatten _, ?_⟩
  intro i hi
  have hilt : i < r.waypoints.length := by omega
  have hwi : r.waypoints[i]? = some r.waypoints[i] := List.getElem?_eq_getElem hilt
  -- the two segments that meet at waypoint i
  obtain ⟨p, hproute, _, _, hplast, _⟩ := anchored_route E r hsync hanch i hilt
  obtain ⟨q, hqroute, _, hqhead, _, _⟩ := anchored_route E r hsync hanch (i + 1) hi
  have hpend : (r.segment i).end_ = some r.waypoints[i] := by simp [Route.segment, hwi]
  have hqstart : (r.segment (i + 1)).start = some r.waypoints[i] := by
    simp [Route.segment, hwi]
  rw [hpend] at hplast
  rw [hqstart] at hqhead
  obtain ⟨init, hinit⟩ := List.getLast?_eq_some_iff.mp hplast
  obtain ⟨tail, htail⟩ : ∃ tail, q = r.waypoints[i] :: tail := by
    cases q with
    | nil => simp at hqhead
    | cons x xs =>
      simp only [List.head?_cons, Option.some.injEq] at hqhead
      exact ⟨xs, by rw [hqhead]⟩
  -- the segment list around them
  have hgi := inSync_graph E r hsync i hilt
  have hgj := inSync_graph E r hsync (i + 1) hi
  obtain ⟨hs1, hl1⟩ := list_split_at r._graphs i _ hgi
  have hjlt : i + 1 < r._graphs.length := getElem?_lt _ _ _ hgj
  have hgj2 : r._graphs[i + 1] = r.segment (i + 1) := by
    rw [List.getElem?_eq_getElem hjlt] at hgj
    exact Option.some.inj hgj
  have hdrop : r._graphs.drop (i + 1) = r.segment (i + 1) :: r._graphs.drop (i + 2) := by
    rw [List.drop_eq_getElem_cons hjlt, hgj2]
  have hG : ∃ G1 G2 : List Dijkstra,
      r._graphs = G1 ++ r.segment i :: r.segment (i + 1) :: G2 ∧ G1.length = i :=
    ⟨r._graphs.take i, r._graphs.drop (i + 2), by rw [← hdrop]; exact hs1, hl1⟩
  obtain ⟨G1, G2, hGeq, hGlen⟩ := hG
  refine ⟨r.waypoints[i], (G1.map (Dijkstra.routeArrayOrEmpty E)).flatten ++ init,
    tail ++ (G2.map (Dijkstra.routeArrayOrEmpty E)).flatten, hwi, ?_, ?_⟩
  · rw [hGeq]
    simp only [List.map_append, List.map_cons, List.flatten_append, List.flatten_cons, hproute,
      hqroute, hinit, htail, List.append_assoc, List.singleton_append, List.cons_append,
      List.nil_append]
  · rw [hGeq]
    have htake : ((G1 ++ r.segment i :: r.segment (i + 1) :: G2).map
        (Dijkstra.routeArrayOrEmpty E)).take (i + 1)
        = G1.map (Dijkstra.routeArrayOrEmpty E) ++ [p] := by
      rw [List.map_append, List.take_append_eq_append_take]
      simp [hGlen, hproute]
    rw [htake]
    simp only [hinit, List.length_append, List.length_flatten, List.map_append, List.map_cons,
      List.map_nil, List.sum_append, List.sum_cons, List.sum_nil, List.length_singleton,
      List.length_cons, List.length_nil, List.map_map]
    omega

/-- Witness of `currentRoute_concatenates`: the route `A > B > C` on the map `B ⇄ A → C`. -/
theorem currentRoute_concatenates_witness :
    currentRoute (dijkstraEnv mapStar) routeStar
      = some (routeStar._graphs.map (Dijkstra.routeArrayOrEmpty (dijkstraEnv mapStar))).flatten :=
  (currentRoute_concatenates (dijkstraEnv mapStar) routeStar (by decide) (by decide)).1

/-! ## C16 and C17: the position of a system on the route -/

theorem indexForEach_bound (system : StarSystem) (route : List StarSystem) :
    ∀ index currentStep : Nat,
      indexOfCurrentRoute.forEach system route index currentStep = currentStep ∨
        indexOfCurrentRoute.forEach system route index currentStep < index + route.length := by
  induction route with
  | nil => intro index currentStep; left; rfl
  | cons x rest ih =>
    intro index currentStep
    simp only [indexOfCurrentRoute.forEach, List.length_cons]
    by_cases hx : x = system
    · simp only [hx, if_true]
      rcases ih (index + 1) index with h | h
      · right; rw [h]; omega
      · right; omega
    · simp only [hx, if_false]
      rcases ih (index + 1) currentStep with h | h
      · left; exact h
      · right; omega

theorem indexForEach_not_mem (system : StarSystem) (route : List StarSystem)
    (h : system ∉ route) :
    ∀ index currentStep : Nat,
      indexOfCurrentRoute.forEach system route index currentStep = currentStep := by
  induction route with
  | nil => intro index currentStep; rfl
  | cons x rest ih =>
    intro index currentStep
    have hx : ¬ x = system := fun hc => h (by simp [hc])
    have hr : system ∉ rest := fun hc => h (by simp [hc])
    simp only [indexOfCurrentRoute.forEach, hx, if_false]
    exact ih hr (index + 1) currentStep

theorem firstStep_bound (system : StarSystem) (route : List StarSystem) :
    ∀ i k : Nat, Legacy.firstStep system route i = some k → k < i + route.length := by
  induction route with
  | nil => intro i k h; simp [Legacy.firstStep] at h
  | cons x rest ih =>
    intro i k h
    simp only [Legacy.firstStep] at h
    by_cases hx : x = system
    · simp only [hx, if_true, Option.some.injEq] at h
      simp only [List.length_cons]; omega
    · simp only [hx, if_false] at h
      have := ih (i + 1) k h
      simp only [List.length_cons]; omega

theorem ratio_bounds (k n : Nat) (h : k < n) :
    (0 : ℚ) ≤ (k : ℚ) / (n : ℚ) ∧ (k : ℚ) / (n : ℚ) ≤ 1 := by
  have hn : (0 : ℚ) < (n : ℚ) := by exact_mod_cast (by omega : 0 < n)
  constructor
  · exact div_nonneg (by exact_mod_cast Nat.zero_le k) hn.le
  · rw [div_le_one hn]
    exact_mod_cast h.le

/-- C16: for every route on which `currentRoute()` returns and every system,
`alphaOfSystem(system)` returns a value `v` with `0 ≤ v ≤ 1`, in the class `Route` and in the
legacy `SCMAP.Route` alike (the quotient being taken in the rationals). -/
theorem alphaOfSystem_bounds (E : Env) (r : Route) (system : StarSystem)
    (route : List StarSystem) (h : currentRoute E r = some route) :
    (∃ v, alphaOfSystem E r system = some v ∧ 0 ≤ v ∧ v ≤ 1) ∧
      (∃ v, Legacy.alphaOfSystem E r system = some v ∧ 0 ≤ v ∧ v ≤ 1) := by
  constructor
  · unfold alphaOfSystem indexOfCurrentRoute
    simp only [h]
    by_cases hz : indexOfCurrentRoute.forEach system route 0 0 ≠ 0
    · rw [if_pos hz]
      refine ⟨_, rfl, ?_⟩
      rcases indexForEach_bound system route 0 0 with hb | hb
      · exact absurd hb hz
      · exact ratio_bounds _ _ (by omega)
    · rw [if_neg hz]
      exact ⟨0, rfl, le_refl _, zero_le_one⟩
  · unfold Legacy.alphaOfSystem
    simp only [h]
    by_cases hz : (Legacy.firstStep system route 0).getD 0 ≠ 0
    · rw [if_pos hz]
      refine ⟨_, rfl, ?_⟩
      cases hf : Legacy.firstStep system route 0 with
      | none => simp [hf] at hz
      | some k =>
        have := firstStep_bound system route 0 k hf
        simp only [Option.getD_some]
        exact ratio_bounds _ _ (by omega)
    · rw [if_neg hz]
      exact ⟨0, rfl, le_refl _, zero_le_one⟩

/-- Witness of `alphaOfSystem_bounds`: the system `C` on the route `A > B > C` over the map
`B ⇄ A → C`. -/
theorem alphaOfSystem_bounds_witness :
    (∃ v, alphaOfSystem (dijkstraEnv mapStar) routeStar nodeC = some v ∧ 0 ≤ v ∧ v ≤ 1) ∧
      (∃ v, Legacy.alphaOfSystem (dijkstraEnv mapStar) routeStar nodeC = some v ∧
        0 ≤ v ∧ v ≤ 1) :=
  alphaOfSystem_bounds (dijkstraEnv mapStar) routeStar nodeC
    [nodeA, nodeB, nodeB, nodeA, nodeC] (by decide)

/-- C17 (failing input): the route `A > B > C` on the map `B ⇄ A → C` is in sync, with pairwise
distinct start and waypoints, and its concatenated route is `A, B, B, A, C`: the path from `B`
to `C` leads back through `A`. `A` is the first element, yet `indexOfCurrentRoute(A)` returns
3, the last index that holds `A`, and `alphaOfSystem(A)` returns 3/5, not 0. The legacy
`alphaOfSystem`, whose loop stops at the first entry, returns 0 on the same route. -/
theorem C17_first_element_met_again :
    InSync (dijkstraEnv mapStar) routeStar = true ∧
      currentRoute (dijkstraEnv mapStar) routeStar
        = some [nodeA, nodeB, nodeB, nodeA, nodeC] ∧
      indexOfCurrentRoute (dijkstraEnv mapStar) routeStar nodeA = some 3 ∧
      alphaOfSystem (dijkstraEnv mapStar) routeStar nodeA = some ((3 : ℚ) / 5) ∧
      alphaOfSystem (dijkstraEnv mapStar) routeStar nodeA ≠ some 0 ∧
      Legacy.alphaOfSystem (dijkstraEnv mapStar) routeStar nodeA = some 0 := by
  have hroute : currentRoute (dijkstraEnv mapStar) routeStar
      = some [nodeA, nodeB, nodeB, nodeA, nodeC] := by decide
  have hidx : indexOfCurrentRoute (dijkstraEnv mapStar) routeStar nodeA = some 3 := by decide
  have halpha : alphaOfSystem (dijkstraEnv mapStar) routeStar nodeA = some ((3 : ℚ) / 5) := by
    unfold alphaOfSystem
    simp only [hidx, hroute]
    norm_num
  refine ⟨by decide, hroute, hidx, halpha, ?_, ?_⟩
  · rw [halpha]
    norm_num
  · unfold Legacy.alphaOfSystem
    simp only [hroute]
    have hfirst : Legacy.firstStep nodeA [nodeA, nodeB, nodeB, nodeA, nodeC] 0 = some 0 := by
      decide
    simp [hfirst]

/-! ## C18, C19 and C20: the session entry -/

@[simp] theorem create_currentRoute (E : Env) (cr : Option SessionRecord)
    (start : Option StarSystem) (waypoints : List (Option StarSystem)) :
    (Route.create E cr start waypoints).currentRoute = cr := rfl

theorem storeToSession_currentRoute (E : Env) (r : Route) (h : E.hasSessionStorage = true) :
    (storeToSession E r).currentRoute = expectedSession r := by
  unfold storeToSession expectedSession
  rw [if_pos h]
  cases hs : r.start with
  | none => rfl
  | some s =>
    simp only
    split <;> rfl

theorem expectedSession_storeToSession (E : Env) (r : Route) :
    expectedSession (storeToSession E r) = expectedSession r := by
  unfold expectedSession
  simp only [storeToSession_start, storeToSession_waypoints]

/-- C18 (counterexample): the route `A` has a start and no waypoint, so `storeToSession()`
removes the entry; `restoreFromSession()` on a fresh route then finds nothing to restore, and
the start stays unset although the lookup resolves every id. -/
theorem C18_start_without_waypoints :
    routeA.start = some nodeA ∧ routeA.waypoints = [] ∧
      (storeToSession (dijkstraEnv mapAB) routeA).currentRoute = none ∧
      (restoreFromSession (dijkstraEnv mapAB) lookupAll
          (Route.create (dijkstraEnv mapAB)
            (storeToSession (dijkstraEnv mapAB) routeA).currentRoute none [])).start = none ∧
      (restoreFromSession (dijkstraEnv mapAB) lookupAll
          (Route.create (dijkstraEnv mapAB)
            (storeToSession (dijkstraEnv mapAB) routeA).currentRoute none [])).start
        ≠ routeA.start := by
  refine ⟨?_, ?_, ?_, ?_, ?_⟩ <;> decide

/-- C18 (amended): when session storage is available, for every route `r` with a start and at
least one waypoint and every lookup with `getById(n.id) = n` for all nodes, `r.storeToSession()`
followed by `restoreFromSession()` on a freshly constructed route gives the start and the
waypoints of `r` (and so their ids). A route without a start or without a waypoint is not
stored (its entry is removed). -/
theorem session_roundtrip (E : Env) (r : Route) (getById : Nat → Option StarSystem)
    (s : StarSystem) (hstore : E.hasSessionStorage = true) (hstart : r.start = some s)
    (hways : r.waypoints ≠ []) (hget : ∀ n : StarSystem, getById n.id = some n) :
    restoreFromSession E getById (Route.create E (storeToSession E r).currentRoute none [])
      = { start := r.start, waypoints := r.waypoints.map some } := by
  have hlen : r.waypoints.length ≠ 0 := by
    intro hc; exact hways (List.length_eq_zero.mp hc)
  have hcr : (storeToSession E r).currentRoute
      = some ⟨s.id, r.waypoints.map (fun waypoint => waypoint.id)⟩ := by
    rw [storeToSession_currentRoute E r hstore]
    simp [expectedSession, hstart, hlen]
  unfold restoreFromSession
  rw [if_pos hstore]
  simp only [create_currentRoute, hcr, hstart, hget, List.map_map]
  congr 1
  apply List.map_congr_left
  intro n _
  exact hget n

/-- Witness of `session_roundtrip`: the route `A > B` with a lookup that resolves every id. -/
theorem session_roundtrip_witness :
    restoreFromSession (dijkstraEnv mapAB) lookupAll
        (Route.create (dijkstraEnv mapAB)
          (storeToSession (dijkstraEnv mapAB) routeAB).currentRoute none [])
      = { start := routeAB.start, waypoints := routeAB.waypoints.map some } :=
  session_roundtrip (dijkstraEnv mapAB) routeAB lookupAll nodeA rfl (by decide) (by decide)
    (fun _ => rfl)

/-- C19 (failing input): `setRoute(A, B)` on the empty route writes the record of `A > B` to the
session. `destroy()` then empties the route (no start, no waypoint, no segment) and returns,
but the record of `A > B` is still in the session: `destroy` never calls `storeToSession`. -/
theorem C19_destroy_keeps_session_entry :
    (setRoute (dijkstraEnv mapAB) routeEmpty [some nodeA, some nodeB]).currentRoute
        = some ⟨1, [2]⟩ ∧
      destroy (dijkstraEnv mapAB)
          (setRoute (dijkstraEnv mapAB) routeEmpty [some nodeA, some nodeB])
        = Completion.returned none
            { start := none, waypoints := [], _graphs := [], _error := none,
              currentRoute := some ⟨1, [2]⟩ } ∧
      (destroy (dijkstraEnv mapAB)
          (setRoute (dijkstraEnv mapAB) routeEmpty [some nodeA, some nodeB])).route.currentRoute
        ≠ expectedSession
            (destroy (dijkstraEnv mapAB)
              (setRoute (dijkstraEnv mapAB) routeEmpty [some nodeA, some nodeB])).route := by
  refine ⟨?_, ?_, ?_⟩ <;> decide

/-- The other structural changes do store: with session storage available, after a
`splitAt` that returned true, a `removeWaypoint` that ran to its end, a `moveWaypoint` that
returned true and any `setRoute`, the session entry is the one the spec asks for. -/
theorem structural_changes_store (E : Env) (r r1 : Route) (h : E.hasSessionStorage = true) :
    (∀ w, splitAt E r w = Completion.returned (some true) r1 →
      r1.currentRoute = expectedSession r1) ∧
    (∀ w, removeWaypoint E r w = Completion.returned none r1 →
      r1.currentRoute = expectedSession r1) ∧
    (∀ a b, moveWaypoint E r a b = Completion.returned (some true) r1 →
      r1.currentRoute = expectedSession r1) ∧
    (∀ args, (setRoute E r args).currentRoute = expectedSession (setRoute E r args)) := by
  have key : ∀ x : Route,
      (storeToSession E x).currentRoute = expectedSession (storeToSession E x) := by
    intro x
    rw [expectedSession_storeToSession, storeToSession_currentRoute E x h]
  have hsplit : ∀ w, splitAt E r w = Completion.returned (some true) r1 →
      r1.currentRoute = expectedSession r1 := by
    intro w hc
    unfold splitAt at hc
    cases hfg : __findGraphs E r w with
    | none => simp [hfg] at hc
    | some graphs =>
      simp only [hfg] at hc
      by_cases hlen : graphs.length > 1
      · rw [if_pos hlen] at hc
        injection hc with h1 _; simp at h1
      · rw [if_neg hlen] at hc
        split at hc
        · rename_i gi graph
          have hget := findGraphs_sound E r w _ hfg (gi, graph) (by simp)
          have hlt := getElem?_lt _ _ _ hget
          split at hc
          · cases hc
          · simp only [List.length_set, range_find _ _ hlt] at hc
            injection hc with _ h2; subst h2
            exact key _
        · injection hc with h1 _; simp at h1
  refine ⟨hsplit, ?_, ?_, ?_⟩
  · intro w hc
    unfold removeWaypoint at hc
    cases hfg : __findGraphs E r w with
    | none => simp [hfg] at hc
    | some graphs =>
      simp only [hfg] at hc
      split at hc
      · rename_i one graphOne two graphTwo
        have hget := findGraphs_sound E r w _ hfg (two, graphTwo) (by simp)
        have hlt := getElem?_lt _ _ _ hget
        simp only [List.length_set] at hc
        rw [forEachGraph_range E w two _ _ hlt] at hc
        injection hc with _ h2; subst h2
        exact key _
      · injection hc with h1 _; simp at h1
  · intro a b hc
    unfold moveWaypoint at hc
    split at hc
    · injection hc with h1 _; simp at h1
    · split at hc
      · injection hc with h1 _; simp at h1
      · split at hc
        · split at hc
          · injection hc with _ h2; subst h2; exact key _
          · injection hc with h1 _; simp at h1
        · split at hc
          · injection hc with _ h2; subst h2; exact key _
          · split at hc
            · cases hc
            · split at hc
              · injection hc with _ h2; subst h2; exact key _
              · injection hc with h1 _; simp at h1
            · injection hc with h1 _; simp at h1
  · intro args
    unfold setRoute
    exact key _

/-- C20 (failing input): a fresh route with the session entry `start 1, waypoints 2, 99` and a
lookup that does not resolve the id 99. `restoreFromSession()` maps every stored id through the
lookup and keeps the result: `waypoints` has two entries, the second one `undefined`, where the
claim asks for the single waypoint `B`. -/
theorem C20_unresolved_id_is_kept :
    lookupBelowTen 99 = none ∧
      restoreFromSession (dijkstraEnv mapAB) lookupBelowTen
          (Route.create (dijkstraEnv mapAB) (some ⟨1, [2, 99]⟩) none [])
        = { start := some nodeA, waypoints := [some nodeB, none] } ∧
      (restoreFromSession (dijkstraEnv mapAB) lookupBelowTen
          (Route.create (dijkstraEnv mapAB) (some ⟨1, [2, 99]⟩) none [])).waypoints
        ≠ [some nodeB] := by
  refine ⟨?_, ?_, ?_⟩ <;> decide

/-! ## C11: rejected edits -/

theorem findLoop_total (E : Env) (system : StarSystem) (gs : List Dijkstra)
    (h : ∀ g ∈ gs, g.routeArrayOrEmpty E ≠ []) :
    ∀ (i : Nat) (graphs : List (Nat × Dijkstra)) (seen : List Nat),
      ∃ res, __findGraphs.loop E system gs i graphs seen = some res := by
  induction gs with
  | nil => intro i graphs seen; exact ⟨graphs, rfl⟩
  | cons g rest ih =>
    intro i graphs seen
    have hrest : ∀ x ∈ rest, x.routeArrayOrEmpty E ≠ [] := fun x hx => h x (by simp [hx])
    have hg : g.routeArrayOrEmpty E ≠ [] := h g (by simp)
    simp only [__findGraphs.loop]
    by_cases hlen : graphs.length ≠ 0
    · rw [if_pos hlen]
      cases hh : (g.routeArrayOrEmpty E).head? with
      | none => rw [List.head?_eq_none_iff] at hh; exact absurd hh hg
      | some first =>
        simp only
        by_cases hid : first.id = system.id
        · rw [if_pos hid]; exact ⟨_, rfl⟩
        · rw [if_neg hid]; exact ih hrest _ _ _
    · rw [if_neg hlen]; exact ih hrest _ _ _

theorem lastNode_of_segmentsEnd (E : Env) (r : Route) (h : SegmentsEndAtWaypoints E r = true)
    (g : Dijkstra) (hg : g ∈ r._graphs) :
    ∃ e, g.lastNode E = some e ∧ e ∈ r.waypoints ∧ g.routeArrayOrEmpty E ≠ [] := by
  simp only [SegmentsEndAtWaypoints, List.all_eq_true] at h
  have hgood := h g hg
  cases hl : g.lastNode E with
  | none => simp [hl] at hgood
  | some e =>
    simp only [hl, decide_eq_true_eq] at hgood
    refine ⟨e, rfl, hgood, ?_⟩
    unfold Dijkstra.lastNode at hl
    unfold Dijkstra.routeArrayOrEmpty
    cases hra : E.routeArray g.start g.end_ with
    | none => simp [hra] at hl
    | some p =>
      simp only [hra] at hl
      simp only [Option.getD_some]
      intro hc
      simp [hc] at hl

theorem insertWaypoint_mem (e w : StarSystem) (ws : List StarSystem) (h : e ∈ ws) :
    w ∈ splitAt.insertWaypoint e w ws := by
  induction ws with
  | nil => simp at h
  | cons x xs ih =>
    simp only [splitAt.insertWaypoint]
    by_cases hx : x = e
    · simp [hx]
    · rw [if_neg hx]
      have : e ∈ xs := by
        rcases List.mem_cons.mp h with h | h
        · exact absurd h.symm hx
        · exact h
      exact List.mem_cons_of_mem _ (ih this)

/-- On a route whose segments have readable paths ending at current waypoints, `splitAt`
either rejects the request and leaves the route as it was, or returns true with the system
among the waypoints. -/
theorem splitAt_cases (E : Env) (r : Route) (w : StarSystem)
    (h : SegmentsEndAtWaypoints E r = true) :
    splitAt E r w = Completion.returned (some false) r ∨
      ∃ r1, splitAt E r w = Completion.returned (some true) r1 ∧ w ∈ r1.waypoints := by
  have hne : ∀ g ∈ r._graphs, g.routeArrayOrEmpty E ≠ [] :=
    fun g hg => (lastNode_of_segmentsEnd E r h g hg).choose_spec.2.2
  obtain ⟨graphs, hfg⟩ := findLoop_total E w r._graphs hne 0 [] []
  have hfg2 : __findGraphs E r w = some graphs := hfg
  unfold splitAt
  simp only [hfg2]
  by_cases hlen : graphs.length > 1
  · rw [if_pos hlen]; exact Or.inl rfl
  · rw [if_neg hlen]
    match graphs, hfg2 with
    | [], _ => exact Or.inl rfl
    | [(gi, graph)], hfg3 =>
      have hget := findGraphs_sound E r w _ hfg3 (gi, graph) (by simp)
      have hlt := getElem?_lt _ _ _ hget
      obtain ⟨e, hlast, hmem, _⟩ := lastNode_of_segmentsEnd E r h graph (List.getElem?_mem hget)
      right
      simp only [hlast, List.length_set, range_find _ _ hlt]
      exact ⟨_, rfl, by simpa using insertWaypoint_mem e w r.waypoints hmem⟩
    | _ :: _ :: _, _ => simp at hlen

/-- C11 (counterexample): on the route `A > B > C` over `mapHub`, in sync, `setRoute(A, N)`
leaves the waypoint `N` and the two segments held before. `moveWaypoint(X, C)` then splits the
old segment `A → B` at `X`, finds no waypoint to put `X` before, resyncs and returns false:
the segment list is now `A → N`, not the one held before the call. -/
theorem C11_rejected_move_resyncs :
    (setRoute (dijkstraEnv mapHub) routeHub [some nodeA, some nodeN]).waypoints = [nodeN] ∧
      (setRoute (dijkstraEnv mapHub) routeHub [some nodeA, some nodeN])._graphs
        = [{ start := some nodeA, end_ := some nodeB },
           { start := some nodeB, end_ := some nodeC }] ∧
      moveWaypoint (dijkstraEnv mapHub)
          (setRoute (dijkstraEnv mapHub) routeHub [some nodeA, some nodeN]) nodeX nodeC
        = Completion.returned (some false)
            { start := some nodeA, waypoints := [nodeN],
              _graphs := [{ start := some nodeA, end_ := some nodeN }],
              _error := none, currentRoute := some ⟨1, [7]⟩ } ∧
      (moveWaypoint (dijkstraEnv mapHub)
          (setRoute (dijkstraEnv mapHub) routeHub [some nodeA, some nodeN])
            nodeX nodeC).route._graphs
        ≠ (setRoute (dijkstraEnv mapHub) routeHub [some nodeA, some nodeN])._graphs := by
  refine ⟨?_, ?_, ?_, ?_⟩ <;> decide

/-- C11 (amended): for every route in which each segment has a route array that is not empty
and ends at a current waypoint (as after a sync pass over the present waypoints) and for all
systems `a` and `b`, `splitAt(a)`, `removeWaypoint(a)` and `moveWaypoint(a, b)` return without
throwing, and whenever one of them returns false the route (start, waypoints and segment list
included) is the same as before the call. -/
theorem edits_reject_without_change (E : Env) (r : Route) (a b : StarSystem)
    (h : SegmentsEndAtWaypoints E r = true) :
    (∃ v r1, splitAt E r a = Completion.returned v r1 ∧ (v = some false → r1 = r)) ∧
    (∃ v r1, removeWaypoint E r a = Completion.returned v r1 ∧ (v = some false → r1 = r)) ∧
    (∃ v r1, moveWaypoint E r a b = Completion.returned v r1 ∧ (v = some false → r1 = r)) := by
  have hne : ∀ g ∈ r._graphs, g.routeArrayOrEmpty E ≠ [] :=
    fun g hg => (lastNode_of_segmentsEnd E r h g hg).choose_spec.2.2
  refine ⟨?_, ?_, ?_⟩
  · rcases splitAt_cases E r a h with hc | ⟨r1, hc, _⟩
    · exact ⟨some false, r, hc, fun _ => rfl⟩
    · exact ⟨some true, r1, hc, fun hv => by simp at hv⟩
  · obtain ⟨graphs, hfg⟩ := findLoop_total E a r._graphs hne 0 [] []
    have hfg2 : __findGraphs E r a = some graphs := hfg
    unfold removeWaypoint
    simp only [hfg2]
    split
    · exact ⟨none, _, rfl, fun hv => by simp at hv⟩
    · exact ⟨some false, r, rfl, fun _ => rfl⟩
  · unfold moveWaypoint
    split
    · exact ⟨some false, r, rfl, fun _ => rfl⟩
    · split
      · exact ⟨some false, r, rfl, fun _ => rfl⟩
      · split
        · split
          · exact ⟨some true, _, rfl, fun hv => by simp at hv⟩
          · exact ⟨some false, r, rfl, fun _ => rfl⟩
        · split
          · exact ⟨some true, _, rfl, fun hv => by simp at hv⟩
          · rcases splitAt_cases E r a h with hc | ⟨r1, hc, hmem⟩
            · simp only [hc]
              exact ⟨some false, r, rfl, fun _ => rfl⟩
            · simp only [hc]
              cases hidx : indexOf r1.waypoints a with
              | none =>
                have := (indexOf_isSome r1.waypoints a).mpr hmem
                simp [hidx] at this
              | some index =>
                exact ⟨some true, _, rfl, fun hv => by simp at hv⟩

/-- Witness of `edits_reject_without_change`: the route `A > B` on the map `A ⇄ B`, with the
systems `A` and `B`. -/
theorem edits_reject_without_change_witness :
    (∃ v r1, splitAt (dijkstraEnv mapAB) routeAB nodeA = Completion.returned v r1 ∧
      (v = some false → r1 = routeAB)) ∧
    (∃ v r1, removeWaypoint (dijkstraEnv mapAB) routeAB nodeA = Completion.returned v r1 ∧
      (v = some false → r1 = routeAB)) ∧
    (∃ v r1, moveWaypoint (dijkstraEnv mapAB) routeAB nodeA nodeB = Completion.returned v r1 ∧
      (v = some false → r1 = routeAB)) :=
  edits_reject_without_change (dijkstraEnv mapAB) routeAB nodeA nodeB (by decide)

/-! ## C21: a route array that throws during the boundary search -/

/-- Once a segment has matched, a following segment whose `routeArray()` throws makes
`__findGraphs` throw: the array is left empty by the `catch` and `routeArray[0].system` is
read from it. -/
theorem findGraphs_throws_after_match (E : Env) (r : Route) (w : StarSystem)
    (g0 g1 : Dijkstra) (rest : List Dijkstra) (hg : r._graphs = g0 :: g1 :: rest)
    (hin : w ∈ g0.routeArrayOrEmpty E) (hthrow : E.routeArray g1.start g1.end_ = none) :
    __findGraphs E r w = none := by
  unfold __findGraphs
  rw [hg, findLoop_first E w g0 _ 0 hin]
  simp [__findGraphs.loop, Dijkstra.routeArrayOrEmpty, hthrow]

/-- C21 (failing input): on the route `A > B > Z` the sync pass kept the segment `B → Z` whose
`routeArray()` throws. A search for a system on no segment path passes over that segment and
returns no match, but the search for `A`, which the segment `A → B` before it matches, throws:
`routeArray[0].system` is read from the empty array. `splitAt(A)` throws with it. -/
theorem C21_search_throws_after_a_match :
    routeFaulty._graphs = [{ start := some nodeA, end_ := some nodeB },
                           { start := some nodeB, end_ := some nodeZ }] ∧
      (faultyEnv mapAB nodeZ).routeArray (some nodeB) (some nodeZ) = none ∧
      __findGraphs (faultyEnv mapAB nodeZ) routeFaulty nodeN = some [] ∧
      __findGraphs (faultyEnv mapAB nodeZ) routeFaulty nodeA = none ∧
      splitAt (faultyEnv mapAB nodeZ) routeFaulty nodeA = Completion.threw routeFaulty := by
  refine ⟨?_, ?_, ?_, ?_, ?_⟩ <;> decide

/-! ## C29 and C30: the class `Route` against the legacy `SCMAP.Route` -/

theorem storeToSession_withoutSession (E : Env) (r : Route) :
    (storeToSession E r).withoutSession = r.withoutSession := by
  unfold storeToSession Route.withoutSession
  (repeat' split) <;> rfl

/-- The two `splitAt` agree on the value returned and on the route they leave, the session
entry apart. -/
theorem splitAt_legacy (E : Env) (r : Route) (w : StarSystem) :
    (splitAt E r w).withoutSession = (Legacy.splitAt E r w).withoutSession := by
  unfold splitAt Legacy.splitAt
  cases hfg : __findGraphs E r w with
  | none => rfl
  | some graphs =>
    simp only
    by_cases hlen : graphs.length > 1
    · rw [if_pos hlen, if_pos hlen]
    · rw [if_neg hlen, if_neg hlen]
      match graphs with
      | [] => rfl
      | _ :: _ :: _ => rfl
      | [(gi, graph)] =>
        simp only
        cases hra : E.routeArray graph.start graph.end_ with
        | none => simp [Dijkstra.lastNode, hra]
        | some p =>
          simp only
          cases hl : graph.lastNode E with
          | none => rfl
          | some oldEnd =>
            simp only
            cases hf : (List.range (r._graphs.set gi
                { graph with end_ := some w }).length).find? (fun i => decide (i = gi)) with
            | none => rfl
            | some i =>
              simp only [Completion.withoutSession, storeToSession_withoutSession]

theorem withoutSession_eq (x y : Route) (h : x.withoutSession = y.withoutSession) :
    x.start = y.start ∧ x.waypoints = y.waypoints ∧ x._graphs = y._graphs ∧
      x._error = y._error := by
  cases x; cases y
  simp only [Route.withoutSession, Route.mk.injEq] at h
  simp [h]

theorem syncGraphs_withoutSession (E : Env) (x y : Route) (hs : x.start = y.start)
    (hw : x.waypoints = y.waypoints) :
    (__syncGraphs E x).withoutSession = (__syncGraphs E y).withoutSession := by
  simp only [__syncGraphs, Route.withoutSession, hs, hw]

/-- The two `moveWaypoint` agree on the value returned and on the route they leave, the
session entry apart. -/
theorem moveWaypoint_legacy (E : Env) (r : Route) (a b : StarSystem) :
    (moveWaypoint E r a b).withoutSession = (Legacy.moveWaypoint E r a b).withoutSession := by
  unfold moveWaypoint Legacy.moveWaypoint
  split
  · rfl
  · split
    · rfl
    · split
      · split
        · simp only [Completion.withoutSession, storeToSession_withoutSession]
        · rfl
      · split
        · simp only [Completion.withoutSession, storeToSession_withoutSession]
        · have hsp := splitAt_legacy E r a
          cases h1 : splitAt E r a with
          | threw r1 =>
            cases h2 : Legacy.splitAt E r a with
            | threw r2 =>
              rw [h1, h2] at hsp
              simpa [Completion.withoutSession] using hsp
            | returned v2 r2 =>
              rw [h1, h2] at hsp
              simp [Completion.withoutSession] at hsp
          | returned v1 r1 =>
            cases h2 : Legacy.splitAt E r a with
            | threw r2 =>
              rw [h1, h2] at hsp
              simp [Completion.withoutSession] at hsp
            | returned v2 r2 =>
              rw [h1, h2] at hsp
              simp only [Completion.withoutSession, Completion.returned.injEq] at hsp
              obtain ⟨hv, hr⟩ := hsp
              subst hv
              obtain ⟨hs, hw, _, _⟩ := withoutSession_eq r1 r2 hr
              match v1 with
              | some true =>
                simp only [hw]
                cases hidx : indexOf r2.waypoints a with
                | none => simp only [Completion.withoutSession, hr]
                | some index =>
                  simp only [Completion.withoutSession, storeToSession_withoutSession,
                    Completion.returned.injEq, true_and]
                  exact syncGraphs_withoutSession E _ _ hs (by simp [hw])
              | some false => simp only [Completion.withoutSession, hr]
              | none => simp only [Completion.withoutSession, hr]

/-- C29 (failing input): on the route `A > B > C` over the map `A → B ⇄ C`, `B → D`, in sync,
`removeWaypoint(B)` leaves the waypoints `C` in both implementations, but the legacy method
returns true and the method of the class `Route` returns `undefined`: its `return true` is
inside the `forEach` callback. On `A > B > C > B > D` the waypoints differ as well: `C, B, D`
in the legacy method, which stops at the first entry, `C, D` in the class. -/
theorem C29_removeWaypoint_differs :
    InSync (dijkstraEnv mapFork) routeABC = true ∧
      (removeWaypoint (dijkstraEnv mapFork) routeABC nodeB).value = some none ∧
      (Legacy.removeWaypoint (dijkstraEnv mapFork) routeABC nodeB).value = some (some true) ∧
      (removeWaypoint (dijkstraEnv mapFork) routeABC nodeB).route.waypoints = [nodeC] ∧
      (Legacy.removeWaypoint (dijkstraEnv mapFork) routeABC nodeB).route.waypoints
        = [nodeC] ∧
      (removeWaypoint (dijkstraEnv mapFork) routeABCBD nodeB).route.waypoints
        = [nodeC, nodeD] ∧
      (Legacy.removeWaypoint (dijkstraEnv mapFork) routeABCBD nodeB).route.waypoints
        = [nodeC, nodeB, nodeD] := by
  refine ⟨?_, ?_, ?_, ?_, ?_, ?_, ?_⟩ <;> decide

/-- C30 (failing input): on the route `A > B > C` over the map `A → B ⇄ C`, `B → D`, in sync,
the concatenated route is `A, B, B, C`. For the waypoint `B` the legacy `alphaOfSystem` stops
at the first entry and returns 1/4; the method of the class `Route` keeps the last entry and
returns 2/4. -/
theorem C30_alphaOfSystem_differs :
    InSync (dijkstraEnv mapFork) routeABC = true ∧
      currentRoute (dijkstraEnv mapFork) routeABC = some [nodeA, nodeB, nodeB, nodeC] ∧
      alphaOfSystem (dijkstraEnv mapFork) routeABC nodeB = some ((2 : ℚ) / 4) ∧
      Legacy.alphaOfSystem (dijkstraEnv mapFork) routeABC nodeB = some ((1 : ℚ) / 4) ∧
      alphaOfSystem (dijkstraEnv mapFork) routeABC nodeB
        ≠ Legacy.alphaOfSystem (dijkstraEnv mapFork) routeABC nodeB := by
  have hroute : currentRoute (dijkstraEnv mapFork) routeABC
      = some [nodeA, nodeB, nodeB, nodeC] := by decide
  have hidx : indexOfCurrentRoute (dijkstraEnv mapFork) routeABC nodeB = some 2 := by decide
  have hfirst : Legacy.firstStep nodeB [nodeA, nodeB, nodeB, nodeC] 0 = some 1 := by decide
  have h1 : alphaOfSystem (dijkstraEnv mapFork) routeABC nodeB = some ((2 : ℚ) / 4) := by
    unfold alphaOfSystem
    simp only [hidx, hroute]
    norm_num
  have h2 : Legacy.alphaOfSystem (dijkstraEnv mapFork) routeABC nodeB
      = some ((1 : ℚ) / 4) := by
    unfold Legacy.alphaOfSystem
    simp only [hroute, hfirst]
    norm_num
  refine ⟨by decide, hroute, h1, h2, ?_⟩
  rw [h1, h2]
  norm_num

/-! ## C28: distinct start and waypoints -/

theorem forEachWaypoint_sublist (w : StarSystem) :
    ∀ ws : List StarSystem, (removeWaypoint.forEachWaypoint w ws).Sublist ws
  | [] => List.Sublist.refl _
  | [x] => by
    simp only [removeWaypoint.forEachWaypoint]
    split
    · exact List.nil_sublist _
    · exact List.Sublist.refl _
  | x :: y :: rest => by
    simp only [removeWaypoint.forEachWaypoint]
    split
    · exact List.Sublist.cons _ (List.Sublist.cons₂ _ (forEachWaypoint_sublist w rest))
    · exact List.Sublist.cons₂ _ (forEachWaypoint_sublist w (y :: rest))

theorem forEachGraph_fields (E : Env) (toRemove : StarSystem) (two : Nat) (l : List Nat) :
    ∀ r : Route,
      (removeWaypoint.forEachGraph E toRemove two l r).start = r.start ∧
        (removeWaypoint.forEachGraph E toRemove two l r).waypoints.Sublist r.waypoints := by
  induction l with
  | nil => intro r; exact ⟨rfl, List.Sublist.refl _⟩
  | cons x rest ih =>
    intro r
    simp only [removeWaypoint.forEachGraph]
    split
    · obtain ⟨h1, h2⟩ := ih (storeToSession E (__syncGraphs E
        { r with _graphs := splice r._graphs x 1 [],
                 waypoints := removeWaypoint.forEachWaypoint toRemove r.waypoints }))
      refine ⟨by rw [h1]; simp, h2.trans ?_⟩
      simp only [storeToSession_waypoints, syncGraphs_waypoints]
      exact forEachWaypoint_sublist toRemove r.waypoints
    · exact ih r

theorem insertWaypoint_mem_iff (e w x : StarSystem) (ws : List StarSystem)
    (h : x ∈ splitAt.insertWaypoint e w ws) : x = w ∨ x ∈ ws := by
  induction ws with
  | nil => simp [splitAt.insertWaypoint] at h
  | cons y ys ih =>
    simp only [splitAt.insertWaypoint] at h
    split at h
    · rcases List.mem_cons.mp h with h | h
      · exact Or.inl h
      · exact Or.inr h
    · rcases List.mem_cons.mp h with h | h
      · exact Or.inr (by simp [h])
      · rcases ih h with h | h
        · exact Or.inl h
        · exact Or.inr (List.mem_cons_of_mem _ h)

theorem insertWaypoint_nodup (e w : StarSystem) (ws : List StarSystem) (hw : w ∉ ws)
    (hn : ws.Nodup) : (splitAt.insertWaypoint e w ws).Nodup := by
  induction ws with
  | nil => simp [splitAt.insertWaypoint]
  | cons y ys ih =>
    have hy : w ∉ ys := fun hc => hw (List.mem_cons_of_mem _ hc)
    have hwy : w ≠ y := fun hc => hw (by simp [hc])
    obtain ⟨hyn, hys⟩ := List.nodup_cons.mp hn
    simp only [splitAt.insertWaypoint]
    split
    · exact List.nodup_cons.mpr ⟨hw, hn⟩
    · refine List.nodup_cons.mpr ⟨?_, ih hy hys⟩
      intro hc
      rcases insertWaypoint_mem_iff e w y ys hc with h | h
      · exact hwy h.symm
      · exact hyn h

/-- What `splitAt` leaves, whatever it returns: the start as it was, and the waypoints as they
were or with the system inserted before some entry. -/
theorem splitAt_fields (E : Env) (r : Route) (w : StarSystem) :
    (splitAt E r w).route.start = r.start ∧
      ((splitAt E r w).route.waypoints = r.waypoints ∨
        ∃ e, (splitAt E r w).route.waypoints = splitAt.insertWaypoint e w r.waypoints) := by
  unfold splitAt
  cases hfg : __findGraphs E r w with
  | none => exact ⟨rfl, Or.inl rfl⟩
  | some graphs =>
    simp only
    by_cases hlen : graphs.length > 1
    · rw [if_pos hlen]; exact ⟨rfl, Or.inl rfl⟩
    · rw [if_neg hlen]
      match graphs with
      | [] => exact ⟨rfl, Or.inl rfl⟩
      | _ :: _ :: _ => exact ⟨rfl, Or.inl rfl⟩
      | [(gi, graph)] =>
        simp only
        cases hl : graph.lastNode E with
        | none => exact ⟨rfl, Or.inl rfl⟩
        | some oldEnd =>
          simp only
          cases hf : (List.range (r._graphs.set gi
              { graph with end_ := some w }).length).find? (fun i => decide (i = gi)) with
          | none => exact ⟨rfl, Or.inl rfl⟩
          | some i =>
            refine ⟨by simp [Completion.route], Or.inr ⟨oldEnd, by simp [Completion.route]⟩⟩

theorem distinct_parts (s : Option StarSystem) (ws : List StarSystem) :
    (s.toList ++ ws).Nodup ↔ ws.Nodup ∧ ∀ x, s = some x → x ∉ ws := by
  cases s with
  | none => simp
  | some y => simp [List.nodup_cons, and_comm]

/-- C28: if the start and the waypoints of a route are pairwise distinct before a call, they
are pairwise distinct in the route that any `moveWaypoint` or `removeWaypoint` call leaves,
whatever the arguments and whether the call returns true, false or nothing, or throws. -/
theorem edits_keep_distinct (E : Env) (r : Route) (a b : StarSystem)
    (h : (r.start.toList ++ r.waypoints).Nodup) :
    ((moveWaypoint E r a b).route.start.toList
        ++ (moveWaypoint E r a b).route.waypoints).Nodup ∧
      ((removeWaypoint E r a).route.start.toList
        ++ (removeWaypoint E r a).route.waypoints).Nodup := by
  obtain ⟨hn, hs⟩ := (distinct_parts _ _).mp h
  constructor
  · unfold moveWaypoint
    split
    · exact h
    · rename_i hab
      split
      · exact h
      · rename_i hdup
        have hb1 : some b ≠ r.start := fun hc => hdup (Or.inl hc)
        have hb2 : b ∉ r.waypoints := fun hc => hdup (Or.inr ((indexOf_isSome _ _).mpr hc))
        split
        · split
          · simp only [Completion.route, storeToSession_start, storeToSession_waypoints,
              syncGraphs_start, syncGraphs_waypoints]
            rw [distinct_parts]
            refine ⟨hn, fun x hx => ?_⟩
            rw [← Option.some.inj hx]; exact hb2
          · exact h
        · split
          · rename_i index hidx
            simp only [Completion.route, storeToSession_start, storeToSession_waypoints,
              syncGraphs_start, syncGraphs_waypoints]
            rw [distinct_parts]
            refine ⟨List.Nodup.set hn hb2, fun x hx hc => ?_⟩
            rcases List.mem_or_eq_of_mem_set hc with hc | hc
            · exact hs x hx hc
            · exact hb1 (by rw [hx, hc])
          · rename_i hstart _ hidx
            have ha2 : a ∉ r.waypoints := fun hc => by
              have := (indexOf_isSome _ _).mpr hc
              simp [hidx] at this
            obtain ⟨hsf, hwf⟩ := splitAt_fields E r a
            have hsplit : ((splitAt E r a).route.start.toList
                ++ (splitAt E r a).route.waypoints).Nodup := by
              rw [hsf]
              rcases hwf with hwf | ⟨e, hwf⟩
              · rw [hwf]; exact h
              · rw [hwf, distinct_parts]
                refine ⟨insertWaypoint_nodup e a _ ha2 hn, fun x hx hc => ?_⟩
                rcases insertWaypoint_mem_iff e a x _ hc with hc | hc
                · exact hstart (by rw [hx, hc])
                · exact hs x hx hc
            have hbsplit : b ∉ (splitAt E r a).route.waypoints := by
              intro hc
              rcases hwf with hwf | ⟨e, hwf⟩
              · rw [hwf] at hc; exact hb2 hc
              · rw [hwf] at hc
                rcases insertWaypoint_mem_iff e a b _ hc with hc | hc
                · exact hab hc.symm
                · exact hb2 hc
            cases hsp : splitAt E r a with
            | threw r1 => rw [hsp] at hsplit; exact hsplit
            | returned v r1 =>
              rw [hsp] at hsplit hsf hbsplit
              simp only [Completion.route] at hsplit hsf hbsplit
              obtain ⟨hn1, hs1⟩ := (distinct_parts _ _).mp hsplit
              match v with
              | some false => exact hsplit
              | none => exact hsplit
              | some true =>
                simp only
                cases hidx1 : indexOf r1.waypoints a with
                | none => exact hsplit
                | some index =>
                  simp only [Completion.route, storeToSession_start, storeToSession_waypoints,
                    syncGraphs_start, syncGraphs_waypoints]
                  rw [distinct_parts]
                  refine ⟨List.Nodup.set hn1 hbsplit, fun x hx hc => ?_⟩
                  rcases List.mem_or_eq_of_mem_set hc with hc | hc
                  · exact hs1 x hx hc
                  · exact hb1 (by rw [← hsf, hx, hc])
  · unfold removeWaypoint
    cases hfg : __findGraphs E r a with
    | none => exact h
    | some graphs =>
      simp only
      split
      · rename_i one graphOne two graphTwo
        obtain ⟨h1, h2⟩ := forEachGraph_fields E a two
          (List.range (r._graphs.set one { graphOne with end_ := graphTwo.start }).length)
          { r with _graphs := r._graphs.set one { graphOne with end_ := graphTwo.start } }
        simp only [Completion.route]
        rw [h1]
        exact List.Nodup.sublist (List.Sublist.append_left h2 _) h
      · exact h

/-- Witness of `edits_keep_distinct`: moving `X` to `N` on the route `A > B > C` over
`mapHub`, and removing `B` from it. -/
theorem edits_keep_distinct_witness :
    ((moveWaypoint (dijkstraEnv mapHub) routeHub nodeX nodeN).route.start.toList
        ++ (moveWaypoint (dijkstraEnv mapHub) routeHub nodeX nodeN).route.waypoints).Nodup ∧
      ((removeWaypoint (dijkstraEnv mapHub) routeHub nodeX).route.start.toList
        ++ (removeWaypoint (dijkstraEnv mapHub) routeHub nodeX).route.waypoints).Nodup :=
  edits_keep_distinct (dijkstraEnv mapHub) routeHub nodeX nodeN (by decide)

/-! ## C25: what the boundary search returns -/

/-- C25 (counterexample): on the route `A > B > C > D` over the map `A → C ⇄ B`, `C → D`, in
sync with pairwise distinct systems, `C` is the end of segment 1 (`B → C`) and the start of
segment 2 (`C → D`). `__findGraphs(C)` returns two segments, but the first of them is segment
0 (`A → B`), whose path `A, C, B` holds `C`, not the segment ending at `C`. -/
theorem C25_first_match_is_not_the_segment_ending_at_w :
    InSync (dijkstraEnv mapViaD) routeViaD = true ∧
      routeViaD.waypoints = [nodeB, nodeC, nodeD] ∧
      (routeViaD.segment 0).routeArrayOrEmpty (dijkstraEnv mapViaD) = [nodeA, nodeC, nodeB] ∧
      (routeViaD.segment 1).end_ = some nodeC ∧
      (routeViaD.segment 2).start = some nodeC ∧
      __findGraphs (dijkstraEnv mapViaD) routeViaD nodeC
        = some [(0, routeViaD.segment 0), (2, routeViaD.segment 2)] ∧
      __findGraphs (dijkstraEnv mapViaD) routeViaD nodeC
        ≠ some [(1, routeViaD.segment 1), (2, routeViaD.segment 2)] := by
  refine ⟨?_, ?_, ?_, ?_, ?_, ?_, ?_⟩ <;> decide

theorem segment_contains_end (E : Env) (r : Route) (w : StarSystem)
    (hsync : InSync E r = true) (hanch : PathsAnchored E r = true) (k : Nat)
    (hk : k < r.waypoints.length) (hwk : r.waypoints[k]? = some w) :
    w ∈ (r.segment k).routeArrayOrEmpty E := by
  obtain ⟨p, hproute, _, _, hplast, _⟩ := anchored_route E r hsync hanch k hk
  have hpend : (r.segment k).end_ = some w := by simp [Route.segment, hwk]
  rw [hpend] at hplast
  rw [hproute]
  exact List.mem_of_getLast?_eq_some hplast

theorem segment_head_start (E : Env) (r : Route) (w : StarSystem)
    (hsync : InSync E r = true) (hanch : PathsAnchored E r = true) (j : Nat)
    (hj : j < r.waypoints.length) (hj0 : 0 < j) (hw : r.waypoints[j - 1]? = some w) :
    ((r.segment j).routeArrayOrEmpty E).head? = some w := by
  obtain ⟨q, hqroute, _, hqhead, _, _⟩ := anchored_route E r hsync hanch j hj
  have hne : ¬ j = 0 := by omega
  have hqstart : (r.segment j).start = some w := by simp [Route.segment, hne, hw]
  rw [hqroute, hqhead, hqstart]

theorem mem_dropLast_iff_getElem? (ws : List StarSystem) (w : StarSystem) :
    w ∈ ws.dropLast ↔ ∃ k : Nat, k + 1 < ws.length ∧ ws[k]? = some w := by
  rw [List.dropLast_eq_take]
  constructor
  · intro h
    obtain ⟨k, hk, hget⟩ := mem_take_getElem? ws _ w h
    exact ⟨k, by omega, hget⟩
  · rintro ⟨k, hk, hget⟩
    have hget2 : (ws.take (ws.length - 1))[k]? = some w := by
      rw [List.getElem?_take_of_lt (by omega)]; exact hget
    exact List.getElem?_mem hget2

/-- C25 (amended): for every route in sync (each segment path running from the start of the
segment to its end) and system `w`, `__findGraphs(w)` returns, and it returns two segments if
and only if `w` is a waypoint other than the last (the end of a segment and the start of the
next); the first segment returned is the first segment whose path holds `w`, the second the
first later segment that starts at `w`. These two are exactly the segment ending at `w`
followed by the segment starting at `w` when `w` occurs once among the waypoints and lies on no
earlier segment path. In every other case the search returns at most one segment, the first
whose path holds `w`, and none when `w` lies on no segment path. -/
theorem findGraphs_result (E : Env) (r : Route) (w : StarSystem)
    (hsync : InSync E r = true) (hanch : PathsAnchored E r = true) :
    ∃ res, __findGraphs E r w = some res ∧ res.length ≤ 2 ∧
      (res.length = 2 ↔ w ∈ r.waypoints.dropLast) ∧
      (res = [] ↔ ∀ j : Nat, j < r.waypoints.length → w ∉ (r.segment j).routeArrayOrEmpty E) ∧
      (∀ x, res[0]? = some x →
        x.1 < r.waypoints.length ∧ x.2 = r.segment x.1 ∧ w ∈ x.2.routeArrayOrEmpty E ∧
        ∀ j : Nat, j < x.1 → w ∉ (r.segment j).routeArrayOrEmpty E) ∧
      (∀ x y, res = [x, y] →
        x.1 < y.1 ∧ y.1 < r.waypoints.length ∧ y.2 = r.segment y.1 ∧
        y.2.start = some w ∧
        ∀ j : Nat, x.1 < j → j < y.1 → (r.segment j).start ≠ some w) ∧
      (∀ k : Nat, k + 1 < r.waypoints.length → r.waypoints[k]? = some w →
        (∀ j : Nat, j < r.waypoints.length → j ≠ k → r.waypoints[j]? ≠ some w) →
        (∀ j : Nat, j < k → w ∉ (r.segment j).routeArrayOrEmpty E) →
        res = [(k, r.segment k), (k + 1, r.segment (k + 1))]) := by
  classical
  have hstartj : ∀ j : Nat, 0 < j → (r.segment j).start = r.waypoints[j - 1]? := by
    intro j hj
    have : ¬ j = 0 := by omega
    simp [Route.segment, this]
  by_cases hex : ∃ f : Nat, f < r.waypoints.length ∧ w ∈ (r.segment f).routeArrayOrEmpty E
  · -- some segment path holds w: f is the first
    obtain ⟨hflt, hfin⟩ := Nat.find_spec hex
    have hfmin : ∀ j : Nat, j < Nat.find hex → w ∉ (r.segment j).routeArrayOrEmpty E := by
      intro j hj hc
      exact Nat.find_min hex hj ⟨by omega, hc⟩
    have hgf := inSync_graph E r hsync _ hflt
    have hpre : ∀ j x, j < Nat.find hex → r._graphs[j]? = some x →
        w ∉ x.routeArrayOrEmpty E := by
      intro j x hj hx
      obtain ⟨_, hseg⟩ := inSync_graph_inv E r hsync j x hx
      subst hseg
      exact hfmin j hj
    by_cases hlater : ∃ j : Nat, Nat.find hex < j ∧ j < r.waypoints.length ∧
        r.waypoints[j - 1]? = some w
    · -- a later segment starts at w: two segments are returned
      obtain ⟨hfj, hjlt, hjw⟩ := Nat.find_spec hlater
      have hjmin : ∀ j : Nat, Nat.find hex < j → j < Nat.find hlater →
          r.waypoints[j - 1]? ≠ some w := by
        intro j hj1 hj2 hc
        exact Nat.find_min hlater hj2 ⟨hj1, by omega, hc⟩
      have hgj := inSync_graph E r hsync _ hjlt
      have hres := findGraphs_two E r w (Nat.find hex) (Nat.find hlater) _ _ hgf hpre hfin hfj
        hgj
        (fun j x hj1 hj2 hx =>
          heads_differ E r w hsync hanch j x (by omega) hx (hjmin j hj1 hj2))
        (segment_head_start E r w hsync hanch _ hjlt (by omega) hjw)
      refine ⟨_, hres, by simp, ?_, ?_, ?_, ?_, ?_⟩
      · simp only [List.length_cons, List.length_nil, true_iff]
        rw [mem_dropLast_iff_getElem?]
        exact ⟨Nat.find hlater - 1, by omega, hjw⟩
      · simp only [List.cons_ne_nil, false_iff, not_forall]
        exact ⟨Nat.find hex, hflt, fun hc => hc hfin⟩
      · intro x hx
        simp only [List.getElem?_cons_zero, Option.some.injEq] at hx
        subst hx
        exact ⟨hflt, rfl, hfin, hfmin⟩
      · intro x y hxy
        simp only [List.cons.injEq, and_true] at hxy
        obtain ⟨hx, hy⟩ := hxy
        subst hx; subst hy
        refine ⟨hfj, hjlt, rfl, ?_, ?_⟩
        · rw [hstartj _ (by omega)]; exact hjw
        · intro j hj1 hj2
          rw [hstartj j (by omega)]
          exact hjmin j hj1 hj2
      · intro k hk hwk honce hbefore
        have hfk : Nat.find hex = k := by
          have hle : Nat.find hex ≤ k :=
            Nat.find_min' hex ⟨by omega, segment_contains_end E r w hsync hanch k (by omega) hwk⟩
          by_contra hne
          exact hbefore (Nat.find hex) (by omega) hfin
        have hjk : Nat.find hlater = k + 1 := by
          have h1 : Nat.find hlater - 1 = k := by
            by_contra hne
            exact honce (Nat.find hlater - 1) (by omega) hne hjw
          omega
        rw [hjk, hfk]
    · -- no later segment starts at w: one segment is returned
      have hres := findGraphs_one E r w (Nat.find hex) _ hgf hpre hfin
        (fun j x hj hx => by
          have hjlt := (inSync_graph_inv E r hsync j x hx).1
          exact heads_differ E r w hsync hanch j x (by omega) hx
            (fun hc => hlater ⟨j, hj, hjlt, hc⟩))
      have hnot : w ∉ r.waypoints.dropLast := by
        rw [mem_dropLast_iff_getElem?]
        rintro ⟨k, hk, hwk⟩
        have hle : Nat.find hex ≤ k :=
          Nat.find_min' hex ⟨by omega, segment_contains_end E r w hsync hanch k (by omega) hwk⟩
        exact hlater ⟨k + 1, by omega, hk, by simpa using hwk⟩
      refine ⟨_, hres, by simp, ?_, ?_, ?_, ?_, ?_⟩
      · simp only [List.length_cons, List.length_nil]
        constructor
        · intro hc; omega
        · intro hc; exact absurd hc hnot
      · simp only [List.cons_ne_nil, false_iff, not_forall]
        exact ⟨Nat.find hex, hflt, fun hc => hc hfin⟩
      · intro x hx
        simp only [List.getElem?_cons_zero, Option.some.injEq] at hx
        subst hx
        exact ⟨hflt, rfl, hfin, hfmin⟩
      · intro x y hxy
        simp at hxy
      · intro k hk hwk _ _
        exfalso
        apply hnot
        rw [mem_dropLast_iff_getElem?]
        exact ⟨k, hk, hwk⟩
  · -- no segment path holds w: nothing is returned
    have hall : ∀ g ∈ r._graphs, w ∉ g.routeArrayOrEmpty E := by
      intro g hg hc
      obtain ⟨i, hi⟩ := List.getElem?_of_mem hg
      obtain ⟨hlt, hseg⟩ := inSync_graph_inv E r hsync i g hi
      subst hseg
      exact hex ⟨i, hlt, hc⟩
    have hskip := findLoop_skip E w [] r._graphs 0 hall
    simp only [List.append_nil] at hskip
    have hres : __findGraphs E r w = some [] := by
      unfold __findGraphs
      rw [hskip]
      rfl
    have hnot : w ∉ r.waypoints.dropLast := by
      rw [mem_dropLast_iff_getElem?]
      rintro ⟨k, hk, hwk⟩
      exact hex ⟨k, by omega, segment_contains_end E r w hsync hanch k (by omega) hwk⟩
    refine ⟨_, hres, by simp, ?_, ?_, ?_, ?_, ?_⟩
    · simp only [List.length_nil]
      constructor
      · intro hc; omega
      · intro hc; exact absurd hc hnot
    · simp only [true_iff]
      intro j hj hc
      exact hex ⟨j, hj, hc⟩
    · intro x hx
      simp at hx
    · intro x y hxy
      simp at hxy
    · intro k hk hwk _ _
      exfalso
      apply hnot
      rw [mem_dropLast_iff_getElem?]
      exact ⟨k, hk, hwk⟩

/-- Witness of `findGraphs_result`: the search for `B` on the route `A > B > C` over the map
`A → B ⇄ C`, `B → D`. -/
theorem findGraphs_result_witness :
    ∃ res, __findGraphs (dijkstraEnv mapFork) routeABC nodeB = some res ∧ res.length ≤ 2 ∧
      (res.length = 2 ↔ nodeB ∈ routeABC.waypoints.dropLast) :=
  (findGraphs_result (dijkstraEnv mapFork) routeABC nodeB (by decide) (by decide)).imp
    (fun _ h => ⟨h.1, h.2.1, h.2.2.1⟩)

/-! ## C22 and C23: jump points -/

/-- C23 (counterexample): given the same system as source and as destination, the constructor
produces a jump point whose source is its destination; given no destination, it produces a
jump point without one. Both times it only writes to the error console. -/
theorem C23_constructor_produces_invalid_jump_points :
    (JumpPoint.new
        ({ source := some (systemAt 1 0 0), destination := some (systemAt 1 0 0) } :
          JumpPointData ℚ)).1.source.map (fun s => s.id) = some 1 ∧
      (JumpPoint.new
        ({ source := some (systemAt 1 0 0), destination := some (systemAt 1 0 0) } :
          JumpPointData ℚ)).1.destination.map (fun s => s.id) = some 1 ∧
      (JumpPoint.new
        ({ source := some (systemAt 1 0 0), destination := some (systemAt 1 0 0) } :
          JumpPointData ℚ)).1.isValid = false ∧
      (JumpPoint.new
        ({ source := some (systemAt 1 0 0), destination := some (systemAt 1 0 0) } :
          JumpPointData ℚ)).2 = ["Invalid route created"] ∧
      (JumpPoint.new
        ({ source := some (systemAt 1 0 0), destination := none } :
          JumpPointData ℚ)).1.destination.isNone = true ∧
      (JumpPoint.new
        ({ source := some (systemAt 1 0 0), destination := none } :
          JumpPointData ℚ)).2 = ["Invalid route created"] := by
  refine ⟨?_, ?_, ?_, ?_, ?_, ?_⟩ <;> rfl

/-- C23 (amended): the constructor stores the source and the destination it is given (nothing
for what is not a system) and rejects nothing; the jump point it produces has both a source and
a destination, distinct from each other, exactly when `isValid()` holds for it, and exactly
otherwise the constructor writes an error to the console. -/
theorem constructor_valid_iff {K : Type} (data : JumpPointData K) :
    (JumpPoint.new data).1.source = data.source ∧
      (JumpPoint.new data).1.destination = data.destination ∧
      ((JumpPoint.new data).1.isValid = true ↔
        ∃ s d, (JumpPoint.new data).1.source = some s ∧
          (JumpPoint.new data).1.destination = some d ∧ s.id ≠ d.id) ∧
      ((JumpPoint.new data).1.isValid = false ↔
        (JumpPoint.new data).2 = ["Invalid route created"]) ∧
      ((JumpPoint.new data).1.isValid = true ↔ (JumpPoint.new data).2 = []) := by
  obtain ⟨source, destination⟩ := data
  cases source <;> cases destination <;>
    simp [JumpPoint.new, JumpPoint.isValid, apply_ite Prod.fst, apply_ite Prod.snd]

/-- C22: for every jump point, with `distanceTo` giving the Euclidean distance between the
positions of its ends: when it is valid, `length()` is that distance (non-negative, its square
the sum of the squared coordinate differences), `jumpTime()` is 4 times `length()` and
non-negative, and `fuelConsumption()` is 0; when it is not valid, all three yield no value. -/
theorem jumpPoint_weights {K : Type} [LinearOrderedField K]
    (distanceTo : Vector3 K → Vector3 K → K) (jp : JumpPoint K)
    (hdist : ∀ s d, jp.source = some s → jp.destination = some d →
      0 ≤ distanceTo s.position d.position ∧
        distanceTo s.position d.position * distanceTo s.position d.position
          = (s.position.x - d.position.x) * (s.position.x - d.position.x)
            + (s.position.y - d.position.y) * (s.position.y - d.position.y)
            + (s.position.z - d.position.z) * (s.position.z - d.position.z)) :
    (jp.isValid = true →
      ∃ s d l, jp.source = some s ∧ jp.destination = some d ∧ s.id ≠ d.id ∧
        jp.length distanceTo = some l ∧ 0 ≤ l ∧
        l * l = (s.position.x - d.position.x) * (s.position.x - d.position.x)
            + (s.position.y - d.position.y) * (s.position.y - d.position.y)
            + (s.position.z - d.position.z) * (s.position.z - d.position.z) ∧
        jp.jumpTime distanceTo = some (l * 4) ∧ 0 ≤ l * 4 ∧
        jp.fuelConsumption = some 0) ∧
      (jp.isValid = false →
        jp.length distanceTo = none ∧ jp.jumpTime distanceTo = none ∧
          jp.fuelConsumption = none) := by
  obtain ⟨source, destination⟩ := jp
  constructor
  · intro hvalid
    cases source with
    | none => simp [JumpPoint.isValid] at hvalid
    | some s =>
      cases destination with
      | none => simp [JumpPoint.isValid] at hvalid
      | some d =>
        obtain ⟨h0, hsq⟩ := hdist s d rfl rfl
        have hne : s.id ≠ d.id := by simpa [JumpPoint.isValid] using hvalid
        refine ⟨s, d, distanceTo s.position d.position, rfl, rfl, hne, ?_, h0, hsq, ?_,
          by positivity, ?_⟩
        · simp [JumpPoint.length, hvalid]
        · simp [JumpPoint.jumpTime, JumpPoint.length, hvalid]
        · simp [JumpPoint.fuelConsumption, hvalid]
  · intro hvalid
    simp [JumpPoint.length, JumpPoint.jumpTime, JumpPoint.fuelConsumption, hvalid]

/-- Witness of `jumpPoint_weights`: over the reals, with the square root of the summed squared
differences as `distanceTo`, on the jump point from `(0, 0, 0)` to `(3, 0, 4)`. -/
theorem jumpPoint_weights_witness :
    ∃ l : ℝ,
      JumpPoint.length
        (fun a b => Real.sqrt ((a.x - b.x) * (a.x - b.x) + (a.y - b.y) * (a.y - b.y)
          + (a.z - b.z) * (a.z - b.z)))
        ({ source := some ⟨1, ⟨0, 0, 0⟩, ⟨⟨0, 0, 0⟩⟩⟩,
           destination := some ⟨2, ⟨3, 0, 4⟩, ⟨⟨0, 0, 0⟩⟩⟩ } : JumpPoint ℝ) = some l ∧
      0 ≤ l ∧
      JumpPoint.jumpTime
        (fun a b => Real.sqrt ((a.x - b.x) * (a.x - b.x) + (a.y - b.y) * (a.y - b.y)
          + (a.z - b.z) * (a.z - b.z)))
        ({ source := some ⟨1, ⟨0, 0, 0⟩, ⟨⟨0, 0, 0⟩⟩⟩,
           destination := some ⟨2, ⟨3, 0, 4⟩, ⟨⟨0, 0, 0⟩⟩⟩ } : JumpPoint ℝ) = some (l * 4) := by
  obtain ⟨s, d, l, _, _, _, hlen, hl, _, htime, _, _⟩ :=
    (jumpPoint_weights
      (fun a b => Real.sqrt ((a.x - b.x) * (a.x - b.x) + (a.y - b.y) * (a.y - b.y)
        + (a.z - b.z) * (a.z - b.z)))
      ({ source := some ⟨1, ⟨0, 0, 0⟩, ⟨⟨0, 0, 0⟩⟩⟩,
         destination := some ⟨2, ⟨3, 0, 4⟩, ⟨⟨0, 0, 0⟩⟩⟩ } : JumpPoint ℝ)
      (fun s d _ _ => ⟨Real.sqrt_nonneg _,
        Real.mul_self_sqrt
          (add_nonneg (add_nonneg (mul_self_nonneg _) (mul_self_nonneg _))
            (mul_self_nonneg _))⟩)).1 rfl
  exact ⟨l, hlen, hl, htime⟩

/-! ## C26: the outer bounds of the reference grid -/

/-- C26 (failing input): with a system at `x = 5` followed by a system at `x = 84` (both at
`z = 0`), the first system moves `maxX` to 85, the second, not beyond 85, leaves it there, and
the rounding takes it down to 80: the system at `x = 84` lies outside the bounds. -/
theorem C26_bounds_miss_a_system :
    (buildReferenceGrid.outer [systemAt 1 5 0, systemAt 2 84 0]
        { minX := 0, minZ := 0, maxX := 0, maxZ := 0 }).maxX = 85 ∧
      (buildReferenceGrid.bounds [systemAt 1 5 0, systemAt 2 84 0]).maxX = 80 ∧
      systemAt 2 84 0 ∈ [systemAt 1 5 0, systemAt 2 84 0] ∧
      ¬ (systemAt 2 84 0).position.x
          ≤ (buildReferenceGrid.bounds [systemAt 1 5 0, systemAt 2 84 0]).maxX := by
  have houter : (buildReferenceGrid.outer [systemAt 1 5 0, systemAt 2 84 0]
      { minX := 0, minZ := 0, maxX := 0, maxZ := 0 }).maxX = 85 := by
    simp only [buildReferenceGrid.outer, systemAt]
    norm_num
  have hbound : (buildReferenceGrid.bounds [systemAt 1 5 0, systemAt 2 84 0]).maxX = 80 := by
    simp only [buildReferenceGrid.bounds, houter]
    have hfloor : ⌊(85 : ℚ) / 10⌋ = 8 := by
      rw [Int.floor_eq_iff]
      constructor <;> norm_num
    rw [hfloor]
    norm_num
  refine ⟨houter, hbound, by simp, ?_⟩
  rw [hbound]
  simp only [systemAt]
  norm_num

/-! ## C27: the square pre-filter of the reference grid -/

theorem length_beyond_square {K : Type} [LinearOrderedField K] (sqrt : K → K)
    (hsqrt : ∀ y, 0 ≤ y → 0 ≤ sqrt y ∧ sqrt y * sqrt y = y) (s xd zd : K) (hs : 0 < s)
    (hout : 6.5 * s < xd ∨ xd < -(6.5 * s) ∨ 6.5 * s < zd ∨ zd < -(6.5 * s)) :
    4.5 * s < sqrt (xd * xd + zd * zd) := by
  obtain ⟨h0, hsq⟩ := hsqrt (xd * xd + zd * zd)
    (add_nonneg (mul_self_nonneg _) (mul_self_nonneg _))
  have ht : (0 : K) ≤ 6.5 * s := by positivity
  have hlt : 6.5 * s * (6.5 * s) < sqrt (xd * xd + zd * zd) * sqrt (xd * xd + zd * zd) := by
    rw [hsq]
    rcases hout with h | h | h | h
    · nlinarith [mul_self_nonneg zd]
    · nlinarith [mul_self_nonneg zd]
    · nlinarith [mul_self_nonneg xd]
    · nlinarith [mul_self_nonneg xd]
  have h65 := lt_of_mul_self_lt_mul_self₀ h0 hlt
  have h45 : 4.5 * s < 6.5 * s := by
    have : (4.5 : K) < 6.5 := by norm_num
    exact mul_lt_mul_of_pos_right this hs
  exact lt_trans h45 h65

theorem closestLoop_prefilter {K : Type} [LinearOrderedField K] (sqrt : K → K)
    (hsqrt : ∀ y, 0 ≤ y → 0 ≤ sqrt y ∧ sqrt y * sqrt y = y) (v : Vector3 K) (s : K)
    (hs : 0 < s) (L : List (System K)) :
    ∀ a b : Option K × Option (System K),
      (a = b ∨ (beyondBands s a.1 ∧ beyondBands s b.1)) →
      (closestFromArray.loop sqrt v (withinApproxDistance v (6.5 * s) L) a
          = closestFromArray.loop sqrt v L b ∨
        (beyondBands s (closestFromArray.loop sqrt v (withinApproxDistance v (6.5 * s) L) a).1 ∧
          beyondBands s (closestFromArray.loop sqrt v L b).1)) := by
  induction L with
  | nil =>
    intro a b h
    simpa [withinApproxDistance, closestFromArray.loop] using h
  | cons system rest ih =>
    intro a b h
    obtain ⟨ca, pa⟩ := a
    obtain ⟨cb, pb⟩ := b
    by_cases hout : 6.5 * s < v.x - system.position.x ∨ v.x - system.position.x < -(6.5 * s) ∨
        6.5 * s < v.z - system.position.z ∨ v.z - system.position.z < -(6.5 * s)
    · -- `system` lies outside the square
      have hfar := length_beyond_square sqrt hsqrt s _ _ hs hout
      have hfilter : withinApproxDistance v (6.5 * s) (system :: rest)
          = withinApproxDistance v (6.5 * s) rest := by
        simp only [withinApproxDistance]
        rcases hout with h1 | h1 | h1 | h1
        · rw [if_pos (by linarith)]
        · by_cases c1 : system.position.x < v.x - 6.5 * s
          · rw [if_pos c1]
          · rw [if_neg c1, if_pos (by linarith)]
        · by_cases c1 : system.position.x < v.x - 6.5 * s
          · rw [if_pos c1]
          · rw [if_neg c1]
            by_cases c2 : system.position.x > v.x + 6.5 * s
            · rw [if_pos c2]
            · rw [if_neg c2, if_pos (by linarith)]
        · by_cases c1 : system.position.x < v.x - 6.5 * s
          · rw [if_pos c1]
          · rw [if_neg c1]
            by_cases c2 : system.position.x > v.x + 6.5 * s
            · rw [if_pos c2]
            · rw [if_neg c2]
              by_cases c3 : system.position.z < v.z - 6.5 * s
              · rw [if_pos c3]
              · rw [if_neg c3, if_pos (by linarith)]
      rw [hfilter]
      simp only [closestFromArray.loop]
      split
      · -- the full list takes `system` as the closest so far
        rename_i hupd
        apply ih
        right
        refine ⟨?_, ?_⟩
        · rcases h with h | h
          · simp only [Prod.mk.injEq] at h
            obtain ⟨hc, _⟩ := h
            subst hc
            intro c hc
            simp only at hc
            subst hc
            simp only [decide_eq_true_eq] at hupd
            exact lt_trans hfar hupd
          · exact h.1
        · intro c hc
          simp only [Option.some.injEq] at hc
          subst hc
          exact hfar
      · exact ih _ _ h
    · -- `system` lies inside the square
      have hfilter : withinApproxDistance v (6.5 * s) (system :: rest)
          = system :: withinApproxDistance v (6.5 * s) rest := by
        simp only [not_or, not_lt] at hout
        obtain ⟨h1, h2, h3, h4⟩ := hout
        simp only [withinApproxDistance]
        rw [if_neg (by intro c; linarith), if_neg (by intro c; linarith),
          if_neg (by intro c; linarith), if_neg (by intro c; linarith)]
      rw [hfilter]
      rcases h with h | h
      · simp only [Prod.mk.injEq] at h
        obtain ⟨hc, hp⟩ := h
        subst hc; subst hp
        simp only [closestFromArray.loop]
        split
        · exact ih _ _ (Or.inl rfl)
        · exact ih _ _ (Or.inl rfl)
      · obtain ⟨ha, hb⟩ := h
        simp only at ha hb
        simp only [closestFromArray.loop]
        split <;> split
        · exact ih _ _ (Or.inl rfl)
        · rename_i hupd hno
          apply ih
          right
          refine ⟨?_, hb⟩
          intro c hc
          simp only [Option.some.injEq] at hc
          subst hc
          cases cb with
          | none => simp at hno
          | some c0 =>
            simp only [decide_eq_true_eq, not_lt] at hno
            exact lt_of_lt_of_le (hb c0 rfl) hno
        · rename_i hno hupd
          apply ih
          right
          refine ⟨ha, ?_⟩
          intro c hc
          simp only [Option.some.injEq] at hc
          subst hc
          cases ca with
          | none => simp at hno
          | some c0 =>
            simp only [decide_eq_true_eq, not_lt] at hno
            exact lt_of_lt_of_le (ha c0 rfl) hno
        · exact ih _ _ (Or.inr ⟨ha, hb⟩)

theorem colorForVector_beyond {K : Type} [LinearOrderedField K] (sqrt : K → K)
    (v : Vector3 K) (s : K) (L : List (System K))
    (h : beyondBands s (closestFromArray sqrt v L).1) :
    colorForVector sqrt v L s = none := by
  unfold colorForVector
  simp only
  split
  · rename_i closest poi h1 _
    rw [if_neg]
    exact not_le.mpr (h closest h1)
  · rfl

/-- C27: for every grid point `v`, segment size `s > 0` and list of systems `L`, with
`Math.sqrt` an exact non-negative square root, `colorForVector` returns on the pre-filtered list
`withinApproxDistance(v, 6.5 * s)` the colour it returns on the whole of `L`; and whenever that
colour is not `BLACK`, `closestFromArray` returns the same distance and the same system on
both lists. -/
theorem colorForVector_prefilter {K : Type} [LinearOrderedField K] (sqrt : K → K)
    (v : Vector3 K) (s : K) (L : List (System K)) (hs : 0 < s)
    (hsqrt : ∀ y, 0 ≤ y → 0 ≤ sqrt y ∧ sqrt y * sqrt y = y) :
    colorForVector sqrt v (withinApproxDistance v (6.5 * s) L) s = colorForVector sqrt v L s ∧
      (colorForVector sqrt v L s ≠ none →
        closestFromArray sqrt v (withinApproxDistance v (6.5 * s) L)
          = closestFromArray sqrt v L) := by
  have h := closestLoop_prefilter sqrt hsqrt v s hs L (none, none) (none, none) (Or.inl rfl)
  rcases h with h | h
  · refine ⟨?_, fun _ => h⟩
    unfold colorForVector
    unfold closestFromArray
    rw [h]
  · have h1 := colorForVector_beyond sqrt v s _ h.1
    have h2 := colorForVector_beyond sqrt v s L h.2
    refine ⟨by rw [h1, h2], fun hne => absurd h2 hne⟩

/-- Witness of `colorForVector_prefilter`: over the reals, at the grid point `(10, 0, 20)` with
segment size 10, on a list with one system inside the square and one outside. -/
theorem colorForVector_prefilter_witness :
    colorForVector Real.sqrt (⟨10, 0, 20⟩ : Vector3 ℝ)
        (withinApproxDistance ⟨10, 0, 20⟩ (6.5 * 10)
          [⟨1, ⟨12, 0, 21⟩, ⟨⟨1, 0, 0⟩⟩⟩, ⟨2, ⟨90, 0, 20⟩, ⟨⟨0, 1, 0⟩⟩⟩]) 10
      = colorForVector Real.sqrt (⟨10, 0, 20⟩ : Vector3 ℝ)
          [⟨1, ⟨12, 0, 21⟩, ⟨⟨1, 0, 0⟩⟩⟩, ⟨2, ⟨90, 0, 20⟩, ⟨⟨0, 1, 0⟩⟩⟩] 10 :=
  (colorForVector_prefilter Real.sqrt ⟨10, 0, 20⟩ 10
    [⟨1, ⟨12, 0, 21⟩, ⟨⟨1, 0, 0⟩⟩⟩, ⟨2, ⟨90, 0, 20⟩, ⟨⟨0, 1, 0⟩⟩⟩] (by norm_num)
    (fun y hy => ⟨Real.sqrt_nonneg y, Real.mul_self_sqrt hy⟩)).1

/-! ## C24: the weight the solver finds -/

namespace Solver

theorem lookup_some {K : Type} [LinearOrderedAddCommMonoid K]
    {table : List (WeightedEntry K)} {s : StarSystem} {row : WeightedEntry K}
    (h : lookup table s = some row) : row ∈ table ∧ row.system = s := by
  unfold lookup at h
  exact ⟨List.mem_of_find?_eq_some h, by simpa using List.find?_some h⟩

theorem lookup_of_mem {K : Type} [LinearOrderedAddCommMonoid K]
    {table : List (WeightedEntry K)} (hnd : (table.map (fun x => x.system)).Nodup)
    {x : WeightedEntry K} (hx : x ∈ table) : lookup table x.system = some x := by
  induction table with
  | nil => simp at hx
  | cons y t ih =>
    simp only [List.map_cons, List.nodup_cons] at hnd
    rcases List.mem_cons.mp hx with h | h
    · subst h
      simp [lookup]
    · have hne : y.system ≠ x.system := by
        intro hc
        exact hnd.1 (hc ▸ List.mem_map_of_mem (fun x => x.system) h)
      have := ih hnd.2 h
      unfold lookup at this ⊢
      rw [List.find?_cons_of_neg _ (by simpa using hne)]
      exact this

theorem dist_some {K : Type} [LinearOrderedAddCommMonoid K]
    {table : List (WeightedEntry K)} {s : StarSystem} {d : K} (h : dist table s = some d) :
    ∃ row ∈ table, row.system = s ∧ row.distance = d := by
  unfold dist at h
  cases hl : lookup table s with
  | none => simp [hl] at h
  | some row =>
    simp only [hl, Option.map_some', Option.some.injEq] at h
    exact ⟨row, (lookup_some hl).1, (lookup_some hl).2, h⟩

theorem dist_of_mem {K : Type} [LinearOrderedAddCommMonoid K]
    {table : List (WeightedEntry K)} (hnd : (table.map (fun x => x.system)).Nodup)
    {x : WeightedEntry K} (hx : x ∈ table) : dist table x.system = some x.distance := by
  unfold dist
  rw [lookup_of_mem hnd hx]
  rfl

/-- One relaxation, read off the table system by system. -/
theorem dist_relax {K : Type} [LinearOrderedAddCommMonoid K]
    (u : WeightedEntry K) (table : List (WeightedEntry K)) (e : WeightedEdge K) (s : StarSystem) :
    dist (relax u table e) s =
      if s = ⟨e.destination⟩ then
        (match dist table s with
          | none => some (u.distance + e.weight)
          | some old =>
            if u.distance + e.weight < old then some (u.distance + e.weight) else some old)
      else dist table s := by
  unfold relax
  cases hl : lookup table ⟨e.destination⟩ with
  | none =>
    simp only
    by_cases hs : s = ⟨e.destination⟩
    · subst hs
      have hd : dist table ⟨e.destination⟩ = none := by simp [dist, hl]
      rw [if_pos rfl, hd]
      simp only
      unfold dist lookup
      unfold lookup at hl
      rw [List.find?_append, hl]
      simp
    · rw [if_neg hs]
      have hs2 : ¬ (⟨e.destination⟩ : StarSystem) = s := fun hc => hs hc.symm
      simp [dist, lookup, List.find?_append, hs2]
  | some old =>
    simp only
    have hold := lookup_some hl
    by_cases hlt : u.distance + e.weight < old.distance
    · rw [if_pos hlt]
      have hmap : ∀ s, lookup (table.map (fun x =>
          if x.system = ⟨e.destination⟩ then
            (⟨x.system, u.distance + e.weight, some u.system⟩ : WeightedEntry K) else x)) s
          = (lookup table s).map (fun x =>
          if x.system = ⟨e.destination⟩ then
            (⟨x.system, u.distance + e.weight, some u.system⟩ : WeightedEntry K) else x) := by
        intro s
        unfold lookup
        rw [List.find?_map]
        have hcomp : ((fun x : WeightedEntry K => decide (x.system = s)) ∘
            fun x : WeightedEntry K =>
            if x.system = ⟨e.destination⟩ then
              (⟨x.system, u.distance + e.weight, some u.system⟩ : WeightedEntry K) else x)
            = fun x => decide (x.system = s) := by
          funext x
          simp only [Function.comp]
          split <;> rfl
        rw [hcomp]
      by_cases hs : s = ⟨e.destination⟩
      · subst hs
        rw [if_pos rfl]
        simp only [dist, hmap, hl, Option.map_some', hold.2, if_true, if_pos hlt]
      · rw [if_neg hs]
        simp only [dist, hmap]
        cases hls : lookup table s with
        | none => rfl
        | some row =>
          have hrow := (lookup_some hls).2
          simp only [Option.map_some', Option.some.injEq]
          rw [if_neg (by rw [hrow]; exact hs)]
    · rw [if_neg hlt]
      by_cases hs : s = ⟨e.destination⟩
      · subst hs
        rw [if_pos rfl]
        simp only [dist, hl, Option.map_some', if_neg hlt]
      · rw [if_neg hs]

theorem relax_mono {K : Type} [LinearOrderedAddCommMonoid K]
    (u : WeightedEntry K) (table : List (WeightedEntry K)) (e : WeightedEdge K)
    (s : StarSystem) (d : K)
    (h : dist table s = some d) : ∃ d', dist (relax u table e) s = some d' ∧ d' ≤ d := by
  rw [dist_relax]
  by_cases hs : s = ⟨e.destination⟩
  · rw [if_pos hs, h]
    simp only
    by_cases hlt : u.distance + e.weight < d
    · rw [if_pos hlt]; exact ⟨_, rfl, le_of_lt hlt⟩
    · rw [if_neg hlt]; exact ⟨_, rfl, le_refl _⟩
  · rw [if_neg hs]; exact ⟨d, h, le_refl _⟩

theorem relax_origin {K : Type} [LinearOrderedAddCommMonoid K]
    (u : WeightedEntry K) (table : List (WeightedEntry K)) (e : WeightedEdge K)
    (s : StarSystem) (d : K)
    (h : dist (relax u table e) s = some d) :
    dist table s = some d ∨ (s = ⟨e.destination⟩ ∧ d = u.distance + e.weight) := by
  rw [dist_relax] at h
  by_cases hs : s = ⟨e.destination⟩
  · rw [if_pos hs] at h
    cases hd : dist table s with
    | none =>
      rw [hd] at h
      simp only [Option.some.injEq] at h
      exact Or.inr ⟨hs, h.symm⟩
    | some old =>
      rw [hd] at h
      simp only at h
      by_cases hlt : u.distance + e.weight < old
      · rw [if_pos hlt] at h
        simp only [Option.some.injEq] at h
        exact Or.inr ⟨hs, h.symm⟩
      · rw [if_neg hlt] at h
        exact Or.inl h
  · rw [if_neg hs] at h
    exact Or.inl h

theorem relax_target {K : Type} [LinearOrderedAddCommMonoid K]
    (u : WeightedEntry K) (table : List (WeightedEntry K)) (e : WeightedEdge K) :
    ∃ d', dist (relax u table e) ⟨e.destination⟩ = some d' ∧ d' ≤ u.distance + e.weight := by
  rw [dist_relax, if_pos rfl]
  cases hd : dist table ⟨e.destination⟩ with
  | none => exact ⟨_, rfl, le_refl _⟩
  | some old =>
    simp only
    by_cases hlt : u.distance + e.weight < old
    · rw [if_pos hlt]; exact ⟨_, rfl, le_refl _⟩
    · rw [if_neg hlt]; exact ⟨_, rfl, le_of_not_lt hlt⟩

theorem relax_nodup {K : Type} [LinearOrderedAddCommMonoid K]
    (u : WeightedEntry K) (table : List (WeightedEntry K)) (e : WeightedEdge K)
    (hnd : (table.map (fun x => x.system)).Nodup) :
    ((relax u table e).map (fun x => x.system)).Nodup := by
  unfold relax
  cases hl : lookup table ⟨e.destination⟩ with
  | none =>
    simp only
    rw [List.map_append, List.map_cons, List.map_nil]
    apply List.Nodup.append hnd (List.nodup_singleton _)
    intro a ha hb
    simp only [List.mem_singleton] at hb
    subst hb
    obtain ⟨x, hx, hxs⟩ := List.mem_map.mp ha
    unfold lookup at hl
    rw [List.find?_eq_none] at hl
    exact hl x hx (by simpa using hxs)
  | some old =>
    simp only
    split
    · rw [List.map_map]
      have : ((fun x : WeightedEntry K => x.system) ∘ fun x : WeightedEntry K =>
          if x.system = ⟨e.destination⟩ then
            (⟨x.system, u.distance + e.weight, some u.system⟩ : WeightedEntry K) else x)
          = fun x => x.system := by
        funext x
        simp only [Function.comp]
        split <;> rfl
      rw [this]
      exact hnd
    · exact hnd

theorem fold_mono {K : Type} [LinearOrderedAddCommMonoid K]
    (u : WeightedEntry K) (es : List (WeightedEdge K)) :
    ∀ (table : List (WeightedEntry K)) (s : StarSystem) (d : K), dist table s = some d →
      ∃ d', dist (es.foldl (relax u) table) s = some d' ∧ d' ≤ d := by
  induction es with
  | nil => intro table s d h; exact ⟨d, h, le_refl _⟩
  | cons e es ih =>
    intro table s d h
    obtain ⟨d1, h1, hle1⟩ := relax_mono u table e s d h
    obtain ⟨d2, h2, hle2⟩ := ih _ s d1 h1
    exact ⟨d2, h2, le_trans hle2 hle1⟩

theorem fold_origin {K : Type} [LinearOrderedAddCommMonoid K]
    (u : WeightedEntry K) (es : List (WeightedEdge K)) :
    ∀ (table : List (WeightedEntry K)) (s : StarSystem) (d : K),
      dist (es.foldl (relax u) table) s = some d →
      dist table s = some d ∨
        ∃ e ∈ es, s = ⟨e.destination⟩ ∧ d = u.distance + e.weight := by
  induction es with
  | nil => intro table s d h; exact Or.inl h
  | cons e es ih =>
    intro table s d h
    rcases ih _ s d h with h1 | ⟨e', he', hs, hd⟩
    · rcases relax_origin u table e s d h1 with h0 | ⟨hs, hd⟩
      · exact Or.inl h0
      · exact Or.inr ⟨e, List.mem_cons_self _ _, hs, hd⟩
    · exact Or.inr ⟨e', List.mem_cons_of_mem _ he', hs, hd⟩

theorem fold_target {K : Type} [LinearOrderedAddCommMonoid K]
    (u : WeightedEntry K) (es : List (WeightedEdge K)) :
    ∀ (table : List (WeightedEntry K)), ∀ e ∈ es,
      ∃ d', dist (es.foldl (relax u) table) ⟨e.destination⟩ = some d' ∧
        d' ≤ u.distance + e.weight := by
  induction es with
  | nil => intro table e he; simp at he
  | cons e0 es ih =>
    intro table e he
    rcases List.mem_cons.mp he with h | h
    · subst h
      obtain ⟨d1, h1, hle1⟩ := relax_target u table e
      obtain ⟨d2, h2, hle2⟩ := fold_mono u es _ _ d1 h1
      exact ⟨d2, h2, le_trans hle2 hle1⟩
    · exact ih _ e h

theorem fold_nodup {K : Type} [LinearOrderedAddCommMonoid K]
    (u : WeightedEntry K) (es : List (WeightedEdge K)) :
    ∀ (table : List (WeightedEntry K)), (table.map (fun x => x.system)).Nodup →
      ((es.foldl (relax u) table).map (fun x => x.system)).Nodup := by
  induction es with
  | nil => intro table h; exact h
  | cons e es ih => intro table h; exact ih _ (relax_nodup u table e h)

theorem minFold_some {K : Type} [LinearOrderedAddCommMonoid K] (l : List (WeightedEntry K)) :
    ∀ b : WeightedEntry K, ∃ m,
      l.foldl (fun best x =>
        match best with
        | none => some x
        | some b => if x.distance < b.distance then some x else some b) (some b) = some m ∧
      (m = b ∨ m ∈ l) ∧ m.distance ≤ b.distance ∧ ∀ x ∈ l, m.distance ≤ x.distance := by
  induction l with
  | nil => intro b; exact ⟨b, rfl, Or.inl rfl, le_refl _, by simp⟩
  | cons y t ih =>
    intro b
    simp only [List.foldl_cons]
    by_cases hlt : y.distance < b.distance
    · rw [if_pos hlt]
      obtain ⟨m, hm, hmem, hle, hall⟩ := ih y
      refine ⟨m, hm, ?_, le_trans hle (le_of_lt hlt), ?_⟩
      · rcases hmem with h | h
        · exact Or.inr (h ▸ List.mem_cons_self _ _)
        · exact Or.inr (List.mem_cons_of_mem _ h)
      · intro x hx
        rcases List.mem_cons.mp hx with h | h
        · subst h; exact hle
        · exact hall x h
    · rw [if_neg hlt]
      obtain ⟨m, hm, hmem, hle, hall⟩ := ih b
      refine ⟨m, hm, ?_, hle, ?_⟩
      · rcases hmem with h | h
        · exact Or.inl h
        · exact Or.inr (List.mem_cons_of_mem _ h)
      · intro x hx
        rcases List.mem_cons.mp hx with h | h
        · subst h; exact le_trans hle (le_of_not_lt hlt)
        · exact hall x h

theorem extractMin_some {K : Type} [LinearOrderedAddCommMonoid K]
    {table : List (WeightedEntry K)} {finalised : List StarSystem} {u : WeightedEntry K}
    (h : extractMin table finalised = some u) :
    u ∈ table ∧ u.system ∉ finalised ∧
      ∀ x ∈ table, x.system ∉ finalised → u.distance ≤ x.distance := by
  unfold extractMin at h
  have hfilter : ∀ x, x ∈ table.filter (fun x => !(finalised.contains x.system)) ↔
      x ∈ table ∧ x.system ∉ finalised := by
    intro x
    simp [List.mem_filter]
  cases hl : table.filter (fun x => !(finalised.contains x.system)) with
  | nil => rw [hl] at h; simp at h
  | cons y t =>
    rw [hl] at h
    simp only [List.foldl_cons] at h
    obtain ⟨m, hm, hmem, hle, hall⟩ := minFold_some t y
    rw [hm] at h
    simp only [Option.some.injEq] at h
    subst h
    have hmem2 : m ∈ table.filter (fun x => !(finalised.contains x.system)) := by
      rw [hl]
      rcases hmem with h | h
      · exact h ▸ List.mem_cons_self _ _
      · exact List.mem_cons_of_mem _ h
    refine ⟨((hfilter m).mp hmem2).1, ((hfilter m).mp hmem2).2, ?_⟩
    intro x hx hxf
    have hx2 : x ∈ y :: t := by rw [← hl]; exact (hfilter x).mpr ⟨hx, hxf⟩
    rcases List.mem_cons.mp hx2 with h | h
    · subst h; exact hle
    · exact hall x h

theorem extractMin_none {K : Type} [LinearOrderedAddCommMonoid K]
    {table : List (WeightedEntry K)} {finalised : List StarSystem}
    (h : extractMin table finalised = none) : ∀ x ∈ table, x.system ∈ finalised := by
  unfold extractMin at h
  cases hl : table.filter (fun x => !(finalised.contains x.system)) with
  | nil =>
    intro x hx
    by_contra hc
    have : x ∈ table.filter (fun x => !(finalised.contains x.system)) := by
      simp [List.mem_filter, hx, hc]
    rw [hl] at this
    simp at this
  | cons y t =>
    rw [hl] at h
    simp only [List.foldl_cons] at h
    obtain ⟨m, hm, _⟩ := minFold_some t y
    rw [hm] at h
    simp at h

theorem isPath_snoc {K : Type} [LinearOrderedAddCommMonoid K]
    (edges : List (WeightedEdge K)) (e : WeightedEdge K) (he : e ∈ edges) (hal : e.allowed = true) :
    ∀ (p : List (WeightedEdge K)) (a b : StarSystem), isPath edges a b p = true → e.source = b.id →
      isPath edges a ⟨e.destination⟩ (p ++ [e]) = true := by
  intro p
  induction p with
  | nil =>
    intro a b h hs
    simp only [isPath, decide_eq_true_eq] at h
    subst h
    simp [isPath, he, hal, hs]
  | cons e0 rest ih =>
    intro a b h hs
    simp only [isPath, Bool.and_eq_true, decide_eq_true_eq] at h
    simp only [List.cons_append, isPath, Bool.and_eq_true, decide_eq_true_eq]
    exact ⟨h.1, ih _ _ h.2 hs⟩

theorem totalWeight_snoc {K : Type} [LinearOrderedAddCommMonoid K]
    (p : List (WeightedEdge K)) (e : WeightedEdge K) :
    totalWeight (p ++ [e]) = totalWeight p + e.weight := by
  simp [totalWeight]

theorem totalWeight_nonneg {K : Type} [LinearOrderedAddCommMonoid K]
    (edges : List (WeightedEdge K)) (hw : ∀ e ∈ edges, 0 ≤ e.weight) (b : StarSystem) :
    ∀ (p : List (WeightedEdge K)) (a : StarSystem), isPath edges a b p = true →
      0 ≤ totalWeight p := by
  intro p
  induction p with
  | nil => intro a _; simp [totalWeight]
  | cons e rest ih =>
    intro a h
    simp only [isPath, Bool.and_eq_true, decide_eq_true_eq] at h
    simp only [totalWeight, List.map_cons, List.sum_cons]
    exact add_nonneg (hw e h.1.1.1) (ih _ h.2)

/-- One iteration of the search keeps the invariant. -/
theorem inv_step {K : Type} [LinearOrderedAddCommMonoid K] {edges : List (WeightedEdge K)}
    (hw : ∀ e ∈ edges, 0 ≤ e.weight) {start : StarSystem} {table : List (WeightedEntry K)}
    {finalised : List StarSystem} (inv : Inv edges start table finalised)
    {u : WeightedEntry K} (hu : extractMin table finalised = some u) :
    Inv edges start
      ((edges.filter (fun e => decide (e.source = u.system.id) && e.allowed)).foldl
        (relax u) table)
      (u.system :: finalised) := by
  obtain ⟨hut, huf, hmin⟩ := extractMin_some hu
  have hdu : dist table u.system = some u.distance := dist_of_mem inv.nodup hut
  have hes : ∀ e, e ∈ edges.filter (fun e => decide (e.source = u.system.id) && e.allowed) ↔
      e ∈ edges ∧ e.source = u.system.id ∧ e.allowed = true := by
    intro e
    simp [List.mem_filter]
  -- the weight of a finalised system is at most the weight of `u`
  have hle : ∀ s ∈ u.system :: finalised, ∀ d, dist table s = some d → d ≤ u.distance := by
    intro s hs d hd
    rcases List.mem_cons.mp hs with h | h
    · subst h
      rw [hdu] at hd
      simp only [Option.some.injEq] at hd
      exact le_of_eq hd.symm
    · exact inv.sep s h u.system huf d u.distance hd hdu
  have hu0 : 0 ≤ u.distance := by
    obtain ⟨p, hp, hpw⟩ := inv.ach u.system u.distance hdu
    rw [← hpw]
    exact totalWeight_nonneg edges hw u.system p start hp
  have hsome : ∀ s ∈ u.system :: finalised, ∃ d, dist table s = some d := by
    intro s hs
    rcases List.mem_cons.mp hs with h | h
    · subst h; exact ⟨_, hdu⟩
    · exact inv.finSome s h
  -- the rows of the finalised systems do not change
  have hfix : ∀ s ∈ u.system :: finalised, ∀ d, dist table s = some d →
      dist ((edges.filter (fun e => decide (e.source = u.system.id) && e.allowed)).foldl
        (relax u) table) s = some d := by
    intro s hs d hd
    obtain ⟨d', hd', hle'⟩ := fold_mono u _ table s d hd
    rcases fold_origin u _ table s d' hd' with h0 | ⟨e, he, _, hde⟩
    · rw [hd] at h0
      rw [hd', ← h0]
    · have hdu2 := hle s hs d hd
      have hwe := hw e ((hes e).mp he).1
      have : d' = d :=
        le_antisymm hle' (by rw [hde]; exact le_trans hdu2 (le_add_of_nonneg_right hwe))
      rw [hd', this]
  have hfix2 : ∀ s ∈ u.system :: finalised, ∀ d,
      dist ((edges.filter (fun e => decide (e.source = u.system.id) && e.allowed)).foldl
        (relax u) table) s = some d → dist table s = some d := by
    intro s hs d hd
    obtain ⟨d0, hd0⟩ := hsome s hs
    have := hfix s hs d0 hd0
    rw [this] at hd
    rw [hd0, hd]
  refine ⟨fold_nodup u _ table inv.nodup, ?_, ?_, ?_, ?_, ?_, ?_, ?_⟩
  · -- the row of the start
    obtain ⟨d', hd', hle'⟩ := fold_mono u _ table start 0 inv.startRow
    rcases fold_origin u _ table start d' hd' with h0 | ⟨e, he, _, hde⟩
    · rw [inv.startRow] at h0
      rw [hd']
      exact h0.symm
    · have hwe := hw e ((hes e).mp he).1
      have : d' = 0 := le_antisymm hle' (by rw [hde]; exact add_nonneg hu0 hwe)
      rw [hd', this]
  · -- every weight is the weight of a path
    intro s d hd
    rcases fold_origin u _ table s d hd with h0 | ⟨e, he, hs, hde⟩
    · exact inv.ach s d h0
    · obtain ⟨p, hp, hw⟩ := inv.ach u.system u.distance hdu
      obtain ⟨he1, he2, he3⟩ := (hes e).mp he
      refine ⟨p ++ [e], ?_, ?_⟩
      · rw [hs]; exact isPath_snoc edges e he1 he3 p start u.system hp he2
      · rw [totalWeight_snoc, hw, hde]
  · -- the edges out of the finalised systems are relaxed
    intro s hs d hd e he hal hsrc
    have hd0 := hfix2 s hs d hd
    rcases List.mem_cons.mp hs with h | h
    · subst h
      rw [hdu] at hd0
      simp only [Option.some.injEq] at hd0
      obtain ⟨d', hd', hle'⟩ := fold_target u _ table e ((hes e).mpr ⟨he, hsrc, hal⟩)
      exact ⟨d', hd', by rw [← hd0]; exact hle'⟩
    · obtain ⟨d1, hd1, hle1⟩ := inv.relaxed s h d hd0 e he hal hsrc
      obtain ⟨d2, hd2, hle2⟩ := fold_mono u _ table _ d1 hd1
      exact ⟨d2, hd2, le_trans hle2 hle1⟩
  · -- no finalised weight exceeds an undetermined one
    intro s hs t ht d d' hd hd'
    have hd0 := hfix2 s hs d hd
    have hdle := hle s hs d hd0
    have htu : t ≠ u.system := fun hc => ht (hc ▸ List.mem_cons_self _ _)
    have htf : t ∉ finalised := fun hc => ht (List.mem_cons_of_mem _ hc)
    rcases fold_origin u _ table t d' hd' with h0 | ⟨e, he, _, hde⟩
    · obtain ⟨row, hrow, hrs, hrd⟩ := dist_some h0
      have := hmin row hrow (by rw [hrs]; exact htf)
      rw [← hrd]
      exact le_trans hdle this
    · have hwe := hw e ((hes e).mp he).1
      rw [hde]
      exact le_trans hdle (le_add_of_nonneg_right hwe)
  · intro s hs
    obtain ⟨d, hd⟩ := hsome s hs
    exact ⟨d, hfix s hs d hd⟩
  · exact List.nodup_cons.mpr ⟨huf, inv.finNodup⟩
  · intro s d hd
    rcases fold_origin u _ table s d hd with h0 | ⟨e, he, hs, _⟩
    · exact inv.dom s d h0
    · rw [hs]
      exact List.mem_cons_of_mem _
        (List.mem_map_of_mem (fun e => (⟨e.destination⟩ : StarSystem)) ((hes e).mp he).1)

/-- The search ends, within its fuel, with every discovered system finalised. -/
theorem search_complete {K : Type} [LinearOrderedAddCommMonoid K]
    (edges : List (WeightedEdge K)) (hw : ∀ e ∈ edges, 0 ≤ e.weight) (start : StarSystem) :
    ∀ (fuel : Nat) (table : List (WeightedEntry K)) (finalised : List StarSystem),
      Inv edges start table finalised → edges.length + 1 ≤ finalised.length + fuel →
      ∃ done, Inv edges start (search edges fuel table finalised) done ∧
        ∀ s d, dist (search edges fuel table finalised) s = some d → s ∈ done := by
  intro fuel
  induction fuel with
  | zero =>
    intro table finalised inv hlen
    refine ⟨finalised, inv, ?_⟩
    intro s d hd
    have hsub : finalised ⊆ start :: edges.map (fun e => (⟨e.destination⟩ : StarSystem)) := by
      intro t ht
      obtain ⟨dt, hdt⟩ := inv.finSome t ht
      exact inv.dom t dt hdt
    have hperm := (List.subperm_of_subset inv.finNodup hsub).perm_of_length_le
      (by simp only [List.length_cons, List.length_map]; omega)
    exact hperm.symm.subset (inv.dom s d hd)
  | succ fuel ih =>
    intro table finalised inv hlen
    simp only [search]
    cases hu : extractMin table finalised with
    | none =>
      simp only
      refine ⟨finalised, inv, ?_⟩
      intro s d hd
      obtain ⟨row, hrow, hrs, _⟩ := dist_some hd
      rw [← hrs]
      exact extractMin_none hu row hrow
    | some u =>
      simp only
      exact ih _ _ (inv_step hw inv hu) (by simp only [List.length_cons]; omega)

theorem inv_initial {K : Type} [LinearOrderedAddCommMonoid K]
    (edges : List (WeightedEdge K)) (start : StarSystem) :
    Inv edges start [⟨start, 0, none⟩] [] := by
  have hdist : ∀ s d, dist [(⟨start, 0, none⟩ : WeightedEntry K)] s = some d →
      s = start ∧ d = 0 := by
    intro s d h
    obtain ⟨row, hrow, hrs, hrd⟩ := dist_some h
    simp only [List.mem_singleton] at hrow
    subst hrow
    exact ⟨hrs.symm, hrd.symm⟩
  refine ⟨by simp, by simp [dist, lookup], ?_, by simp, by simp, by simp, by simp, ?_⟩
  · intro s d h
    obtain ⟨hs, hd⟩ := hdist s d h
    subst hs; subst hd
    exact ⟨[], by simp [isPath], rfl⟩
  · intro s d h
    rw [(hdist s d h).1]
    exact List.mem_cons_self _ _

/-- A table closed under relaxation bounds the weight of every path from below. -/
theorem closed_lower {K : Type} [LinearOrderedAddCommMonoid K]
    (edges : List (WeightedEdge K)) (table : List (WeightedEntry K))
    (hclosed : ∀ s d, dist table s = some d → ∀ e ∈ edges, e.allowed = true →
      e.source = s.id → ∃ d', dist table ⟨e.destination⟩ = some d' ∧ d' ≤ d + e.weight)
    (b : StarSystem) :
    ∀ (p : List (WeightedEdge K)) (a : StarSystem) (da : K), dist table a = some da →
      isPath edges a b p = true → ∃ db, dist table b = some db ∧ db ≤ da + totalWeight p := by
  intro p
  induction p with
  | nil =>
    intro a da hda hp
    simp only [isPath, decide_eq_true_eq] at hp
    subst hp
    exact ⟨da, hda, by simp [totalWeight]⟩
  | cons e rest ih =>
    intro a da hda hp
    simp only [isPath, Bool.and_eq_true, decide_eq_true_eq] at hp
    obtain ⟨⟨⟨he, hal⟩, hsrc⟩, hrest⟩ := hp
    obtain ⟨d1, hd1, hle1⟩ := hclosed a da hda e he hal hsrc
    obtain ⟨db, hdb, hle2⟩ := ih _ d1 hd1 hrest
    refine ⟨db, hdb, ?_⟩
    simp only [totalWeight, List.map_cons, List.sum_cons] at hle2 ⊢
    calc db ≤ d1 + (rest.map (fun e => e.weight)).sum := hle2
      _ ≤ da + e.weight + (rest.map (fun e => e.weight)).sum := add_le_add_right hle1 _
      _ = da + (e.weight + (rest.map (fun e => e.weight)).sum) := add_assoc _ _ _

theorem walkEntries_suffix {K : Type} [LinearOrderedAddCommMonoid K]
    (table : List (WeightedEntry K)) :
    ∀ (fuel : Nat) (x : StarSystem) (acc : List (StarSystem × Option K)),
      ∃ pre, walkEntries table fuel x acc = pre ++ acc := by
  intro fuel
  induction fuel with
  | zero => intro x acc; exact ⟨[], rfl⟩
  | succ fuel ih =>
    intro x acc
    simp only [walkEntries]
    cases lookup table x with
    | none => exact ⟨[(x, none)], rfl⟩
    | some row =>
      simp only
      cases row.previous with
      | none => exact ⟨[(x, some row.distance)], rfl⟩
      | some p =>
        simp only
        obtain ⟨pre, hpre⟩ := ih p ((x, some row.distance) :: acc)
        exact ⟨pre ++ [(x, some row.distance)], by rw [hpre]; simp⟩

theorem walkEntries_last {K : Type} [LinearOrderedAddCommMonoid K]
    (table : List (WeightedEntry K)) (fuel : Nat) (x : StarSystem) :
    (walkEntries table (fuel + 1) x []).getLast? = some (x, dist table x) := by
  simp only [walkEntries, dist]
  cases lookup table x with
  | none => rfl
  | some row =>
    simp only [Option.map_some']
    cases row.previous with
    | none => rfl
    | some p =>
      simp only
      obtain ⟨pre, hpre⟩ := walkEntries_suffix table fuel p [(x, some row.distance)]
      rw [hpre]
      simp

theorem walkEntries_systems {K : Type} [LinearOrderedAddCommMonoid K]
    (table : List (WeightedEntry K)) :
    ∀ (fuel : Nat) (x : StarSystem) (acc : List (StarSystem × Option K)),
      (walkEntries table fuel x acc).map Prod.fst = walk table fuel x (acc.map Prod.fst) := by
  intro fuel
  induction fuel with
  | zero => intro x acc; rfl
  | succ fuel ih =>
    intro x acc
    simp only [walkEntries, walk]
    cases lookup table x with
    | none => rfl
    | some row =>
      simp only
      cases row.previous with
      | none => rfl
      | some p =>
        simp only
        rw [ih]
        rfl

end Solver

/-- C24: for every graph whose edge weights are non-negative numbers (elements of any
linearly ordered additive monoid: lengths, multiples of lengths, zero), and every start and end
joined by a path of allowed edges, the last element of `routeArray()` after the search is the
end with a cumulative weight that is the total weight of a path of allowed edges from start to
end and is at most the total weight of every such path; the systems of these elements are the
route array the segments of a route are built with. -/
theorem routeEntries_optimal {K : Type} [LinearOrderedAddCommMonoid K]
    (edges : List (WeightedEdge K)) (start destination : StarSystem)
    (hw : ∀ e ∈ edges, 0 ≤ e.weight)
    (p : List (WeightedEdge K)) (hp : Solver.isPath edges start destination p = true) :
    ∃ d, (Solver.routeEntries edges start destination).getLast? = some (destination, some d) ∧
      (∃ q, Solver.isPath edges start destination q = true ∧ Solver.totalWeight q = d) ∧
      (∀ q, Solver.isPath edges start destination q = true → d ≤ Solver.totalWeight q) ∧
      (dijkstraEnv edges).routeArray (some start) (some destination)
        = some ((Solver.routeEntries edges start destination).map Prod.fst) := by
  obtain ⟨done, inv, hdone⟩ := Solver.search_complete edges hw start (edges.length + 1)
    [⟨start, 0, none⟩] [] (Solver.inv_initial edges start) (by simp)
  have hclosed : ∀ s d,
      Solver.dist (Solver.search edges (edges.length + 1) [⟨start, 0, none⟩] []) s = some d →
      ∀ e ∈ edges, e.allowed = true → e.source = s.id →
      ∃ d', Solver.dist (Solver.search edges (edges.length + 1) [⟨start, 0, none⟩] [])
        ⟨e.destination⟩ = some d' ∧ d' ≤ d + e.weight :=
    fun s d hd => inv.relaxed s (hdone s d hd) d hd
  obtain ⟨d, hd, _⟩ := Solver.closed_lower edges _ hclosed destination p start 0
    inv.startRow hp
  refine ⟨d, ?_, inv.ach destination d hd, ?_, ?_⟩
  · unfold Solver.routeEntries
    rw [Solver.walkEntries_last, hd]
  · intro q hq
    obtain ⟨d', hd', hle⟩ := Solver.closed_lower edges _ hclosed destination q start 0
      inv.startRow hq
    rw [hd] at hd'
    simp only [Option.some.injEq] at hd'
    rw [zero_add] at hle
    rw [hd']
    exact hle
  · unfold Solver.routeEntries
    rw [Solver.walkEntries_systems]
    rfl

/-- Witness of `routeEntries_optimal`: on the graph `A → B` (5/2), `B → D` (5/2),
`A → C` (3/2), `C → D` (3/4), with rational weights, the path `A, C, D` joins `A` to `D`. -/
theorem routeEntries_optimal_witness :
    (∀ e ∈ mapDiamondQ, 0 ≤ e.weight) ∧
      Solver.isPath mapDiamondQ nodeA nodeD [⟨1, 3, 3 / 2, true⟩, ⟨3, 5, 3 / 4, true⟩] = true ∧
      ∃ d, (Solver.routeEntries mapDiamondQ nodeA nodeD).getLast? = some (nodeD, some d) ∧
        (∃ q, Solver.isPath mapDiamondQ nodeA nodeD q = true ∧ Solver.totalWeight q = d) ∧
        ∀ q, Solver.isPath mapDiamondQ nodeA nodeD q = true → d ≤ Solver.totalWeight q :=
  have hw : ∀ e ∈ mapDiamondQ, 0 ≤ e.weight := by
    intro e he
    simp only [mapDiamondQ, List.mem_cons, List.mem_singleton, List.not_mem_nil, or_false] at he
    rcases he with h | h | h | h <;> subst h <;> norm_num
  have hp : Solver.isPath mapDiamondQ nodeA nodeD
      [⟨1, 3, 3 / 2, true⟩, ⟨3, 5, 3 / 4, true⟩] = true := by
    simp [Solver.isPath, mapDiamondQ, nodeA, nodeD]
  ⟨hw, hp,
    (routeEntries_optimal mapDiamondQ nodeA nodeD hw [⟨1, 3, 3 / 2, true⟩, ⟨3, 5, 3 / 4, true⟩]
      hp).imp (fun _ h => ⟨h.1, h.2.1, h.2.2.1⟩)⟩

end SCMAP
